import Mathlib

/-!
# RAG chatbot backend: session store, query cache, fallback embedding

A shallow embedding of `services/sessionService.js`, `services/ragService.js`
and `services/embeddingService.js`.

Modelling conventions.

* The Redis client of `config/redis.js` is a key/value store whose values are
  either Redis strings or Redis lists.  A stored string is always a JSON text
  written by `JSON.stringify`; it is represented by the value it denotes, so
  `JSON.parse (JSON.stringify v) = v` holds by construction.
* The two services use disjoint key namespaces (`session:` and `rag_cache:`),
  so each service is given the part of the keyspace it owns, typed by what it
  stores there.
* A command of the client either answers or rejects.  Rejections that come from
  the backing store being unreachable are an input of the model: the store
  carries a schedule of booleans, one per command still to be issued, and a
  command whose flag is `true` rejects.  An exhausted schedule means that every
  further command is answered.
* Timestamps (`new Date().toISOString()`, `Date.now()`) are milliseconds since
  the epoch; a service call reads the clock value it is given.
* Awaited calls run to completion one after the other: there is no
  interleaving.
-/

namespace RagChatbot

/-! ## Errors -/

/-- What a rejected promise or a thrown exception carries. -/
inductive JsError where
  /-- the backing store could not be reached -/
  | storeUnavailable
  /-- Redis `WRONGTYPE`: the key holds a value of the other kind -/
  | wrongType
  /-- a JavaScript `TypeError` (property access on `undefined` or `null`) -/
  | typeError
  /-- an external provider (vector index, generative model) rejected -/
  | provider
  deriving DecidableEq, Repr

/-! ## The Redis client (`config/redis.js`) -/

/-- A Redis value: a string (holding a JSON text that denotes `v`) or a list. -/
inductive RedisValue (σ ι : Type) where
  | str (v : σ)
  | list (items : List ι)
  deriving DecidableEq, Repr

/-- A stored value with its remaining time to live in seconds, if it has one. -/
structure RedisEntry (σ ι : Type) where
  value : RedisValue σ ι
  ttl : Option Nat
  deriving DecidableEq, Repr

/-- The store behind the client: the keyspace and the schedule of rejections. -/
structure Redis (σ ι : Type) where
  data : List (String × RedisEntry σ ι)
  faults : List Bool

section RedisCommands

variable {σ ι : Type}

/-- The entry stored under `key` (the first binding of the key). -/
def lookupKey (key : String) : List (String × RedisEntry σ ι) → Option (RedisEntry σ ι)
  | [] => none
  | (k, e) :: rest => if k = key then some e else lookupKey key rest

/-- Remove every binding of `key`. -/
def eraseKey (key : String) (d : List (String × RedisEntry σ ι)) :
    List (String × RedisEntry σ ι) :=
  d.filter (fun p => decide (p.1 ≠ key))

/-- Bind `key` to `e`, replacing what it held. -/
def putKey (key : String) (e : RedisEntry σ ι) (d : List (String × RedisEntry σ ι)) :
    List (String × RedisEntry σ ι) :=
  (key, e) :: eraseKey key d

/-- Whether the command about to be issued is rejected. -/
def Redis.faulted (w : Redis σ ι) : Bool :=
  w.faults.headD false

/-- The store after one command has been issued, with the keyspace `d`. -/
def Redis.advance (w : Redis σ ι) (d : List (String × RedisEntry σ ι)) : Redis σ ι :=
  { data := d, faults := w.faults.tail }

/-- Redis index normalisation: a negative index counts from the end. -/
def normIndex (len : Nat) (i : Int) : Int :=
  if i < 0 then (len : Int) + i else i

/-- The elements of `xs` from index `start` to index `stop`, both inclusive, with
the index rules shared by `LRANGE` and `LTRIM`. -/
def slice {α : Type} (xs : List α) (start stop : Int) : List α :=
  let s := max (normIndex xs.length start) 0
  let e := min (normIndex xs.length stop) ((xs.length : Int) - 1)
  if s > e then [] else (xs.drop s.toNat).take (e - s + 1).toNat

/-- `GET key`. -/
def Redis.get (key : String) (w : Redis σ ι) : Except JsError (Option σ) × Redis σ ι :=
  if w.faulted then (.error .storeUnavailable, w.advance w.data) else
  match lookupKey key w.data with
  | none => (.ok none, w.advance w.data)
  | some ⟨.str v, _⟩ => (.ok (some v), w.advance w.data)
  | some ⟨.list _, _⟩ => (.error .wrongType, w.advance w.data)

/-- `SETEX key seconds value`: overwrites whatever the key held. -/
def Redis.setEx (key : String) (seconds : Nat) (v : σ) (w : Redis σ ι) :
    Except JsError Unit × Redis σ ι :=
  if w.faulted then (.error .storeUnavailable, w.advance w.data) else
  (.ok (), w.advance (putKey key ⟨.str v, some seconds⟩ w.data))

/-- `LPUSH key element`: answers the new length. -/
def Redis.lPush (key : String) (x : ι) (w : Redis σ ι) : Except JsError Nat × Redis σ ι :=
  if w.faulted then (.error .storeUnavailable, w.advance w.data) else
  match lookupKey key w.data with
  | none => (.ok 1, w.advance (putKey key ⟨.list [x], none⟩ w.data))
  | some ⟨.list xs, t⟩ =>
    (.ok (xs.length + 1), w.advance (putKey key ⟨.list (x :: xs), t⟩ w.data))
  | some ⟨.str _, _⟩ => (.error .wrongType, w.advance w.data)

/-- `LTRIM key start stop`: a list trimmed to nothing is removed. -/
def Redis.lTrim (key : String) (start stop : Int) (w : Redis σ ι) :
    Except JsError Unit × Redis σ ι :=
  if w.faulted then (.error .storeUnavailable, w.advance w.data) else
  match lookupKey key w.data with
  | none => (.ok (), w.advance w.data)
  | some ⟨.list xs, t⟩ =>
    match slice xs start stop with
    | [] => (.ok (), w.advance (eraseKey key w.data))
    | y :: ys => (.ok (), w.advance (putKey key ⟨.list (y :: ys), t⟩ w.data))
  | some ⟨.str _, _⟩ => (.error .wrongType, w.advance w.data)

/-- `EXPIRE key seconds`: answers whether the key exists. -/
def Redis.expire (key : String) (seconds : Nat) (w : Redis σ ι) :
    Except JsError Bool × Redis σ ι :=
  if w.faulted then (.error .storeUnavailable, w.advance w.data) else
  match lookupKey key w.data with
  | none => (.ok false, w.advance w.data)
  | some e => (.ok true, w.advance (putKey key { e with ttl := some seconds } w.data))

/-- `LRANGE key start stop`. -/
def Redis.lRange (key : String) (start stop : Int) (w : Redis σ ι) :
    Except JsError (List ι) × Redis σ ι :=
  if w.faulted then (.error .storeUnavailable, w.advance w.data) else
  match lookupKey key w.data with
  | none => (.ok [], w.advance w.data)
  | some ⟨.list xs, _⟩ => (.ok (slice xs start stop), w.advance w.data)
  | some ⟨.str _, _⟩ => (.error .wrongType, w.advance w.data)

/-- `DEL key`: answers the number of keys removed. -/
def Redis.del (key : String) (w : Redis σ ι) : Except JsError Nat × Redis σ ι :=
  if w.faulted then (.error .storeUnavailable, w.advance w.data) else
  match lookupKey key w.data with
  | none => (.ok 0, w.advance w.data)
  | some _ => (.ok 1, w.advance (eraseKey key w.data))

/-- `KEYS pfx*`: the keys that start with `pfx`, each once. -/
def Redis.keys (pfx : String) (w : Redis σ ι) : Except JsError (List String) × Redis σ ι :=
  if w.faulted then (.error .storeUnavailable, w.advance w.data) else
  (.ok (((w.data.map Prod.fst).dedup).filter (fun k => decide (pfx.data <+: k.data))),
    w.advance w.data)

end RedisCommands

/-! ## `services/sessionService.js` -/

/-- The session record written by `createSession`. -/
structure Session where
  id : String
  createdAt : Nat
  lastActivity : Nat
  messageCount : Nat
  deriving DecidableEq, Repr

/-- The object handed to `addToHistory` by the gateways. -/
structure MessageData where
  user : String
  bot : String
  timestamp : String
  deriving DecidableEq, Repr

/-- A stored history item: `{ ...messageData, id: Date.now().toString() }`. -/
structure HistoryItem extends MessageData where
  id : String
  deriving DecidableEq, Repr

/-- The keys under `session:`: records are strings, histories are lists. -/
abbrev SessionStore := Redis Session HistoryItem

/-- `this.sessionPrefix`. -/
def sessionPrefix : String := "session:"

/-- The record key of a session. -/
def sessionKey (sessionId : String) : String :=
  sessionPrefix ++ sessionId

/-- The history key of a session. -/
def historyKey (sessionId : String) : String :=
  sessionPrefix ++ sessionId ++ ":history"

/-- `createSession(sessionId)`; `ttl` is `this.sessionTTL`. -/
def createSession (ttl now : Nat) (sessionId : String) (w : SessionStore) :
    Except JsError Session × SessionStore :=
  let sessionData : Session :=
    { id := sessionId, createdAt := now, lastActivity := now, messageCount := 0 }
  match Redis.setEx (sessionKey sessionId) ttl sessionData w with
  | (.ok _, w1) => (.ok sessionData, w1)
  | (.error e, w1) => (.error e, w1)

/-- `getSession(sessionId)`: a rejected read is logged and answered with `null`. -/
def getSession (sessionId : String) (w : SessionStore) : Option Session × SessionStore :=
  match Redis.get (sessionKey sessionId) w with
  | (.ok none, w1) => (none, w1)
  | (.ok (some sessionData), w1) => (some sessionData, w1)
  | (.error _, w1) => (none, w1)

/-- `updateSessionActivity(sessionId)`. -/
def updateSessionActivity (ttl now : Nat) (sessionId : String) (w : SessionStore) :
    Except JsError Session × SessionStore :=
  match getSession sessionId w with
  | (none, w1) => createSession ttl now sessionId w1
  | (some session, w1) =>
    let session1 : Session :=
      { session with lastActivity := now, messageCount := session.messageCount + 1 }
    match Redis.setEx (sessionKey sessionId) ttl session1 w1 with
    | (.ok _, w2) => (.ok session1, w2)
    | (.error e, w2) => (.error e, w2)

/-- `addToHistory(sessionId, messageData)`. -/
def addToHistory (ttl now : Nat) (sessionId : String) (messageData : MessageData)
    (w : SessionStore) : Except JsError Unit × SessionStore :=
  let historyItem : HistoryItem := { messageData with id := toString now }
  match Redis.lPush (historyKey sessionId) historyItem w with
  | (.error e, w1) => (.error e, w1)
  | (.ok _, w1) =>
    match Redis.lTrim (historyKey sessionId) 0 49 w1 with
    | (.error e, w2) => (.error e, w2)
    | (.ok _, w2) =>
      match Redis.expire (historyKey sessionId) ttl w2 with
      | (.error e, w3) => (.error e, w3)
      | (.ok _, w3) =>
        match updateSessionActivity ttl now sessionId w3 with
        | (.error e, w4) => (.error e, w4)
        | (.ok _, w4) => (.ok (), w4)

/-- `getSessionHistory(sessionId)`: oldest first; a rejected read is logged and
answered with the empty array. -/
def getSessionHistory (sessionId : String) (w : SessionStore) :
    List HistoryItem × SessionStore :=
  match Redis.lRange (historyKey sessionId) 0 (-1) w with
  | (.ok historyItems, w1) => (historyItems.reverse, w1)
  | (.error _, w1) => ([], w1)

/-- `clearSession(sessionId)`: both `DEL` commands are issued, and the call
rejects when either of them does (`Promise.all`). -/
def clearSession (sessionId : String) (w : SessionStore) : Except JsError Unit × SessionStore :=
  match Redis.del (sessionKey sessionId) w with
  | (r1, w1) =>
    match Redis.del (historyKey sessionId) w1 with
    | (r2, w2) =>
      match r1, r2 with
      | .ok _, .ok _ => (.ok (), w2)
      | .error e, _ => (.error e, w2)
      | .ok _, .error e => (.error e, w2)

/-- `key.includes(sub)`. -/
def includes (key sub : String) : Bool :=
  decide (sub.data <:+: key.data)

/-- The loop of `getActiveSessions` over the session keys. -/
def readSessions : List String → SessionStore → Except JsError (List Session) × SessionStore
  | [], w => (.ok [], w)
  | key :: rest, w =>
    match Redis.get key w with
    | (.error e, w1) => (.error e, w1)
    | (.ok sessionData, w1) =>
      match readSessions rest w1 with
      | (.error e, w2) => (.error e, w2)
      | (.ok sessions, w2) =>
        match sessionData with
        | some s => (.ok (s :: sessions), w2)
        | none => (.ok sessions, w2)

/-- `getActiveSessions()`: any rejection is logged and answered with `[]`. -/
def getActiveSessions (w : SessionStore) : List Session × SessionStore :=
  match Redis.keys sessionPrefix w with
  | (.error _, w1) => ([], w1)
  | (.ok keys, w1) =>
    let sessionKeys := keys.filter (fun key => !includes key ":history")
    match readSessions sessionKeys w1 with
    | (.error _, w2) => ([], w2)
    | (.ok sessions, w2) => (sessions, w2)

/-- The test `timeDiff > this.sessionTTL` of `cleanupExpiredSessions`, with
`timeDiff = (now - lastActivity) / 1000` taken exactly. -/
def expired (ttl now : Nat) (session : Session) : Bool :=
  decide ((ttl : Int) * 1000 < (now : Int) - (session.lastActivity : Int))

/-- The loop of `cleanupExpiredSessions` over the sessions read. -/
def sweep (ttl now : Nat) : List Session → Nat → SessionStore → Except JsError Nat × SessionStore
  | [], cleanedCount, w => (.ok cleanedCount, w)
  | session :: rest, cleanedCount, w =>
    if expired ttl now session then
      match clearSession session.id w with
      | (.error e, w1) => (.error e, w1)
      | (.ok _, w1) => sweep ttl now rest (cleanedCount + 1) w1
    else sweep ttl now rest cleanedCount w

/-- `cleanupExpiredSessions()`: a rejection is logged and answered with `0`. -/
def cleanupExpiredSessions (ttl now : Nat) (w : SessionStore) : Nat × SessionStore :=
  match getActiveSessions w with
  | (sessions, w1) =>
    match sweep ttl now sessions 0 w1 with
    | (.ok cleanedCount, w2) => (cleanedCount, w2)
    | (.error _, w2) => (0, w2)

/-! ## Observations and runs used to state the properties -/

/-- Number of entries of the history list stored for a session (`0` when the
history key is absent or does not hold a list). -/
def historyLength (w : SessionStore) (sessionId : String) : Nat :=
  match lookupKey (historyKey sessionId) w.data with
  | some ⟨.list items, _⟩ => items.length
  | _ => 0

/-- The history item `addToHistory` builds from an entry and the clock value. -/
def historyItemOf (call : Nat × MessageData) : HistoryItem :=
  { call.2 with id := toString call.1 }

/-- A run of sequential `addToHistory` calls for one session, each given as the
clock value it reads and the entry it appends; the run stops at the first call
that rejects. -/
def addAllToHistory (ttl : Nat) (sessionId : String) :
    List (Nat × MessageData) → SessionStore → Except JsError Unit × SessionStore
  | [], w => (.ok (), w)
  | (now, m) :: rest, w =>
    match addToHistory ttl now sessionId m w with
    | (.error e, w1) => (.error e, w1)
    | (.ok _, w1) => addAllToHistory ttl sessionId rest w1

/-- The store answers every command and the history list of the session is `L`
(the key being absent when `L` is empty). -/
def HistoryIs (w : SessionStore) (sessionId : String) (L : List HistoryItem) : Prop :=
  w.faults = [] ∧
    ((L = [] ∧ lookupKey (historyKey sessionId) w.data = none) ∨
     (L ≠ [] ∧ ∃ t, lookupKey (historyKey sessionId) w.data = some ⟨.list L, t⟩))


/-- The session record stored under `key`, if the key holds one. -/
def recordAt (w : SessionStore) (key : String) : Option Session :=
  match lookupKey key w.data with
  | some ⟨.str s, _⟩ => some s
  | _ => none

/-- The shape of the keyspace the service maintains: a record sits under the key
of its own id, and a list sits under a key that contains `:history`. -/
def WellFormed (w : SessionStore) : Prop :=
  ∀ key e, lookupKey key w.data = some e →
    match e.value with
    | .str s => key = sessionKey s.id
    | .list _ => includes key ":history" = true

/-- The keys `cleanupExpiredSessions` reads and finds expired: the keys under
`session:` that do not contain `:history` and hold a record whose age exceeds
the time to live. -/
def sweptKeys (ttl now : Nat) (w : SessionStore) : List String :=
  (((w.data.map Prod.fst).dedup).filter
      (fun k => decide (sessionPrefix.data <+: k.data))).filter
    (fun k => !includes k ":history" && (recordAt w k).any (expired ttl now))

/-- The key is one of the two keys of an expired session of the list. -/
def Cleared (ttl now : Nat) (sessions : List Session) (key : String) : Prop :=
  ∃ s ∈ sessions, expired ttl now s = true ∧ (key = sessionKey s.id ∨ key = historyKey s.id)

/-- A keyspace for examples: the session `old`, last active at time `0`, and the
session `new`, last active at time `3999000`, each with one history entry. -/
def sampleSessions : SessionStore :=
  { data :=
      [("session:old", ⟨.str ⟨"old", 0, 0, 1⟩, some 3600⟩),
       ("session:old:history", ⟨.list [⟨⟨"Hello", "Hi", "t0"⟩, "0"⟩], some 3600⟩),
       ("session:new", ⟨.str ⟨"new", 3999000, 3999000, 1⟩, some 3600⟩),
       ("session:new:history", ⟨.list [⟨⟨"Hello", "Hi", "t1"⟩, "3999000"⟩], some 3600⟩)]
    faults := [] }

/-- The check behind `WellFormed` on one binding of the keyspace. -/
def entryShape (p : String × RedisEntry Session HistoryItem) : Bool :=
  match p.2.value with
  | .str s => decide (p.1 = sessionKey s.id)
  | .list _ => includes p.1 ":history"

/-! ## JavaScript strings -/

/-- A JavaScript string as the pipeline receives it: the sequence of its UTF-16
code units, each below `65536`.  Unlike a text, it may hold a surrogate that is
not part of a pair. -/
abbrev JsString := List Nat

/-- The UTF-16 code units of a code point: itself, or a surrogate pair. -/
def codePointUnits (c : Nat) : List Nat :=
  if c < 0x10000 then [c]
  else [0xD800 + (c - 0x10000) / 0x400, 0xDC00 + (c - 0x10000) % 0x400]

/-- The UTF-16 code units of a character. -/
def utf16Units (c : Char) : List Nat :=
  codePointUnits c.toNat

/-- The JavaScript string of a text. -/
def toUtf16 (s : String) : JsString :=
  s.data.flatMap utf16Units

/-! ## `services/embeddingService.js` -/

/-- The builtins of the JavaScript runtime the fallback embedding calls, over
the number type `R`: `Math.sin`, `Math.sqrt` and `String.prototype.toLowerCase`
(whose Unicode case tables are not part of the repository). -/
structure Runtime (R : Type) where
  sin : R → R
  sqrt : R → R
  toLowerCase : JsString → JsString

/-- The code units matched by `\s` in a JavaScript regular expression. -/
def isWhitespace (n : Nat) : Bool :=
  n = 0x09 || n = 0x0A || n = 0x0B || n = 0x0C || n = 0x0D || n = 0x20 || n = 0xA0 ||
  n = 0x1680 || (0x2000 ≤ n && n ≤ 0x200A) || n = 0x2028 || n = 0x2029 || n = 0x202F ||
  n = 0x205F || n = 0x3000 || n = 0xFEFF

/-- The scan behind `split(/\s+/)`: `cur` is the word being read (reversed) and
`inRun` tells whether the previous code unit was whitespace. -/
def splitAux : JsString → JsString → Bool → List JsString
  | [], cur, _ => [cur.reverse]
  | c :: cs, cur, inRun =>
    if isWhitespace c then
      if inRun then splitAux cs cur true
      else cur.reverse :: splitAux cs [] true
    else splitAux cs (c :: cur) false

/-- `text.split(/\s+/)`: the pieces between maximal runs of whitespace; leading
and trailing whitespace give an empty first and last piece, and the empty text
gives one empty piece. -/
def splitWhitespace (text : JsString) : List JsString :=
  splitAux text [] false

section Embedding

variable {R : Type} [LinearOrderedField R]

/-- `embedding[index] += x`. -/
def addAt : List R → Nat → R → List R
  | [], _, _ => []
  | v :: vs, 0, x => (v + x) :: vs
  | v :: vs, index + 1, x => v :: addAt vs index x

/-- The inner loop of `generateSimpleEmbedding` over the code units of the word
with index `i` (what `charCodeAt` reads), from index `j` on. -/
def accumulateWord (rt : Runtime R) (i : Nat) : JsString → Nat → List R → List R
  | [], _, embedding => embedding
  | charCode :: rest, j, embedding =>
    let index := (charCode + i + j) % embedding.length
    accumulateWord rt i rest (j + 1)
      (addAt embedding index (rt.sin ((charCode : R) * 0.1) * 0.1))

/-- The outer loop of `generateSimpleEmbedding` over the words, from word index
`i` on. -/
def accumulateWords (rt : Runtime R) : List JsString → Nat → List R → List R
  | [], _, embedding => embedding
  | word :: rest, i, embedding =>
    accumulateWords rt rest (i + 1) (accumulateWord rt i word 0 embedding)

/-- The accumulator of `generateSimpleEmbedding` before normalisation. -/
def simpleAccumulator (rt : Runtime R) (text : JsString) : List R :=
  let words := splitWhitespace (rt.toLowerCase text)
  accumulateWords rt words 0 (List.replicate 384 0)

/-- `generateSimpleEmbedding(text)`. -/
def generateSimpleEmbedding (rt : Runtime R) (text : JsString) : List R :=
  let embedding := simpleAccumulator rt text
  let magnitude := rt.sqrt (embedding.foldl (fun sum val => sum + val * val) 0)
  embedding.map (fun val => if magnitude > 0 then val / magnitude else 0)

/-- `generateEmbedding(text)`: the provider's embedding, or the local one when
the provider is not configured or rejects (`jina text = none`); the flag tells
whether the provider answered. -/
def generateEmbedding (rt : Runtime R) (jina : JsString → Option (List R)) (text : JsString) :
    List R × Bool :=
  match jina text with
  | some embedding => (embedding, true)
  | none => (generateSimpleEmbedding rt text, false)

end Embedding

/-! ## `services/ragService.js` -/

/-- The UTF-8 bytes of a code point. -/
def utf8EncodeChar (c : Nat) : List Nat :=
  if c < 0x80 then [c]
  else if c < 0x800 then [0xC0 + c / 64, 0x80 + c % 64]
  else if c < 0x10000 then [0xE0 + c / 4096, 0x80 + c / 64 % 64, 0x80 + c % 64]
  else [0xF0 + c / 262144, 0x80 + c / 4096 % 64, 0x80 + c / 64 % 64, 0x80 + c % 64]

/-- A code unit that is the first half of a surrogate pair. -/
def isHighSurrogate (u : Nat) : Bool :=
  0xD800 ≤ u && u < 0xDC00

/-- A code unit that is the second half of a surrogate pair. -/
def isLowSurrogate (u : Nat) : Bool :=
  0xDC00 ≤ u && u < 0xE000

/-- The code point read from a code unit that stands alone: a surrogate without
its partner is read as U+FFFD. -/
def loneCodePoint (u : Nat) : Nat :=
  if isHighSurrogate u || isLowSurrogate u then 0xFFFD else u

/-- The code points `Buffer.from(string)` reads from a JavaScript string: a
surrogate pair gives its supplementary code point, every other code unit gives
`loneCodePoint`. -/
def codePoints : JsString → List Nat
  | [] => []
  | [u] => [loneCodePoint u]
  | u :: v :: rest =>
    if isHighSurrogate u && isLowSurrogate v then
      (0x10000 + (u - 0xD800) * 0x400 + (v - 0xDC00)) :: codePoints rest
    else loneCodePoint u :: codePoints (v :: rest)

/-- `Buffer.from(query)`: the UTF-8 bytes of a JavaScript string. -/
def utf8Encode (s : JsString) : List Nat :=
  (codePoints s).flatMap utf8EncodeChar

/-- A JavaScript string without unpaired surrogate (and with code units in
range): the strings that are texts. -/
def wellFormed : JsString → Bool
  | [] => true
  | [u] => !isHighSurrogate u && !isLowSurrogate u && decide (u < 0x10000)
  | u :: v :: rest =>
    if isHighSurrogate u then isLowSurrogate v && wellFormed rest
    else !isLowSurrogate u && decide (u < 0x10000) && wellFormed (v :: rest)

/-- The base64 alphabet. -/
def base64Alphabet : String :=
  "ABCDEFGHIJKLMNOPQRSTUVWXYZabcdefghijklmnopqrstuvwxyz0123456789+/"

/-- The base64 digit of a 6-bit value. -/
def base64Char (i : Nat) : Char :=
  base64Alphabet.data.getD i '='

/-- `buffer.toString('base64')`: three bytes give four digits, and the last
group is padded with `=`. -/
def base64Encode : List Nat → List Char
  | [] => []
  | [a] => [base64Char (a / 4), base64Char (a % 4 * 16), '=', '=']
  | [a, b] =>
    [base64Char (a / 4), base64Char (a % 4 * 16 + b / 16), base64Char (b % 16 * 4), '=']
  | a :: b :: c :: rest =>
    base64Char (a / 4) :: base64Char (a % 4 * 16 + b / 16)
      :: base64Char (b % 16 * 4 + c / 64) :: base64Char (c % 64) :: base64Encode rest

/-- `this.cachePrefix`. -/
def cachePrefix : String := "rag_cache:"

/-- The cache key of a query: the prefix followed by the base64 of the query. -/
def cacheKey (query : JsString) : String :=
  cachePrefix ++ String.mk (base64Encode (utf8Encode query))

/-- The metadata record of a retrieved document; a field may be missing. -/
structure Metadata where
  title : Option String
  url : Option String
  published_date : Option String
  deriving DecidableEq, Repr

/-- What `chromaService.queryDocuments` resolves to: one row of documents and
one row of metadata per query embedding; either property may be missing. -/
structure SearchResults where
  documents : Option (List (List String))
  metadatas : Option (List (List (Option Metadata)))
  deriving DecidableEq, Repr

/-- The collaborators of the pipeline, each of which may reject. -/
structure Collaborators (R : Type) where
  /-- the embedding provider; `none` when it is not configured or rejects -/
  jina : JsString → Option (List R)
  /-- `collection.query` with the query embedding and `nResults` -/
  chroma : List R → Nat → Except JsError SearchResults
  /-- `model.generateContent(prompt)` followed by `response.text()` -/
  gemini : JsString → Except JsError String

/-- What `processQuery` did to its collaborators, in order. -/
inductive Event where
  | cacheGet (key : String) (answered : Bool)
  | embed (text : JsString) (providerAnswered : Bool)
  | search (answered : Bool)
  | generate (prompt : JsString) (answered : Bool)
  | cacheSet (key : String) (answered : Bool)
  deriving DecidableEq, Repr

/-- The fallback answer of `processQuery`. -/
def fallbackResponse : String :=
  "I don\x27t have enough information in my knowledge base to answer that question. Could you try asking about recent news topics?"

/-- The answer of the `catch` branch of `processQuery`. -/
def apologyResponse : String :=
  "I\x27m sorry, I encountered an error while processing your question. Please try again."

/-- The JavaScript `value || fallback` on an optional text: a missing value and
the empty text are both falsy. -/
def orDefault (value : Option String) (dflt : String) : String :=
  match value with
  | some s => if s = "" then dflt else s
  | none => dflt

/-- The block of the document with index `index`. -/
def articleBlock (index : Nat) (doc : String) (metadata : Option Metadata) : String :=
  "Article " ++ toString (index + 1) ++ ": "
    ++ orDefault (metadata.bind Metadata.title) "News Article"
    ++ "\nContent: " ++ doc
    ++ "\nSource: " ++ orDefault (metadata.bind Metadata.url) "Unknown"
    ++ "\nPublished: " ++ orDefault (metadata.bind Metadata.published_date) "Unknown"

/-- The blocks of the documents `docs`, the first of which has index `index`;
`row` is `metadatas[0]`, and an index past its end reads `undefined`. -/
def articleBlocks (row : List (Option Metadata)) : List String → Nat → List String
  | [], _ => []
  | doc :: rest, index =>
    articleBlock index doc ((row.get? index).join) :: articleBlocks row rest (index + 1)

/-- The context of the prompt: the blocks of the first three documents, joined
by a blank line.  Reading `metadatas[0][index]` throws a `TypeError` when
`metadatas` or its first row is missing. -/
def buildContext (docs : List String) (metadatas : Option (List (List (Option Metadata)))) :
    Except JsError String :=
  match docs.take 3 with
  | [] => .ok ""
  | top =>
    match metadatas with
    | some (row :: _) => .ok (String.intercalate "\n\n" (articleBlocks row top 0))
    | _ => .error .typeError

/-- The prompt sent to the generative model: a template literal around the
context and the query as it was received. -/
def buildPrompt (context : String) (query : JsString) : JsString :=
  toUtf16 ("You are a helpful news chatbot. Based on the following news articles, answer the user\x27s question accurately and concisely.\n\nContext from news articles:\n"
    ++ context
    ++ "\n\nUser Question: ")
    ++ query
    ++ toUtf16 "\n\nInstructions:\n- Provide a clear, informative answer based on the provided context\n- If the context doesn\x27t fully answer the question, say so\n- Include relevant details from the articles\n- Keep the response conversational and helpful\n- If you mention specific facts, try to indicate which article they came from\n\nAnswer:"

/-- The keys under `rag_cache:`: each holds the JSON text of a response. -/
abbrev RagCache := Redis String Unit

/-- The `try` block of `processQuery`: the answer or the exception thrown, the
calls made, and the cache afterwards. -/
def processQueryBody {R : Type} [LinearOrderedField R] (rt : Runtime R)
    (co : Collaborators R) (cacheTTL : Nat) (query : JsString) (_sessionId : String)
    (w : RagCache) : Except JsError String × List Event × RagCache :=
  let key := cacheKey query
  match Redis.get key w with
  | (.error e, w1) => (.error e, [.cacheGet key false], w1)
  | (.ok (some cachedResult), w1) => (.ok cachedResult, [.cacheGet key true], w1)
  | (.ok none, w1) =>
    let (queryEmbedding, answered) := generateEmbedding rt co.jina query
    let ev1 := [Event.cacheGet key true, .embed query answered]
    match co.chroma queryEmbedding 5 with
    | .error e => (.error e, ev1 ++ [.search false], w1)
    | .ok searchResults =>
      let ev2 := ev1 ++ [.search true]
      match searchResults.documents with
      | some [] => (.error .typeError, ev2, w1)
      | none | some ([] :: _) =>
        match Redis.setEx key cacheTTL fallbackResponse w1 with
        | (.error e, w2) => (.error e, ev2 ++ [.cacheSet key false], w2)
        | (.ok _, w2) => (.ok fallbackResponse, ev2 ++ [.cacheSet key true], w2)
      | some ((doc :: docs) :: _) =>
        match buildContext (doc :: docs) searchResults.metadatas with
        | .error e => (.error e, ev2, w1)
        | .ok context =>
          let prompt := buildPrompt context query
          match co.gemini prompt with
          | .error e => (.error e, ev2 ++ [.generate prompt false], w1)
          | .ok response =>
            let ev3 := ev2 ++ [.generate prompt true]
            match Redis.setEx key cacheTTL response w1 with
            | (.error e, w2) => (.error e, ev3 ++ [.cacheSet key false], w2)
            | (.ok _, w2) => (.ok response, ev3 ++ [.cacheSet key true], w2)

/-- What a call of `processQuery` amounts to. -/
structure Outcome where
  response : String
  events : List Event
  cache : RagCache

/-- `processQuery(query, sessionId)`: the `try` block, any exception of which is
logged and answered with the apology. -/
def processQuery {R : Type} [LinearOrderedField R] (rt : Runtime R)
    (co : Collaborators R) (cacheTTL : Nat) (query : JsString) (sessionId : String)
    (w : RagCache) : Outcome :=
  match processQueryBody rt co cacheTTL query sessionId w with
  | (.ok response, events, w1) => ⟨response, events, w1⟩
  | (.error _, events, w1) => ⟨apologyResponse, events, w1⟩

/-- The cache key an event names, if it is a cache command. -/
def Event.key? : Event → Option String
  | .cacheGet key _ => some key
  | .cacheSet key _ => some key
  | _ => none

/-- The cache keys a call of `processQuery` used, in order. -/
def Outcome.keysUsed (o : Outcome) : List String :=
  o.events.filterMap Event.key?

/-- Whether an event is a call of the generation provider. -/
def Event.isGenerate : Event → Bool
  | .generate _ _ => true
  | _ => false

/-- Whether the call an event records was answered. -/
def Event.answered : Event → Bool
  | .cacheGet _ a => a
  | .embed _ a => a
  | .search a => a
  | .generate _ a => a
  | .cacheSet _ a => a

/-- Whether an event is the call of the embedding provider. -/
def Event.isEmbed : Event → Bool
  | .embed _ _ => true
  | _ => false

/-- A runtime over the rationals, for running the model on examples. -/
def sampleRuntime : Runtime ℚ :=
  { sin := fun x => x, sqrt := fun x => x, toLowerCase := fun s => s }

/-- Collaborators for examples: no embedding provider, a vector index that
answers with one document without metadata, a generative model that answers. -/
def sampleCollaborators : Collaborators ℚ :=
  { jina := fun _ => none
    chroma := fun _ _ => .ok { documents := some [["doc"]], metadatas := some [[none]] }
    gemini := fun _ => .ok "answer" }

/-- Collaborators for examples: as `sampleCollaborators`, with a vector index
that finds nothing. -/
def emptyIndexCollaborators : Collaborators ℚ :=
  { sampleCollaborators with
    chroma := fun _ _ => .ok { documents := some [[]], metadatas := some [[]] } }

/-- Collaborators for examples: as `sampleCollaborators`, with a generative
model that rejects. -/
def brokenModelCollaborators : Collaborators ℚ :=
  { sampleCollaborators with gemini := fun _ => .error .provider }

/-! ## `server.js`: the HTTP routes -/

/-- The JSON body of a response. -/
inductive ResponseBody where
  /-- `{ sessionId }` -/
  | sessionId (id : String)
  /-- `{ history }` -/
  | history (items : List HistoryItem)
  /-- `{ message }` -/
  | message (text : String)
  /-- `{ response }` -/
  | response (text : String)
  /-- `{ error }` -/
  | error (text : String)
  deriving DecidableEq, Repr

/-- A response: the status (`200` unless `res.status` is called) and the body. -/
structure HttpResponse where
  status : Nat
  body : ResponseBody
  deriving DecidableEq, Repr

/-- The two parts of the keyspace the routes work on. -/
structure World where
  cache : RagCache
  sessions : SessionStore

/-- `POST /api/session`; `sessionId` is the value of `uuidv4()`. -/
def postSessionRoute (sessionTTL now : Nat) (sessionId : String) (w : SessionStore) :
    HttpResponse × SessionStore :=
  match createSession sessionTTL now sessionId w with
  | (.ok _, w1) => (⟨200, .sessionId sessionId⟩, w1)
  | (.error _, w1) => (⟨500, .error "Failed to create session"⟩, w1)

/-- `GET /api/session/:sessionId/history`.  The route wraps the call in
`try`/`catch` and would answer `500` with `Failed to fetch session history`, but
`getSessionHistory` never rejects, so that branch cannot be reached. -/
def getHistoryRoute (sessionId : String) (w : SessionStore) : HttpResponse × SessionStore :=
  match getSessionHistory sessionId w with
  | (history, w1) => (⟨200, .history history⟩, w1)

/-- `DELETE /api/session/:sessionId`. -/
def deleteSessionRoute (sessionId : String) (w : SessionStore) : HttpResponse × SessionStore :=
  match clearSession sessionId w with
  | (.ok _, w1) => (⟨200, .message "Session cleared successfully"⟩, w1)
  | (.error _, w1) => (⟨500, .error "Failed to clear session"⟩, w1)

/-- The body of a chat request: either field may be missing. -/
structure ChatBody where
  message : Option String
  sessionId : Option String
  deriving DecidableEq, Repr

/-- The JavaScript `!value` on an optional text: a missing value and the empty
text are falsy. -/
def falsy (value : Option String) : Bool :=
  match value with
  | some s => decide (s = "")
  | none => true

/-- A call of a service method made by a route. -/
inductive ServiceCall where
  | processQuery (query sessionId : String)
  | addToHistory (sessionId : String) (messageData : MessageData)
  deriving DecidableEq, Repr

/-- What a chat request amounts to: the response, the service calls made, the
calls of the pipeline, and the keyspace afterwards. -/
structure ChatOutcome where
  response : HttpResponse
  calls : List ServiceCall
  events : List Event
  world : World

/-- `POST /api/chat`; `toISOString` renders a clock value as
`new Date().toISOString()` does. -/
def postChatRoute {R : Type} [LinearOrderedField R] (rt : Runtime R) (co : Collaborators R)
    (cacheTTL sessionTTL now : Nat) (toISOString : Nat → String) (body : ChatBody)
    (world : World) : ChatOutcome :=
  if falsy body.message || falsy body.sessionId then
    ⟨⟨400, .error "Message and sessionId are required"⟩, [], [], world⟩
  else
    let message := body.message.getD ""
    let sessionId := body.sessionId.getD ""
    let o := processQuery rt co cacheTTL (toUtf16 message) sessionId world.cache
    let messageData : MessageData :=
      { user := message, bot := o.response, timestamp := toISOString now }
    let calls := [ServiceCall.processQuery message sessionId,
      .addToHistory sessionId messageData]
    match addToHistory sessionTTL now sessionId messageData world.sessions with
    | (.ok _, s1) => ⟨⟨200, .response o.response⟩, calls, o.events, ⟨o.cache, s1⟩⟩
    | (.error _, s1) =>
      ⟨⟨500, .error "Failed to process message"⟩, calls, o.events, ⟨o.cache, s1⟩⟩

/-- A run of sequential chat requests of one session, each given as the clock
value it reads and the message; the run collects the statuses. -/
def postChatAll {R : Type} [LinearOrderedField R] (rt : Runtime R) (co : Collaborators R)
    (cacheTTL sessionTTL : Nat) (toISOString : Nat → String) (sessionId : String) :
    List (Nat × String) → World → List Nat × World
  | [], world => ([], world)
  | (now, message) :: rest, world =>
    match postChatRoute rt co cacheTTL sessionTTL now toISOString
        ⟨some message, some sessionId⟩ world with
    | o =>
      match postChatAll rt co cacheTTL sessionTTL toISOString sessionId rest o.world with
      | (statuses, world1) => (o.response.status :: statuses, world1)

/-- The block of a document as the specification words it: a default stands in
for a field that is missing, and for nothing else. -/
def specArticleBlock (index : Nat) (doc : String) (metadata : Option Metadata) : String :=
  "Article " ++ toString (index + 1) ++ ": "
    ++ (metadata.bind Metadata.title).getD "News Article"
    ++ "\nContent: " ++ doc
    ++ "\nSource: " ++ (metadata.bind Metadata.url).getD "Unknown"
    ++ "\nPublished: " ++ (metadata.bind Metadata.published_date).getD "Unknown"

/-- A keyspace for examples: the session `S1` with one history entry, behind a
store that rejects the next command. -/
def unreachableSessions : SessionStore :=
  { data :=
      [("session:S1", ⟨.str ⟨"S1", 0, 0, 1⟩, some 3600⟩),
       ("session:S1:history", ⟨.list [⟨⟨"Hello", "Hi", "t0"⟩, "0"⟩], some 3600⟩)]
    faults := [true] }

/-! ## The store commands -/

section RedisLemmas

variable {σ ι : Type}

theorem lookupKey_eraseKey_self (key : String) (d : List (String × RedisEntry σ ι)) :
    lookupKey key (eraseKey key d) = none := by
  induction d with
  | nil => rfl
  | cons p rest ih =>
    obtain ⟨k, e⟩ := p
    by_cases h : k = key
    · simp [eraseKey, List.filter_cons, h] at ih ⊢; exact ih
    · simp [eraseKey, List.filter_cons, h, lookupKey] at ih ⊢; exact ih

theorem lookupKey_eraseKey_ne {key other : String} (h : other ≠ key)
    (d : List (String × RedisEntry σ ι)) :
    lookupKey other (eraseKey key d) = lookupKey other d := by
  induction d with
  | nil => rfl
  | cons p rest ih =>
    obtain ⟨k, e⟩ := p
    by_cases hk : k = key
    · have hne : ¬ k = other := fun h2 => h (h2 ▸ hk)
      simp [eraseKey, List.filter_cons, hk, lookupKey] at ih ⊢
      subst hk
      simp [hne, ih]
    · by_cases ho : k = other
      · subst ho
        simp [eraseKey, List.filter_cons, hk, lookupKey]
      · simp [eraseKey, List.filter_cons, hk, lookupKey, ho] at ih ⊢; exact ih

theorem lookupKey_putKey_self (key : String) (e : RedisEntry σ ι)
    (d : List (String × RedisEntry σ ι)) : lookupKey key (putKey key e d) = some e := by
  simp [putKey, lookupKey]

theorem lookupKey_putKey_ne {key other : String} (h : other ≠ key) (e : RedisEntry σ ι)
    (d : List (String × RedisEntry σ ι)) :
    lookupKey other (putKey key e d) = lookupKey other d := by
  have h2 : ¬ key = other := fun h3 => h h3.symm
  simp [putKey, lookupKey, h2, lookupKey_eraseKey_ne h]

theorem slice_zero_fortyNine {α : Type} (xs : List α) : slice xs 0 49 = xs.take 50 := by
  unfold slice normIndex
  simp only [lt_self_iff_false, if_false, max_self]
  by_cases h : xs = []
  · subst h; simp
  · have hl : 0 < xs.length := List.length_pos.mpr h
    have h49 : ¬ ((49 : Int) < 0) := by omega
    simp only [h49, if_false]
    have : ¬ ((0 : Int) > min 49 ((xs.length : Int) - 1)) := by
      simp only [gt_iff_lt, not_lt]; omega
    rw [if_neg this]
    simp only [Int.toNat_zero, List.drop_zero, sub_zero]
    by_cases h50 : 50 ≤ xs.length
    · have : min (49 : Int) ((xs.length : Int) - 1) = 49 := by omega
      rw [this]; rfl
    · have : min (49 : Int) ((xs.length : Int) - 1) = (xs.length : Int) - 1 := by omega
      rw [this]
      have : ((xs.length : Int) - 1 + 1).toNat = xs.length := by omega
      rw [this, List.take_length, List.take_of_length_le (by omega)]

theorem slice_all {α : Type} (xs : List α) : slice xs 0 (-1) = xs := by
  unfold slice normIndex
  simp only [lt_self_iff_false, if_false, max_self]
  have hneg : ((-1 : Int) < 0) := by omega
  simp only [hneg, if_true]
  by_cases h : xs = []
  · subst h; simp
  · have hl : 0 < xs.length := List.length_pos.mpr h
    have : min ((xs.length : Int) + -1) ((xs.length : Int) - 1) = (xs.length : Int) - 1 := by omega
    rw [this]
    have : ¬ ((0 : Int) > (xs.length : Int) - 1) := by omega
    rw [if_neg this]
    have : ((xs.length : Int) - 1 - 0 + 1).toNat = xs.length := by omega
    simp only [Int.toNat_zero, List.drop_zero, this, List.take_length]

theorem get_data (key : String) (w : Redis σ ι) : (Redis.get key w).2.data = w.data := by
  unfold Redis.get
  split
  · rfl
  · split <;> rfl

theorem setEx_lookup_ne {key other : String} (h : other ≠ key) (s : Nat) (v : σ)
    (w : Redis σ ι) :
    lookupKey other (Redis.setEx key s v w).2.data = lookupKey other w.data := by
  unfold Redis.setEx
  split
  · rfl
  · simp [Redis.advance, lookupKey_putKey_ne h]

theorem lTrim_bounded (key : String) (w : Redis σ ι)
    (h : (Redis.lTrim key 0 49 w).1 = .ok ()) (xs : List ι) (t : Option Nat)
    (hx : lookupKey key (Redis.lTrim key 0 49 w).2.data = some ⟨.list xs, t⟩) :
    xs.length ≤ 50 := by
  unfold Redis.lTrim at h hx
  by_cases hf : w.faulted = true
  · simp [hf] at h
  · have hf2 : w.faulted = false := by simpa using hf
    simp only [hf2, Bool.false_eq_true, if_false] at h hx
    cases hl : lookupKey key w.data with
    | none => simp [hl, Redis.advance] at hx
    | some e =>
      obtain ⟨v, t2⟩ := e
      cases v with
      | str v => simp [hl] at h
      | list ys =>
        simp only [hl] at hx
        rw [slice_zero_fortyNine] at hx
        cases hy : ys.take 50 with
        | nil => simp [hy, Redis.advance, lookupKey_eraseKey_self] at hx
        | cons y ys2 =>
          simp only [hy, Redis.advance, lookupKey_putKey_self, Option.some.injEq,
            RedisEntry.mk.injEq, RedisValue.list.injEq] at hx
          rw [← hx.1, ← hy, List.length_take]
          exact Nat.min_le_left _ _

theorem expire_lookup (key : String) (s : Nat) (w : Redis σ ι) (e : RedisEntry σ ι)
    (hx : lookupKey key (Redis.expire key s w).2.data = some e) :
    ∃ t, lookupKey key w.data = some ⟨e.value, t⟩ := by
  unfold Redis.expire at hx
  split at hx
  · exact ⟨e.ttl, hx⟩
  · split at hx
    · rename_i hnone; simp [Redis.advance, hnone] at hx
    · rename_i e0 hsome
      simp only [Redis.advance, lookupKey_putKey_self, Option.some.injEq] at hx
      exact ⟨e0.ttl, by rw [hsome, ← hx]⟩

end RedisLemmas

/-! ## Session history: bound and order (C1, C2) -/

theorem sessionKey_ne_historyKey (a b : String) (h : a = b) : sessionKey a ≠ historyKey b := by
  subst h
  intro h
  have := congrArg String.length h
  simp [sessionKey, historyKey, String.length_append] at this
  revert this
  decide

theorem getSession_data (sessionId : String) (w : SessionStore) :
    (getSession sessionId w).2.data = w.data := by
  unfold getSession
  have := get_data (sessionKey sessionId) w
  split <;> simp_all

theorem createSession_lookup_ne {other : String} (ttl now : Nat) (sessionId : String)
    (w : SessionStore) (h : other ≠ sessionKey sessionId) :
    lookupKey other (createSession ttl now sessionId w).2.data = lookupKey other w.data := by
  unfold createSession
  have := setEx_lookup_ne h ttl
    ({ id := sessionId, createdAt := now, lastActivity := now, messageCount := 0 } : Session) w
  simp only
  split <;> simp_all

theorem updateSessionActivity_lookup_ne {other : String} (ttl now : Nat) (sessionId : String)
    (w : SessionStore) (h : other ≠ sessionKey sessionId) :
    lookupKey other (updateSessionActivity ttl now sessionId w).2.data
      = lookupKey other w.data := by
  unfold updateSessionActivity
  have hg := getSession_data sessionId w
  split
  · rename_i w1 heq
    rw [heq] at hg
    rw [createSession_lookup_ne ttl now sessionId w1 h]
    simp at hg; rw [hg]
  · rename_i session w1 heq
    rw [heq] at hg
    simp at hg
    have := setEx_lookup_ne h ttl
      ({ session with lastActivity := now, messageCount := session.messageCount + 1 } : Session) w1
    simp only
    split <;> simp_all

theorem addToHistory_ok_inv (ttl now : Nat) (sessionId : String) (m : MessageData)
    (w : SessionStore) (h : (addToHistory ttl now sessionId m w).1 = .ok ()) :
    ∃ n w1 w2 b w3 s,
      Redis.lPush (historyKey sessionId) ({ m with id := toString now } : HistoryItem) w
        = (.ok n, w1) ∧
      Redis.lTrim (historyKey sessionId) 0 49 w1 = (.ok (), w2) ∧
      Redis.expire (historyKey sessionId) ttl w2 = (.ok b, w3) ∧
      updateSessionActivity ttl now sessionId w3
        = (.ok s, (addToHistory ttl now sessionId m w).2) := by
  unfold addToHistory at h ⊢
  simp only at h ⊢
  rcases h1 : Redis.lPush (historyKey sessionId) ({ m with id := toString now } : HistoryItem) w
    with ⟨r1, w1⟩
  rw [h1] at h
  cases r1 with
  | error e => simp at h
  | ok n =>
    simp only at h ⊢
    rcases h2 : Redis.lTrim (historyKey sessionId) 0 49 w1 with ⟨r2, w2⟩
    rw [h2] at h
    cases r2 with
    | error e => simp at h
    | ok u =>
      simp only at h ⊢
      rcases h3 : Redis.expire (historyKey sessionId) ttl w2 with ⟨r3, w3⟩
      rw [h3] at h
      cases r3 with
      | error e => simp at h
      | ok b =>
        simp only at h ⊢
        rcases h4 : updateSessionActivity ttl now sessionId w3 with ⟨r4, w4⟩
        rw [h4] at h
        cases r4 with
        | error e => simp at h
        | ok s => exact ⟨n, w1, w2, b, w3, s, rfl, h2, h3, by simp [h2, h3, h4]⟩

theorem addToHistory_list_bounded (ttl now : Nat) (sessionId : String) (m : MessageData)
    (w : SessionStore) (h : (addToHistory ttl now sessionId m w).1 = .ok ())
    (xs : List HistoryItem) (t : Option Nat)
    (hx : lookupKey (historyKey sessionId) (addToHistory ttl now sessionId m w).2.data
      = some ⟨.list xs, t⟩) : xs.length ≤ 50 := by
  obtain ⟨n, w1, w2, b, w3, s, h1, h2, h3, h4⟩ := addToHistory_ok_inv ttl now sessionId m w h
  have hne : historyKey sessionId ≠ sessionKey sessionId :=
    fun h => sessionKey_ne_historyKey sessionId sessionId rfl h.symm
  have e4 := updateSessionActivity_lookup_ne ttl now sessionId w3 hne
  rw [h4] at e4
  simp only at e4
  rw [e4] at hx
  have hw3 : w3 = (Redis.expire (historyKey sessionId) ttl w2).2 := by rw [h3]
  rw [hw3] at hx
  obtain ⟨t2, hx2⟩ := expire_lookup _ _ _ _ hx
  have hw2 : w2 = (Redis.lTrim (historyKey sessionId) 0 49 w1).2 := by rw [h2]
  rw [hw2] at hx2
  exact lTrim_bounded _ w1 (by rw [h2]) xs t2 hx2

theorem faulted_of_nil {σ ι : Type} (w : Redis σ ι) (h : w.faults = []) : w.faulted = false := by
  simp [Redis.faulted, h]

theorem take_cons_ne_nil {α : Type} (x : α) (L : List α) : (x :: L).take 50 ≠ [] := by
  simp

theorem updateSessionActivity_ok_of_nil (ttl now : Nat) (sessionId : String) (w : SessionStore)
    (h : w.faults = []) :
    ∃ s w1, updateSessionActivity ttl now sessionId w = (.ok s, w1) ∧ w1.faults = [] := by
  have hf := faulted_of_nil w h
  unfold updateSessionActivity getSession createSession Redis.get Redis.setEx
  simp only [hf, Bool.false_eq_true, if_false]
  cases hl : lookupKey (sessionKey sessionId) w.data with
  | none =>
    simp only [Redis.advance, Redis.faulted, h, List.tail_nil, List.headD_nil,
      Bool.false_eq_true, if_false]
    exact ⟨_, _, rfl, rfl⟩
  | some e =>
    obtain ⟨v, t⟩ := e
    cases v <;>
    · simp only [Redis.advance, Redis.faulted, h, List.tail_nil, List.headD_nil,
        Bool.false_eq_true, if_false]
      exact ⟨_, _, rfl, rfl⟩

theorem addToHistory_step (ttl now : Nat) (sessionId : String) (m : MessageData)
    (w : SessionStore) (L : List HistoryItem) (h : HistoryIs w sessionId L) :
    ∃ w1, addToHistory ttl now sessionId m w = (.ok (), w1) ∧
      HistoryIs w1 sessionId ((({ m with id := toString now } : HistoryItem) :: L).take 50) := by
  obtain ⟨hnil, hL⟩ := h
  have hf := faulted_of_nil w hnil
  have hne : historyKey sessionId ≠ sessionKey sessionId :=
    fun h => sessionKey_ne_historyKey sessionId sessionId rfl h.symm
  -- the three list commands
  have key : ∃ w3 t, w3.faults = [] ∧
      lookupKey (historyKey sessionId) w3.data
        = some ⟨.list ((({ m with id := toString now } : HistoryItem) :: L).take 50), t⟩ ∧
      addToHistory ttl now sessionId m w
        = match updateSessionActivity ttl now sessionId w3 with
          | (.error e, w4) => (.error e, w4)
          | (.ok _, w4) => (.ok (), w4) := by
    unfold addToHistory Redis.lPush
    simp only [hf, Bool.false_eq_true, if_false]
    rcases hL with ⟨hL, hl⟩ | ⟨hL, t, hl⟩
    · subst hL
      simp only [hl]
      unfold Redis.lTrim
      simp only [Redis.advance, Redis.faulted, hnil, List.tail_nil, List.headD_nil,
        Bool.false_eq_true, if_false, lookupKey_putKey_self, slice_zero_fortyNine]
      simp only [List.take_succ_cons, List.take_nil]
      unfold Redis.expire
      simp only [Redis.advance, Redis.faulted, List.tail_nil, List.headD_nil,
        Bool.false_eq_true, if_false, lookupKey_putKey_self]
      exact ⟨_, _, rfl, lookupKey_putKey_self _ _ _, rfl⟩
    · simp only [hl]
      unfold Redis.lTrim
      simp only [Redis.advance, Redis.faulted, hnil, List.tail_nil, List.headD_nil,
        Bool.false_eq_true, if_false, lookupKey_putKey_self, slice_zero_fortyNine]
      simp only [List.take_succ_cons]
      unfold Redis.expire
      simp only [Redis.advance, Redis.faulted, List.tail_nil, List.headD_nil,
        Bool.false_eq_true, if_false, lookupKey_putKey_self]
      exact ⟨_, _, rfl, lookupKey_putKey_self _ _ _, rfl⟩
  obtain ⟨w3, t, hw3, hl3, heq⟩ := key
  obtain ⟨s, w4, hu, hw4⟩ := updateSessionActivity_ok_of_nil ttl now sessionId w3 hw3
  refine ⟨w4, ?_, hw4, Or.inr ⟨take_cons_ne_nil _ _, t, ?_⟩⟩
  · rw [heq, hu]
  · have e4 := updateSessionActivity_lookup_ne ttl now sessionId w3 hne
    rw [hu] at e4
    simp only at e4
    rw [e4, hl3]

theorem take_append_take {α : Type} (n : Nat) (A B : List α) :
    (A ++ B.take n).take n = (A ++ B).take n := by
  rw [List.take_append_eq_append_take, List.take_append_eq_append_take, List.take_take]
  congr 2
  omega

theorem addAllToHistory_spec (ttl : Nat) (sessionId : String) (calls : List (Nat × MessageData)) :
    ∀ (w : SessionStore) (L : List HistoryItem), HistoryIs w sessionId (L.take 50) →
    ∃ w1, addAllToHistory ttl sessionId calls w = (.ok (), w1) ∧
      HistoryIs w1 sessionId (((calls.map historyItemOf).reverse ++ L).take 50) := by
  induction calls with
  | nil => intro w L h; exact ⟨w, rfl, by simpa using h⟩
  | cons c rest ih =>
    intro w L h
    obtain ⟨now, m⟩ := c
    obtain ⟨w1, h1, hI⟩ := addToHistory_step ttl now sessionId m w _ h
    have hI2 : HistoryIs w1 sessionId ((historyItemOf (now, m) :: L).take 50) := by
      have e : (historyItemOf (now, m) :: L).take 50
          = (historyItemOf (now, m) :: L.take 50).take 50 := by
        have := take_append_take 50 [historyItemOf (now, m)] L
        simpa using this.symm
      rw [e]; exact hI
    obtain ⟨w2, h2, hI3⟩ := ih w1 (historyItemOf (now, m) :: L) hI2
    refine ⟨w2, ?_, ?_⟩
    · simp only [addAllToHistory, h1]; exact h2
    · simpa [List.map_cons, List.reverse_cons, List.append_assoc] using hI3

theorem getSessionHistory_of_historyIs (sessionId : String) (w : SessionStore)
    (L : List HistoryItem) (h : HistoryIs w sessionId L) :
    (getSessionHistory sessionId w).1 = L.reverse := by
  obtain ⟨hnil, hL⟩ := h
  have hf := faulted_of_nil w hnil
  unfold getSessionHistory Redis.lRange
  simp only [hf, Bool.false_eq_true, if_false]
  rcases hL with ⟨hL, hl⟩ | ⟨_, t, hl⟩
  · subst hL; simp [hl]
  · simp [hl, slice_all]

/-- C1: whatever the session store held before, once `addToHistory(id, entry)` has
completed the history list stored for `id` has at most 50 entries. -/
theorem addToHistory_history_le_50 (ttl now : Nat) (sessionId : String) (m : MessageData)
    (w : SessionStore) (h : (addToHistory ttl now sessionId m w).1 = .ok ()) :
    historyLength (addToHistory ttl now sessionId m w).2 sessionId ≤ 50 := by
  unfold historyLength
  split
  · rename_i items t hx
    exact addToHistory_list_bounded ttl now sessionId m w h items t hx
  · exact Nat.zero_le _

/-- Witness for C1: the first entry of a session. -/
theorem addToHistory_history_le_50_witness :
    (addToHistory 3600 7 "S1" ⟨"Hello", "Hi", "t"⟩ ⟨[], []⟩).1 = .ok () ∧
    historyLength (addToHistory 3600 7 "S1" ⟨"Hello", "Hi", "t"⟩ ⟨[], []⟩).2 "S1" ≤ 50 :=
  ⟨rfl, addToHistory_history_le_50 3600 7 "S1" ⟨"Hello", "Hi", "t"⟩ ⟨[], []⟩ rfl⟩

/-- C2: starting from a session without history and a store that answers every
command, `n` sequential `addToHistory` calls all complete, and `getSessionHistory`
then returns the last `min n 50` appended entries, oldest first, each with its
`user`, `bot` and `timestamp` unchanged. -/
theorem getSessionHistory_after_appends (ttl : Nat) (sessionId : String)
    (calls : List (Nat × MessageData)) (w : SessionStore) (hf : w.faults = [])
    (h0 : lookupKey (historyKey sessionId) w.data = none) :
    (addAllToHistory ttl sessionId calls w).1 = .ok () ∧
    (getSessionHistory sessionId (addAllToHistory ttl sessionId calls w).2).1.map
        HistoryItem.toMessageData
      = (calls.map Prod.snd).drop (calls.length - min calls.length 50) := by
  have hI : HistoryIs w sessionId (([] : List HistoryItem).take 50) :=
    ⟨hf, Or.inl ⟨rfl, h0⟩⟩
  obtain ⟨w1, h1, hI1⟩ := addAllToHistory_spec ttl sessionId calls w [] hI
  rw [h1]
  refine ⟨rfl, ?_⟩
  simp only
  rw [getSessionHistory_of_historyIs sessionId w1 _ hI1, List.append_nil, List.reverse_take,
    List.reverse_reverse, List.length_reverse, List.length_map, List.map_drop, List.map_map]
  have e : (HistoryItem.toMessageData ∘ historyItemOf) = Prod.snd := by
    funext c; rfl
  rw [e]
  congr 1
  omega

/-- Witness for C2: one entry appended to an empty store. -/
theorem getSessionHistory_after_appends_witness :
    (⟨[], []⟩ : SessionStore).faults = [] ∧
    lookupKey (historyKey "S1") (⟨[], []⟩ : SessionStore).data = none ∧
    (addAllToHistory 3600 "S1" [(7, ⟨"Hello", "Hi", "t"⟩)] ⟨[], []⟩).1 = .ok () ∧
    (getSessionHistory "S1"
        (addAllToHistory 3600 "S1" [(7, ⟨"Hello", "Hi", "t"⟩)] ⟨[], []⟩).2).1.map
        HistoryItem.toMessageData
      = ([(7, (⟨"Hello", "Hi", "t"⟩ : MessageData))].map Prod.snd).drop (1 - min 1 50) :=
  ⟨rfl, rfl, getSessionHistory_after_appends 3600 "S1" [(7, ⟨"Hello", "Hi", "t"⟩)] ⟨[], []⟩ rfl rfl⟩

/-! ## The cache key (C3) -/

set_option maxRecDepth 100000 in
theorem base64Alphabet_nodup : base64Alphabet.data.Nodup := by decide

set_option maxRecDepth 100000 in
theorem base64Alphabet_length : base64Alphabet.data.length = 64 := by decide

set_option maxRecDepth 100000 in
theorem base64Alphabet_no_pad : '=' ∉ base64Alphabet.data := by decide

theorem base64Char_inj {i j : Nat} (hi : i < 64) (hj : j < 64)
    (h : base64Char i = base64Char j) : i = j := by
  unfold base64Char at h
  have hi2 : i < base64Alphabet.data.length := by rw [base64Alphabet_length]; exact hi
  have hj2 : j < base64Alphabet.data.length := by rw [base64Alphabet_length]; exact hj
  rw [List.getD_eq_getElem _ _ hi2, List.getD_eq_getElem _ _ hj2] at h
  exact (List.Nodup.getElem_inj_iff base64Alphabet_nodup).mp h

theorem base64Char_ne_pad {i : Nat} (hi : i < 64) : base64Char i ≠ '=' := by
  unfold base64Char
  have hi2 : i < base64Alphabet.data.length := by rw [base64Alphabet_length]; exact hi
  rw [List.getD_eq_getElem _ _ hi2]
  intro h
  exact base64Alphabet_no_pad (h ▸ List.getElem_mem _)

theorem utf8EncodeChar_append_inj {c d : Nat} (hc : c < 0x110000) (hd : d < 0x110000)
    {r s : List Nat} (h : utf8EncodeChar c ++ r = utf8EncodeChar d ++ s) : c = d ∧ r = s := by
  unfold utf8EncodeChar at h
  split_ifs at h <;>
    simp only [List.cons_append, List.nil_append, List.cons.injEq] at h <;>
    first
    | (exfalso; have := h.1; omega)
    | (obtain ⟨h1, hr⟩ := h; exact ⟨by omega, hr⟩)
    | (obtain ⟨h1, h2, hr⟩ := h; exact ⟨by omega, hr⟩)
    | (obtain ⟨h1, h2, h3, hr⟩ := h; exact ⟨by omega, hr⟩)
    | (obtain ⟨h1, h2, h3, h4, hr⟩ := h; exact ⟨by omega, hr⟩)

theorem utf8EncodeChar_lt (c : Nat) (hc : c < 0x110000) : ∀ b ∈ utf8EncodeChar c, b < 256 := by
  intro b hb
  unfold utf8EncodeChar at hb
  split_ifs at hb <;> simp only [List.mem_cons, List.mem_singleton, List.not_mem_nil, or_false] at hb <;> omega

theorem char_toNat_lt (c : Char) : c.toNat < 0x110000 := by
  have := c.valid
  unfold Char.toNat
  rcases this with h | h
  · have : c.val.toNat < 0xd800 := h
    omega
  · have : c.val.toNat < 0x110000 := h.2
    omega

theorem base64Encode_inj : ∀ (xs ys : List Nat), (∀ b ∈ xs, b < 256) → (∀ b ∈ ys, b < 256) →
    base64Encode xs = base64Encode ys → xs = ys
  | [], [], _, _, _ => rfl
  | [], [_], _, _, h => by simp [base64Encode] at h
  | [], [_, _], _, _, h => by simp [base64Encode] at h
  | [], _ :: _ :: _ :: _, _, _, h => by simp [base64Encode] at h
  | [_], [], _, _, h => by simp [base64Encode] at h
  | [_, _], [], _, _, h => by simp [base64Encode] at h
  | _ :: _ :: _ :: _, [], _, _, h => by simp [base64Encode] at h
  | [a], [a'], hx, hy, h => by
    have ha := hx a (by simp)
    have ha' := hy a' (by simp)
    simp only [base64Encode, List.cons.injEq, and_true] at h
    have e1 := base64Char_inj (by omega) (by omega) h.1
    have e2 := base64Char_inj (by omega) (by omega) h.2
    have : a = a' := by omega
    rw [this]
  | [a], [a', b'], hx, hy, h => by
    have hb' := hy b' (by simp)
    simp only [base64Encode, List.cons.injEq, and_true] at h
    exact absurd h.2.2.symm (base64Char_ne_pad (by omega))
  | [a], a' :: b' :: c' :: r', hx, hy, h => by
    have hb' := hy b' (by simp)
    have hc' := hy c' (by simp)
    simp only [base64Encode, List.cons.injEq] at h
    exact absurd h.2.2.1.symm (base64Char_ne_pad (by omega))
  | [a, b], [a'], hx, hy, h => by
    have hb := hx b (by simp)
    simp only [base64Encode, List.cons.injEq, and_true] at h
    exact absurd h.2.2 (base64Char_ne_pad (by omega))
  | [a, b], [a', b'], hx, hy, h => by
    have ha := hx a (by simp)
    have ha' := hy a' (by simp)
    have hb := hx b (by simp)
    have hb' := hy b' (by simp)
    simp only [base64Encode, List.cons.injEq, and_true] at h
    have e1 := base64Char_inj (by omega) (by omega) h.1
    have e2 := base64Char_inj (by omega) (by omega) h.2.1
    have e3 := base64Char_inj (by omega) (by omega) h.2.2
    have : a = a' := by omega
    have : b = b' := by omega
    simp [*]
  | [a, b], a' :: b' :: c' :: r', hx, hy, h => by
    have hc' := hy c' (by simp)
    simp only [base64Encode, List.cons.injEq] at h
    exact absurd h.2.2.2.1.symm (base64Char_ne_pad (by omega))
  | a :: b :: c :: r, [a'], hx, hy, h => by
    have hb := hx b (by simp)
    have hc := hx c (by simp)
    simp only [base64Encode, List.cons.injEq] at h
    exact absurd h.2.2.1 (base64Char_ne_pad (by omega))
  | a :: b :: c :: r, [a', b'], hx, hy, h => by
    have hc := hx c (by simp)
    simp only [base64Encode, List.cons.injEq] at h
    exact absurd h.2.2.2.1 (base64Char_ne_pad (by omega))
  | a :: b :: c :: r, a' :: b' :: c' :: r', hx, hy, h => by
    have ha := hx a (by simp)
    have ha' := hy a' (by simp)
    have hb := hx b (by simp)
    have hb' := hy b' (by simp)
    have hc := hx c (by simp)
    have hc' := hy c' (by simp)
    simp only [base64Encode, List.cons.injEq] at h
    have e1 := base64Char_inj (by omega) (by omega) h.1
    have e2 := base64Char_inj (by omega) (by omega) h.2.1
    have e3 := base64Char_inj (by omega) (by omega) h.2.2.1
    have e4 := base64Char_inj (by omega) (by omega) h.2.2.2.1
    have ih := base64Encode_inj r r' (fun x hx2 => hx x (by simp [hx2]))
      (fun x hx2 => hy x (by simp [hx2])) h.2.2.2.2
    have : a = a' := by omega
    have : b = b' := by omega
    have : c = c' := by omega
    simp [*]

theorem utf8EncodeChar_ne_nil (c : Nat) : utf8EncodeChar c ≠ [] := by
  unfold utf8EncodeChar
  split_ifs <;> simp

theorem flatMap_utf8EncodeChar_inj : ∀ (cs ds : List Nat),
    (∀ c ∈ cs, c < 0x110000) → (∀ d ∈ ds, d < 0x110000) →
    cs.flatMap utf8EncodeChar = ds.flatMap utf8EncodeChar → cs = ds
  | [], [], _, _, _ => rfl
  | [], d :: ds, _, _, h => by
    simp only [List.flatMap_nil, List.flatMap_cons] at h
    have h2 := utf8EncodeChar_ne_nil d
    cases hd : utf8EncodeChar d with
    | nil => exact absurd hd h2
    | cons a t => rw [hd] at h; simp at h
  | c :: cs, [], _, _, h => by
    simp only [List.flatMap_nil, List.flatMap_cons] at h
    have h2 := utf8EncodeChar_ne_nil c
    cases hc : utf8EncodeChar c with
    | nil => exact absurd hc h2
    | cons a t => rw [hc] at h; simp at h
  | c :: cs, d :: ds, hcs, hds, h => by
    simp only [List.flatMap_cons] at h
    obtain ⟨h1, h2⟩ := utf8EncodeChar_append_inj (hcs c (List.mem_cons_self _ _))
      (hds d (List.mem_cons_self _ _)) h
    rw [h1, flatMap_utf8EncodeChar_inj cs ds (fun x hx => hcs x (List.mem_cons_of_mem _ hx))
      (fun x hx => hds x (List.mem_cons_of_mem _ hx)) h2]

theorem loneCodePoint_lt (u : Nat) (hu : u < 0x10000) : loneCodePoint u < 0x110000 := by
  unfold loneCodePoint
  split <;> omega

theorem codePoints_lt (q : JsString) (hq : ∀ u ∈ q, u < 0x10000) :
    ∀ c ∈ codePoints q, c < 0x110000 := by
  induction q using codePoints.induct with
  | case1 => intro c hc; simp [codePoints] at hc
  | case2 u =>
    intro c hc
    simp only [codePoints, List.mem_singleton] at hc
    rw [hc]
    exact loneCodePoint_lt u (hq u (List.mem_singleton_self _))
  | case3 u v rest hpair ih =>
    intro c hc
    simp only [codePoints, hpair, if_true, List.mem_cons] at hc
    rcases hc with hc | hc
    · simp only [isHighSurrogate, isLowSurrogate, Bool.and_eq_true, decide_eq_true_eq] at hpair
      omega
    · exact ih (fun x hx => hq x (by simp [hx])) c hc
  | case4 u v rest hpair ih =>
    intro c hc
    simp only [codePoints, hpair, Bool.false_eq_true, if_false, List.mem_cons] at hc
    rcases hc with hc | hc
    · rw [hc]
      exact loneCodePoint_lt u (hq u (List.mem_cons_self _ _))
    · exact ih (fun x hx => hq x (List.mem_cons_of_mem _ hx)) c hc

theorem utf8Encode_lt (q : JsString) (hq : ∀ u ∈ q, u < 0x10000) :
    ∀ b ∈ utf8Encode q, b < 256 := by
  intro b hb
  unfold utf8Encode at hb
  rw [List.mem_flatMap] at hb
  obtain ⟨c, hc, hbc⟩ := hb
  exact utf8EncodeChar_lt _ (codePoints_lt q hq c hc) b hbc

/-- Two JavaScript strings have the same cache key exactly when `Buffer.from`
reads the same code points from them. -/
theorem cacheKey_eq_iff (q q' : JsString) (hq : ∀ u ∈ q, u < 0x10000)
    (hq' : ∀ u ∈ q', u < 0x10000) :
    cacheKey q = cacheKey q' ↔ codePoints q = codePoints q' := by
  constructor
  · intro h
    unfold cacheKey at h
    have h1 : String.mk (base64Encode (utf8Encode q)) = String.mk (base64Encode (utf8Encode q')) := by
      have := congrArg String.data h
      simp only [String.data_append, List.append_cancel_left_eq] at this
      exact congrArg String.mk this
    have h2 : base64Encode (utf8Encode q) = base64Encode (utf8Encode q') := by
      injection h1
    have h3 := base64Encode_inj _ _ (utf8Encode_lt q hq) (utf8Encode_lt q' hq') h2
    exact flatMap_utf8EncodeChar_inj _ _ (codePoints_lt q hq) (codePoints_lt q' hq') h3
  · intro h
    unfold cacheKey utf8Encode
    rw [h]

theorem wellFormed_lt (q : JsString) (h : wellFormed q = true) : ∀ u ∈ q, u < 0x10000 := by
  induction q using wellFormed.induct with
  | case1 => intro u hu; simp at hu
  | case2 u =>
    intro x hx
    simp only [wellFormed, Bool.and_eq_true, decide_eq_true_eq] at h
    simp only [List.mem_singleton] at hx
    rw [hx]; exact h.2
  | case3 u v rest hhigh ih =>
    intro x hx
    simp only [wellFormed, hhigh, if_true, Bool.and_eq_true] at h
    simp only [isHighSurrogate, isLowSurrogate, Bool.and_eq_true, decide_eq_true_eq] at hhigh h
    simp only [List.mem_cons] at hx
    rcases hx with hx | hx | hx
    · omega
    · omega
    · exact ih h.2 x hx
  | case4 u v rest hhigh ih =>
    intro x hx
    simp only [wellFormed, hhigh, Bool.false_eq_true, if_false, Bool.and_eq_true,
      decide_eq_true_eq] at h
    simp only [List.mem_cons] at hx
    rcases hx with hx | hx
    · rw [hx]; exact h.1.2
    · exact ih h.2 x (by simpa using hx)

/-- On a string without unpaired surrogate, the code points read determine the
string: writing each of them back in UTF-16 gives the string. -/
theorem codePoints_units (q : JsString) (h : wellFormed q = true) :
    (codePoints q).flatMap codePointUnits = q := by
  induction q using wellFormed.induct with
  | case1 => rfl
  | case2 u =>
    simp only [wellFormed, Bool.and_eq_true, decide_eq_true_eq, Bool.not_eq_true'] at h
    simp only [codePoints, loneCodePoint, h.1.1, h.1.2, Bool.or_self, Bool.false_eq_true,
      if_false, List.flatMap_cons, List.flatMap_nil, List.append_nil, codePointUnits, h.2,
      if_true]
  | case3 u v rest hhigh ih =>
    simp only [wellFormed, hhigh, if_true, Bool.and_eq_true] at h
    simp only [codePoints, hhigh, h.1, Bool.and_self, if_true, List.flatMap_cons, ih h.2]
    simp only [isHighSurrogate, isLowSurrogate, Bool.and_eq_true, decide_eq_true_eq] at hhigh h
    have h1 : ¬ (0x10000 + (u - 0xD800) * 0x400 + (v - 0xDC00) < 0x10000) := by omega
    simp only [codePointUnits, h1, if_false, List.cons_append, List.nil_append]
    exact List.cons_eq_cons.mpr ⟨by omega, List.cons_eq_cons.mpr ⟨by omega, rfl⟩⟩
  | case4 u v rest hhigh ih =>
    simp only [wellFormed, hhigh, Bool.false_eq_true, if_false, Bool.and_eq_true,
      decide_eq_true_eq, Bool.not_eq_true'] at h
    have hh : isHighSurrogate u = false := by simpa using hhigh
    simp only [codePoints, hh, Bool.false_and, Bool.false_eq_true, if_false, List.flatMap_cons,
      ih h.2, loneCodePoint, h.1.1, Bool.or_self, codePointUnits, h.1.2, if_true,
      List.cons_append, List.nil_append]

theorem codePoints_inj (q q' : JsString) (h : wellFormed q = true) (h' : wellFormed q' = true)
    (he : codePoints q = codePoints q') : q = q' := by
  rw [← codePoints_units q h, ← codePoints_units q' h', he]

theorem wellFormed_utf16Units (c : Char) (rest : JsString) (h : wellFormed rest = true) :
    wellFormed (utf16Units c ++ rest) = true := by
  have hv := char_toNat_lt c
  have hvalid : c.toNat < 0xD800 ∨ (0xDFFF < c.toNat ∧ c.toNat < 0x110000) := by
    have := c.valid
    unfold Char.toNat
    rcases this with h1 | h1
    · left; exact h1
    · right; exact h1
  unfold utf16Units codePointUnits
  by_cases hc : c.toNat < 0x10000
  · simp only [hc, if_true, List.cons_append, List.nil_append]
    have hhi : isHighSurrogate c.toNat = false := by
      simp only [isHighSurrogate, Bool.and_eq_false_iff, decide_eq_false_iff_not]; omega
    have hlo : isLowSurrogate c.toNat = false := by
      simp only [isLowSurrogate, Bool.and_eq_false_iff, decide_eq_false_iff_not]; omega
    cases rest with
    | nil => simp [wellFormed, hhi, hlo, hc]
    | cons v r => simp [wellFormed, hhi, hlo, hc, h]
  · simp only [hc, if_false, List.cons_append, List.nil_append]
    have hhi : isHighSurrogate (0xD800 + (c.toNat - 0x10000) / 0x400) = true := by
      simp only [isHighSurrogate, Bool.and_eq_true, decide_eq_true_eq]; omega
    have hlo : isLowSurrogate (0xDC00 + (c.toNat - 0x10000) % 0x400) = true := by
      simp only [isLowSurrogate, Bool.and_eq_true, decide_eq_true_eq]; omega
    simp only [wellFormed, hhi, hlo, if_true, Bool.true_and, h]

/-- The JavaScript string of a text has no unpaired surrogate. -/
theorem wellFormed_toUtf16 (s : String) : wellFormed (toUtf16 s) = true := by
  unfold toUtf16
  induction s.data with
  | nil => rfl
  | cons c rest ih =>
    simp only [List.flatMap_cons]
    exact wellFormed_utf16Units c _ ih

theorem processQuery_events {R : Type} [LinearOrderedField R] (rt : Runtime R)
    (co : Collaborators R) (cacheTTL : Nat) (query : JsString) (sessionId : String) (w : RagCache) :
    (processQuery rt co cacheTTL query sessionId w).events
      = (processQueryBody rt co cacheTTL query sessionId w).2.1 := by
  unfold processQuery
  split <;> rename_i heq <;> rw [heq]

theorem processQuery_cache {R : Type} [LinearOrderedField R] (rt : Runtime R)
    (co : Collaborators R) (cacheTTL : Nat) (query : JsString) (sessionId : String) (w : RagCache) :
    (processQuery rt co cacheTTL query sessionId w).cache
      = (processQueryBody rt co cacheTTL query sessionId w).2.2 := by
  unfold processQuery
  split <;> rename_i heq <;> rw [heq]

theorem processQuery_keysUsed {R : Type} [LinearOrderedField R] (rt : Runtime R)
    (co : Collaborators R) (cacheTTL : Nat) (query : JsString) (sessionId : String) (w : RagCache) :
    (processQuery rt co cacheTTL query sessionId w).keysUsed = [cacheKey query] ∨
    (processQuery rt co cacheTTL query sessionId w).keysUsed
      = [cacheKey query, cacheKey query] := by
  unfold Outcome.keysUsed
  rw [processQuery_events]
  unfold processQueryBody
  simp only
  repeat' split
  all_goals simp [Event.key?]

theorem processQuery_keysUsed_head {R : Type} [LinearOrderedField R] (rt : Runtime R)
    (co : Collaborators R) (cacheTTL : Nat) (query : JsString) (sessionId : String)
    (w : RagCache) :
    (processQuery rt co cacheTTL query sessionId w).keysUsed.head? = some (cacheKey query) := by
  rcases processQuery_keysUsed rt co cacheTTL query sessionId w with h | h <;> rw [h] <;> rfl

/-- C3 (as amended): for all JavaScript strings `q`, `q'` (code units below
`65536`) and whatever the sessions, collaborators and caches, the cache keys
`processQuery` uses for them are equal exactly when `Buffer.from` reads the same
code points from both, an unpaired surrogate being read as U+FFFD; so for `q`,
`q'` without unpaired surrogate the keys are equal exactly when `q = q'`.  Every
cache command of a call uses that one key, and the keys of
"Who won the election?" and "who won the election?" differ. -/
theorem processQuery_cacheKey_iff {R : Type} [LinearOrderedField R] (rt rt' : Runtime R)
    (co co' : Collaborators R) (cacheTTL cacheTTL' : Nat) (q q' : JsString) (s s' : String)
    (w w' : RagCache) (hq : ∀ u ∈ q, u < 0x10000) (hq' : ∀ u ∈ q', u < 0x10000) :
    ((processQuery rt co cacheTTL q s w).keysUsed.head?
        = (processQuery rt' co' cacheTTL' q' s' w').keysUsed.head? ↔
      codePoints q = codePoints q') ∧
    (wellFormed q = true → wellFormed q' = true →
      ((processQuery rt co cacheTTL q s w).keysUsed.head?
          = (processQuery rt' co' cacheTTL' q' s' w').keysUsed.head? ↔ q = q')) ∧
    ((processQuery rt co cacheTTL q s w).keysUsed = [cacheKey q] ∨
      (processQuery rt co cacheTTL q s w).keysUsed = [cacheKey q, cacheKey q]) ∧
    cacheKey (toUtf16 "Who won the election?") ≠ cacheKey (toUtf16 "who won the election?") := by
  have hkey : (processQuery rt co cacheTTL q s w).keysUsed.head?
        = (processQuery rt' co' cacheTTL' q' s' w').keysUsed.head? ↔
      codePoints q = codePoints q' := by
    rw [processQuery_keysUsed_head, processQuery_keysUsed_head, ← cacheKey_eq_iff q q' hq hq']
    exact ⟨fun h => Option.some.inj h, fun h => by rw [h]⟩
  refine ⟨hkey, ?_, processQuery_keysUsed rt co cacheTTL q s w, by decide⟩
  intro hw hw'
  rw [hkey]
  exact ⟨codePoints_inj q q' hw hw', fun h => by rw [h]⟩

/-- Witness for C3: the queries `a` and `b`. -/
theorem processQuery_cacheKey_iff_witness :
    (∀ u ∈ toUtf16 "a", u < 0x10000) ∧ (∀ u ∈ toUtf16 "b", u < 0x10000) ∧
    ((processQuery sampleRuntime sampleCollaborators 1800 (toUtf16 "a") "s1" ⟨[], []⟩).keysUsed.head?
        = (processQuery sampleRuntime sampleCollaborators 1800 (toUtf16 "b") "s2"
            ⟨[], []⟩).keysUsed.head? ↔
      toUtf16 "a" = toUtf16 "b") :=
  ⟨by decide, by decide,
    (processQuery_cacheKey_iff sampleRuntime sampleRuntime sampleCollaborators
      sampleCollaborators 1800 1800 (toUtf16 "a") (toUtf16 "b") "s1" "s2" ⟨[], []⟩ ⟨[], []⟩
      (by decide) (by decide)).2.1 (by decide) (by decide)⟩

/-- Counterexample for C3: the one-unit strings `\ud800` (an unpaired surrogate)
and `\ufffd` are different, and `processQuery` uses the same cache key,
`rag_cache:77+9`, for both. -/
theorem processQuery_cacheKey_counterexample :
    ([0xD800] : JsString) ≠ [0xFFFD] ∧
    cacheKey [0xD800] = "rag_cache:77+9" ∧ cacheKey [0xFFFD] = "rag_cache:77+9" ∧
    (processQuery sampleRuntime sampleCollaborators 1800 [0xD800] "s" ⟨[], []⟩).keysUsed.head?
      = (processQuery sampleRuntime sampleCollaborators 1800 [0xFFFD] "s" ⟨[], []⟩).keysUsed.head? := by
  refine ⟨by decide, rfl, rfl, ?_⟩
  rw [processQuery_keysUsed_head, processQuery_keysUsed_head]
  rfl

/-! ## The query pipeline (C4, C5, C6, C7) -/

section Pipeline

variable {R : Type} [LinearOrderedField R]

theorem setEx_ok_lookup {σ ι : Type} (key : String) (s : Nat) (v : σ) (w w1 : Redis σ ι)
    (h : Redis.setEx key s v w = (.ok (), w1)) :
    lookupKey key w1.data = some ⟨.str v, some s⟩ := by
  unfold Redis.setEx at h
  split at h
  · simp at h
  · simp only [Prod.mk.injEq, true_and] at h
    rw [← h]
    exact lookupKey_putKey_self _ _ _

theorem get_ok_some {σ ι : Type} (key : String) (v : σ) (w w1 : Redis σ ι)
    (h : Redis.get key w = (.ok (some v), w1)) :
    ∃ t, lookupKey key w1.data = some ⟨.str v, t⟩ := by
  have hd := get_data key w
  rw [h] at hd
  simp only at hd
  rw [hd]
  unfold Redis.get at h
  split at h
  · simp at h
  · split at h
    · simp at h
    · rename_i v2 t hl
      simp only [Prod.mk.injEq, Except.ok.injEq, Option.some.injEq] at h
      exact ⟨t, by rw [hl, h.1]⟩
    · simp at h

theorem processQueryBody_ok_cached (rt : Runtime R) (co : Collaborators R) (cacheTTL : Nat)
    (query : JsString) (sessionId : String) (w : RagCache) (r : String)
    (h : (processQueryBody rt co cacheTTL query sessionId w).1 = .ok r) :
    ∃ t, lookupKey (cacheKey query)
      (processQueryBody rt co cacheTTL query sessionId w).2.2.data = some ⟨.str r, t⟩ := by
  unfold processQueryBody at h ⊢
  simp only at h ⊢
  repeat' split at h
  all_goals first
    | (simp at h; done)
    | (simp only [Except.ok.injEq] at h
       subst h
       exact get_ok_some _ _ _ _ (by assumption))
    | (simp only [Except.ok.injEq] at h
       subst h
       exact ⟨_, setEx_ok_lookup _ _ _ _ _ (by assumption)⟩)

theorem processQuery_hit (rt : Runtime R) (co : Collaborators R) (cacheTTL : Nat)
    (query : JsString) (sessionId : String) (w : RagCache) (r : String) (t : Option Nat)
    (hf : w.faulted = false)
    (hl : lookupKey (cacheKey query) w.data = some ⟨.str r, t⟩) :
    processQuery rt co cacheTTL query sessionId w
      = ⟨r, [.cacheGet (cacheKey query) true], w.advance w.data⟩ := by
  unfold processQuery processQueryBody Redis.get
  simp [hf, hl]

theorem processQuery_response (rt : Runtime R) (co : Collaborators R) (cacheTTL : Nat)
    (query : JsString) (sessionId : String) (w : RagCache) :
    (processQuery rt co cacheTTL query sessionId w).response
      = match (processQueryBody rt co cacheTTL query sessionId w).1 with
        | .ok response => response
        | .error _ => apologyResponse := by
  unfold processQuery
  split <;> rename_i heq <;> rw [heq]

/-- C4 (as amended): if a first `processQuery` call for a query gets through its
`try` block (it is not answered from the `catch` branch) and the store answers
the lookup of the second call, a second call with the same query (any session,
any collaborators) returns the same response, and it consists of the cache
lookup alone: the generation provider is not invoked. -/
theorem processQuery_twice (rt : Runtime R) (co co2 : Collaborators R) (cacheTTL : Nat)
    (query : JsString) (s1 s2 : String) (w : RagCache) (r : String)
    (h1 : (processQueryBody rt co cacheTTL query s1 w).1 = .ok r)
    (h2 : (processQuery rt co cacheTTL query s1 w).cache.faulted = false) :
    (processQuery rt co2 cacheTTL query s2
        (processQuery rt co cacheTTL query s1 w).cache).response
      = (processQuery rt co cacheTTL query s1 w).response ∧
    (processQuery rt co2 cacheTTL query s2
        (processQuery rt co cacheTTL query s1 w).cache).events
      = [.cacheGet (cacheKey query) true] ∧
    (processQuery rt co2 cacheTTL query s2
        (processQuery rt co cacheTTL query s1 w).cache).events.all
      (fun e => !e.isGenerate) = true := by
  obtain ⟨t, hl⟩ := processQueryBody_ok_cached rt co cacheTTL query s1 w r h1
  rw [← processQuery_cache] at hl
  rw [processQuery_hit rt co2 cacheTTL query s2 _ r t h2 hl]
  refine ⟨?_, rfl, rfl⟩
  rw [processQuery_response, h1]

/-- C7 (as amended): when the store rejects the cache lookup, `processQuery`
answers with the apology; the lookup is the only call it makes (no embedding, no
retrieval, no generation, no cache write) and the cache keeps its content. -/
theorem processQuery_lookup_rejected (rt : Runtime R) (co : Collaborators R) (cacheTTL : Nat)
    (query : JsString) (sessionId : String) (w : RagCache) (hf : w.faulted = true) :
    (processQuery rt co cacheTTL query sessionId w).response = apologyResponse ∧
    (processQuery rt co cacheTTL query sessionId w).events
      = [.cacheGet (cacheKey query) false] ∧
    (processQuery rt co cacheTTL query sessionId w).cache.data = w.data := by
  unfold processQuery processQueryBody Redis.get
  simp [hf, Redis.advance]

/-- C5 (as amended): on a cache miss, when retrieval answers with a result whose
documents are missing, have no row, or have an empty first row, no call of the
generation provider is made.  When the documents are missing or the first row is
empty, `processQuery` writes the fallback sentence to the cache and returns it
if the store accepts the write, and returns the apology if the store rejects it;
when the documents have no row it returns the apology. -/
theorem processQuery_no_documents (rt : Runtime R) (co : Collaborators R) (cacheTTL : Nat)
    (query : JsString) (sessionId : String) (w : RagCache) (searchResults : SearchResults)
    (hget : w.faulted = false)
    (hmiss : lookupKey (cacheKey query) w.data = none)
    (hsearch : co.chroma (generateEmbedding rt co.jina query).1 5 = .ok searchResults) :
    ((searchResults.documents = none ∨ searchResults.documents = some [] ∨
        ∃ rest, searchResults.documents = some ([] :: rest)) →
      (processQuery rt co cacheTTL query sessionId w).events.all
        (fun e => !e.isGenerate) = true) ∧
    ((searchResults.documents = none ∨ ∃ rest, searchResults.documents = some ([] :: rest)) →
      (w.advance w.data).faulted = false →
      (processQuery rt co cacheTTL query sessionId w).response = fallbackResponse ∧
      lookupKey (cacheKey query) (processQuery rt co cacheTTL query sessionId w).cache.data
        = some ⟨.str fallbackResponse, some cacheTTL⟩) ∧
    ((searchResults.documents = none ∨ ∃ rest, searchResults.documents = some ([] :: rest)) →
      (w.advance w.data).faulted = true →
      (processQuery rt co cacheTTL query sessionId w).response = apologyResponse) ∧
    (searchResults.documents = some [] →
      (processQuery rt co cacheTTL query sessionId w).response = apologyResponse) := by
  refine ⟨?_, ?_, ?_, ?_⟩
  · intro hzero
    unfold processQuery processQueryBody Redis.get Redis.setEx
    rcases hzero with hz | hz | ⟨rest, hz⟩
    · by_cases hset : (w.advance w.data).faulted = true
      · simp [hget, hmiss, hsearch, hz, hset, Event.isGenerate]
      · simp [hget, hmiss, hsearch, hz, hset, Event.isGenerate]
    · simp [hget, hmiss, hsearch, hz, Event.isGenerate]
    · by_cases hset : (w.advance w.data).faulted = true
      · simp [hget, hmiss, hsearch, hz, hset, Event.isGenerate]
      · simp [hget, hmiss, hsearch, hz, hset, Event.isGenerate]
  · intro hzero hset
    have hset2 := hset
    simp only [Redis.advance] at hset2
    unfold processQuery processQueryBody Redis.get Redis.setEx
    rcases hzero with hz | ⟨rest, hz⟩ <;>
      simp [hget, hmiss, hsearch, hz, hset2, Redis.advance, lookupKey_putKey_self]
  · intro hzero hset
    unfold processQuery processQueryBody Redis.get Redis.setEx
    rcases hzero with hz | ⟨rest, hz⟩ <;>
      simp [hget, hmiss, hsearch, hz, hset]
  · intro hz
    unfold processQuery processQueryBody Redis.get
    simp [hget, hmiss, hsearch, hz]

/-- C6 (as amended): `processQuery` never raises: its answer is the value of its
`try` block, or the apology when that block throws.  The block throws, so the
answer is the apology, when the store rejects the cache lookup or the key holds
a list; and, after a lookup answered with a miss, when the vector index rejects
the search, when the generative model rejects the prompt, and when the store
rejects the cache write.  A rejection of the embedding provider is not such a
case: the search is then made with the local embedding, and with the other
calls answered the answer is the generated text. -/
theorem processQuery_rejection_apology (rt : Runtime R) (co : Collaborators R) (cacheTTL : Nat)
    (query : JsString) (sessionId : String) (w : RagCache) :
    ((processQuery rt co cacheTTL query sessionId w).response
      = match (processQueryBody rt co cacheTTL query sessionId w).1 with
        | .ok response => response
        | .error _ => apologyResponse) ∧
    (w.faulted = true →
      (processQuery rt co cacheTTL query sessionId w).response = apologyResponse) ∧
    (w.faulted = false →
      (∀ items t, lookupKey (cacheKey query) w.data = some ⟨.list items, t⟩ →
        (processQuery rt co cacheTTL query sessionId w).response = apologyResponse) ∧
      (lookupKey (cacheKey query) w.data = none →
        (∀ e, co.chroma (generateEmbedding rt co.jina query).1 5 = .error e →
          (processQuery rt co cacheTTL query sessionId w).response = apologyResponse) ∧
        (∀ searchResults doc docs rows context e,
          co.chroma (generateEmbedding rt co.jina query).1 5 = .ok searchResults →
          searchResults.documents = some ((doc :: docs) :: rows) →
          buildContext (doc :: docs) searchResults.metadatas = .ok context →
          co.gemini (buildPrompt context query) = .error e →
          (processQuery rt co cacheTTL query sessionId w).response = apologyResponse) ∧
        ((w.advance w.data).faulted = true →
          (processQuery rt co cacheTTL query sessionId w).response = apologyResponse) ∧
        (∀ searchResults doc docs rows context r,
          co.jina query = none →
          co.chroma (generateSimpleEmbedding rt query) 5 = .ok searchResults →
          searchResults.documents = some ((doc :: docs) :: rows) →
          buildContext (doc :: docs) searchResults.metadatas = .ok context →
          co.gemini (buildPrompt context query) = .ok r →
          (w.advance w.data).faulted = false →
          (processQuery rt co cacheTTL query sessionId w).response = r))) := by
  refine ⟨processQuery_response rt co cacheTTL query sessionId w, ?_, ?_⟩
  · intro hf
    unfold processQuery processQueryBody Redis.get
    simp [hf]
  · intro hf
    refine ⟨?_, ?_⟩
    · intro items t hl
      unfold processQuery processQueryBody Redis.get
      simp [hf, hl]
    · intro hmiss
      refine ⟨?_, ?_, ?_, ?_⟩
      · intro e he
        unfold processQuery processQueryBody Redis.get
        simp [hf, hmiss, he]
      · intro searchResults doc docs rows context e hs hd hc hg
        unfold processQuery processQueryBody Redis.get
        simp [hf, hmiss, hs, hd, hc, hg]
      · intro hset
        rw [processQuery_response]
        unfold processQueryBody Redis.get Redis.setEx
        simp only [hf, hmiss, hset, Bool.false_eq_true, if_false, if_true]
        repeat' split
        all_goals first
          | rfl
          | (rename_i h; simp at h; done)
          | (rename_i h; repeat' split at h
             all_goals simp at h)
      · intro searchResults doc docs rows context r hj hs hd hc hg hset
        have he : generateEmbedding rt co.jina query = (generateSimpleEmbedding rt query, false) := by
          unfold generateEmbedding
          rw [hj]
        unfold processQuery processQueryBody Redis.get Redis.setEx
        simp [hf, hmiss, he, hs, hd, hc, hg, hset]

end Pipeline

/-- Witness for C4: a miss that is answered by the pipeline, then asked again. -/
theorem processQuery_twice_witness :
    (processQueryBody sampleRuntime sampleCollaborators 1800 (toUtf16 "q") "s1" ⟨[], []⟩).1
      = .ok "answer" ∧
    (processQuery sampleRuntime sampleCollaborators 1800 (toUtf16 "q") "s1"
      ⟨[], []⟩).cache.faulted = false ∧
    (processQuery sampleRuntime brokenModelCollaborators 1800 (toUtf16 "q") "s2"
        (processQuery sampleRuntime sampleCollaborators 1800 (toUtf16 "q") "s1"
          ⟨[], []⟩).cache).response
      = (processQuery sampleRuntime sampleCollaborators 1800 (toUtf16 "q") "s1"
          ⟨[], []⟩).response :=
  ⟨rfl, rfl,
    (processQuery_twice sampleRuntime sampleCollaborators brokenModelCollaborators 1800
      (toUtf16 "q") "s1" "s2" ⟨[], []⟩ "answer" rfl rfl).1⟩

/-- Counterexample for C4: the cache is empty and the store answers the lookup of
the first call but rejects its write.  The first call is answered with the
apology and caches nothing; the second call, with the same query and the same
collaborators, calls the generation provider and returns the generated text. -/
theorem processQuery_twice_counterexample :
    (processQuery sampleRuntime sampleCollaborators 1800 (toUtf16 "q") "s1"
      ⟨[], [false, true]⟩).response = apologyResponse ∧
    (processQuery sampleRuntime sampleCollaborators 1800 (toUtf16 "q") "s2"
        (processQuery sampleRuntime sampleCollaborators 1800 (toUtf16 "q") "s1"
          ⟨[], [false, true]⟩).cache).response = "answer" ∧
    (processQuery sampleRuntime sampleCollaborators 1800 (toUtf16 "q") "s2"
        (processQuery sampleRuntime sampleCollaborators 1800 (toUtf16 "q") "s1"
          ⟨[], [false, true]⟩).cache).response
      ≠ (processQuery sampleRuntime sampleCollaborators 1800 (toUtf16 "q") "s1"
          ⟨[], [false, true]⟩).response ∧
    (processQuery sampleRuntime sampleCollaborators 1800 (toUtf16 "q") "s2"
        (processQuery sampleRuntime sampleCollaborators 1800 (toUtf16 "q") "s1"
          ⟨[], [false, true]⟩).cache).events.any (fun e => e.isGenerate) = true := by
  refine ⟨rfl, rfl, by decide, rfl⟩

/-- Witness for C5: an empty cache and an index that finds nothing. -/
theorem processQuery_no_documents_witness :
    (processQuery sampleRuntime emptyIndexCollaborators 1800 (toUtf16 "q") "s"
      ⟨[], []⟩).response = fallbackResponse ∧
    (processQuery sampleRuntime emptyIndexCollaborators 1800 (toUtf16 "q") "s"
      ⟨[], []⟩).events.all (fun e => !e.isGenerate) = true :=
  ⟨((processQuery_no_documents sampleRuntime emptyIndexCollaborators 1800 (toUtf16 "q") "s"
      ⟨[], []⟩ { documents := some [[]], metadatas := some [[]] } rfl rfl rfl).2.1
      (Or.inr ⟨[], rfl⟩) rfl).1,
   (processQuery_no_documents sampleRuntime emptyIndexCollaborators 1800 (toUtf16 "q") "s"
      ⟨[], []⟩ { documents := some [[]], metadatas := some [[]] } rfl rfl rfl).1
      (Or.inr (Or.inr ⟨[], rfl⟩))⟩

/-- Counterexample for C5: nothing is cached and the index finds nothing.  When
the store rejects the write of the fallback, the answer is the apology, not the
fallback sentence; and so it is when the index answers without any row of
documents. -/
theorem processQuery_no_documents_counterexample :
    (processQuery sampleRuntime emptyIndexCollaborators 1800 (toUtf16 "q") "s"
      ⟨[], [false, true]⟩).response = apologyResponse ∧
    (processQuery sampleRuntime
      { sampleCollaborators with
        chroma := fun _ _ => .ok { documents := some [], metadatas := some [] } }
      1800 (toUtf16 "q") "s" ⟨[], []⟩).response = apologyResponse ∧
    apologyResponse ≠ fallbackResponse := by
  refine ⟨rfl, rfl, by decide⟩

/-- Witness for C6: the store rejects the lookup; and the generative model
rejects the prompt. -/
theorem processQuery_rejection_apology_witness :
    (processQuery sampleRuntime sampleCollaborators 1800 (toUtf16 "q") "s"
      ⟨[], [true]⟩).response = apologyResponse ∧
    (processQuery sampleRuntime brokenModelCollaborators 1800 (toUtf16 "q") "s"
      ⟨[], []⟩).response = apologyResponse :=
  ⟨(processQuery_rejection_apology sampleRuntime sampleCollaborators 1800 (toUtf16 "q") "s"
      ⟨[], [true]⟩).2.1 rfl,
   ((processQuery_rejection_apology sampleRuntime brokenModelCollaborators 1800 (toUtf16 "q")
      "s" ⟨[], []⟩).2.2 rfl).2 rfl |>.2.1
      { documents := some [["doc"]], metadatas := some [[none]] } "doc" [] []
      "Article 1: News Article\nContent: doc\nSource: Unknown\nPublished: Unknown"
      .provider rfl rfl rfl rfl⟩

/-- Counterexample for C6: the embedding provider rejects, every other call is
answered, and the answer is the generated text, not the apology. -/
theorem processQuery_embed_rejected_counterexample :
    sampleCollaborators.jina (toUtf16 "q") = none ∧
    Event.embed (toUtf16 "q") false
      ∈ (processQuery sampleRuntime sampleCollaborators 1800 (toUtf16 "q") "s" ⟨[], []⟩).events ∧
    (processQuery sampleRuntime sampleCollaborators 1800 (toUtf16 "q") "s" ⟨[], []⟩).response
      = "answer" ∧
    (processQuery sampleRuntime sampleCollaborators 1800 (toUtf16 "q") "s" ⟨[], []⟩).response
      ≠ apologyResponse := by
  refine ⟨rfl, List.Mem.tail _ (List.Mem.head _), rfl, by decide⟩

/-- Witness for C7: the store rejects the lookup. -/
theorem processQuery_lookup_rejected_witness :
    (processQuery sampleRuntime sampleCollaborators 1800 (toUtf16 "q") "s"
      ⟨[], [true]⟩).response = apologyResponse :=
  (processQuery_lookup_rejected sampleRuntime sampleCollaborators 1800 (toUtf16 "q") "s"
    ⟨[], [true]⟩ rfl).1

/-- Counterexample for C7: with the same collaborators and the same empty cache, a
rejected lookup is answered with the apology and nothing else is called, whereas
an ordinary miss is answered with the generated text. -/
theorem processQuery_lookup_rejected_counterexample :
    (processQuery sampleRuntime sampleCollaborators 1800 (toUtf16 "q") "s"
      ⟨[], [true]⟩).response = apologyResponse ∧
    (processQuery sampleRuntime sampleCollaborators 1800 (toUtf16 "q") "s"
      ⟨[], [true]⟩).events = [.cacheGet (cacheKey (toUtf16 "q")) false] ∧
    (processQuery sampleRuntime sampleCollaborators 1800 (toUtf16 "q") "s"
      ⟨[], []⟩).response = "answer" ∧
    (processQuery sampleRuntime sampleCollaborators 1800 (toUtf16 "q") "s"
      ⟨[], [true]⟩).response
      ≠ (processQuery sampleRuntime sampleCollaborators 1800 (toUtf16 "q") "s"
          ⟨[], []⟩).response := by
  refine ⟨rfl, rfl, rfl, by decide⟩

/-! ## Clearing a session (C9) -/

theorem sessionKey_inj {a b : String} (h : sessionKey a = sessionKey b) : a = b := by
  unfold sessionKey at h
  have := congrArg String.data h
  simp only [String.data_append, List.append_cancel_left_eq] at this
  exact String.ext this

theorem historyKey_inj {a b : String} (h : historyKey a = historyKey b) : a = b := by
  unfold historyKey at h
  have := congrArg String.data h
  simp only [String.data_append, List.append_cancel_left_eq, List.append_cancel_right_eq] at this
  exact String.ext this

theorem sessionKey_eq_historyKey {a b : String} (h : sessionKey a = historyKey b) :
    a = b ++ ":history" := by
  unfold sessionKey historyKey at h
  have := congrArg String.data h
  simp only [String.data_append, List.append_assoc, List.append_cancel_left_eq] at this
  exact String.ext (by simpa using this)

theorem del_lookup_self {σ ι : Type} (key : String) (w : Redis σ ι) (n : Nat)
    (h : (Redis.del key w).1 = .ok n) : lookupKey key (Redis.del key w).2.data = none := by
  unfold Redis.del at h ⊢
  by_cases hf : w.faulted = true
  · simp [hf] at h
  · have hf2 : w.faulted = false := by simpa using hf
    simp only [hf2, Bool.false_eq_true, if_false] at h ⊢
    cases hl : lookupKey key w.data with
    | none => simp [Redis.advance, hl]
    | some e => simp [Redis.advance, lookupKey_eraseKey_self]

theorem del_lookup_ne {σ ι : Type} {key other : String} (hne : other ≠ key) (w : Redis σ ι) :
    lookupKey other (Redis.del key w).2.data = lookupKey other w.data := by
  unfold Redis.del
  by_cases hf : w.faulted = true
  · simp [hf, Redis.advance]
  · have hf2 : w.faulted = false := by simpa using hf
    simp only [hf2, Bool.false_eq_true, if_false]
    cases hl : lookupKey key w.data with
    | none => simp [Redis.advance]
    | some e => simp [Redis.advance, lookupKey_eraseKey_ne hne]

theorem del_lookup_none {σ ι : Type} (key other : String) (w : Redis σ ι)
    (h : lookupKey other w.data = none) :
    lookupKey other (Redis.del key w).2.data = none := by
  by_cases hk : other = key
  · subst hk
    unfold Redis.del
    by_cases hf : w.faulted = true
    · simp [hf, Redis.advance, h]
    · have hf2 : w.faulted = false := by simpa using hf
      simp [hf2, Redis.advance, h]
  · rw [del_lookup_ne hk, h]

theorem del_faulted {σ ι : Type} (key : String) (w : Redis σ ι) (hf : w.faulted = true) :
    (Redis.del key w).1 = .error .storeUnavailable := by
  unfold Redis.del
  simp [hf]

theorem del_faults {σ ι : Type} (key : String) (w : Redis σ ι) :
    (Redis.del key w).2.faults = w.faults.tail := by
  unfold Redis.del
  split
  · rfl
  · split <;> rfl

theorem clearSession_data (sessionId : String) (w : SessionStore) :
    (clearSession sessionId w).2
      = (Redis.del (historyKey sessionId) (Redis.del (sessionKey sessionId) w).2).2 := by
  unfold clearSession
  rcases h1 : Redis.del (sessionKey sessionId) w with ⟨r1, w1⟩
  simp only
  rcases h2 : Redis.del (historyKey sessionId) w1 with ⟨r2, w2⟩
  simp only
  cases r1 <;> cases r2 <;> rfl

theorem clearSession_ok_inv (sessionId : String) (w : SessionStore)
    (h : (clearSession sessionId w).1 = .ok ()) :
    (∃ n, (Redis.del (sessionKey sessionId) w).1 = .ok n) ∧
    (∃ n, (Redis.del (historyKey sessionId) (Redis.del (sessionKey sessionId) w).2).1 = .ok n) := by
  unfold clearSession at h
  rcases h1 : Redis.del (sessionKey sessionId) w with ⟨r1, w1⟩
  rw [h1] at h
  simp only at h
  rcases h2 : Redis.del (historyKey sessionId) w1 with ⟨r2, w2⟩
  rw [h2] at h
  simp only at h
  cases r1 <;> cases r2 <;> simp at h
  exact ⟨⟨_, rfl⟩, ⟨_, rfl⟩⟩

theorem getSession_none_of_lookup (sessionId : String) (w : SessionStore)
    (h : lookupKey (sessionKey sessionId) w.data = none) : (getSession sessionId w).1 = none := by
  unfold getSession Redis.get
  by_cases hf : w.faulted = true
  · simp [hf]
  · have hf2 : w.faulted = false := by simpa using hf
    simp [hf2, h]

theorem getSessionHistory_nil_of_lookup (sessionId : String) (w : SessionStore)
    (h : lookupKey (historyKey sessionId) w.data = none) :
    (getSessionHistory sessionId w).1 = [] := by
  unfold getSessionHistory Redis.lRange
  by_cases hf : w.faulted = true
  · simp [hf]
  · have hf2 : w.faulted = false := by simpa using hf
    simp [hf2, h]

/-- C9 (as amended): after a `clearSession(id)` that succeeds, `getSession(id)` is
`null` and `getSessionHistory(id)` is empty, and the record and the history of
every other session id are as before, provided that id is neither `id` followed
by `:history` nor `id` without a final `:history` (the keys of such ids are the
two keys deleted); and when the store rejects either of the two deletions,
`clearSession` rejects. -/
theorem clearSession_spec (sessionId : String) (w : SessionStore) :
    ((clearSession sessionId w).1 = .ok () →
      (getSession sessionId (clearSession sessionId w).2).1 = none ∧
      (getSessionHistory sessionId (clearSession sessionId w).2).1 = [] ∧
      ∀ other : String, other ≠ sessionId → other ≠ sessionId ++ ":history" →
        sessionId ≠ other ++ ":history" →
        lookupKey (sessionKey other) (clearSession sessionId w).2.data
          = lookupKey (sessionKey other) w.data ∧
        lookupKey (historyKey other) (clearSession sessionId w).2.data
          = lookupKey (historyKey other) w.data) ∧
    ((w.faulted = true ∨ (w.advance w.data).faulted = true) →
      ∃ e, (clearSession sessionId w).1 = .error e) := by
  constructor
  · intro h
    obtain ⟨⟨n1, h1⟩, ⟨n2, h2⟩⟩ := clearSession_ok_inv sessionId w h
    rw [clearSession_data]
    refine ⟨?_, ?_, ?_⟩
    · apply getSession_none_of_lookup
      exact del_lookup_none _ _ _ (del_lookup_self _ w n1 h1)
    · apply getSessionHistory_nil_of_lookup
      exact del_lookup_self _ _ n2 h2
    · intro other h1 h2 h3
      have a1 : sessionKey other ≠ sessionKey sessionId := fun e => h1 (sessionKey_inj e)
      have a2 : sessionKey other ≠ historyKey sessionId :=
        fun e => h2 (sessionKey_eq_historyKey e)
      have a3 : historyKey other ≠ sessionKey sessionId :=
        fun e => h3 (sessionKey_eq_historyKey e.symm)
      have a4 : historyKey other ≠ historyKey sessionId := fun e => h1 (historyKey_inj e)
      rw [del_lookup_ne a2, del_lookup_ne a1, del_lookup_ne a4, del_lookup_ne a3]
      exact ⟨rfl, rfl⟩
  · intro h
    unfold clearSession
    rcases h1 : Redis.del (sessionKey sessionId) w with ⟨r1, w1⟩
    simp only
    rcases h2 : Redis.del (historyKey sessionId) w1 with ⟨r2, w2⟩
    simp only
    rcases h with hf | hf
    · have := del_faulted (sessionKey sessionId) w hf
      rw [h1] at this
      simp only at this
      subst this
      exact ⟨_, rfl⟩
    · have hw1 : w1.faulted = true := by
        have e := del_faults (sessionKey sessionId) w
        rw [h1] at e
        simp only at e
        simpa [Redis.faulted, Redis.advance, e] using hf
      have := del_faulted (historyKey sessionId) w1 hw1
      rw [h2] at this
      simp only at this
      subst this
      cases r1 <;> exact ⟨_, rfl⟩

/-- Witness for C9: a session with a record and one history entry is cleared, and
a store that rejects the first deletion makes `clearSession` reject. -/
theorem clearSession_spec_witness :
    ((getSession "S1" (clearSession "S1"
        (addToHistory 3600 7 "S1" ⟨"Hello", "Hi", "t"⟩
          (createSession 3600 5 "S1" ⟨[], []⟩).2).2).2).1 = none ∧
      (getSessionHistory "S1" (clearSession "S1"
        (addToHistory 3600 7 "S1" ⟨"Hello", "Hi", "t"⟩
          (createSession 3600 5 "S1" ⟨[], []⟩).2).2).2).1 = []) ∧
    (∃ e, (clearSession "S1" (⟨[], [true]⟩ : SessionStore)).1 = .error e) :=
  ⟨⟨((clearSession_spec "S1" (addToHistory 3600 7 "S1" ⟨"Hello", "Hi", "t"⟩
        (createSession 3600 5 "S1" ⟨[], []⟩).2).2).1 rfl).1,
    ((clearSession_spec "S1" (addToHistory 3600 7 "S1" ⟨"Hello", "Hi", "t"⟩
        (createSession 3600 5 "S1" ⟨[], []⟩).2).2).1 rfl).2.1⟩,
   (clearSession_spec "S1" ⟨[], [true]⟩).2 (Or.inl rfl)⟩

/-- Counterexample for C9: the session `a:history` has been created; clearing the
other session `a` succeeds and removes the record of `a:history`, whose key
`session:a:history` is the history key of `a`. -/
theorem clearSession_other_session_counterexample :
    (clearSession "a" (createSession 3600 5 "a:history" ⟨[], []⟩).2).1 = .ok () ∧
    "a:history" ≠ "a" ∧
    (getSession "a:history" (createSession 3600 5 "a:history" ⟨[], []⟩).2).1
      = some ⟨"a:history", 5, 5, 0⟩ ∧
    (getSession "a:history"
      (clearSession "a" (createSession 3600 5 "a:history" ⟨[], []⟩).2).2).1 = none := by
  refine ⟨rfl, by decide, rfl, rfl⟩

/-! ## The sweep of expired sessions (C10) -/

theorem lookupKey_isSome_of_mem {σ ι : Type} (key : String)
    (d : List (String × RedisEntry σ ι)) (h : key ∈ d.map Prod.fst) :
    ∃ e, lookupKey key d = some e := by
  induction d with
  | nil => simp at h
  | cons p rest ih =>
    obtain ⟨k, e⟩ := p
    by_cases hk : k = key
    · exact ⟨e, by simp [lookupKey, hk]⟩
    · have : key ∈ rest.map Prod.fst := by
        simp only [List.map_cons, List.mem_cons] at h
        rcases h with h | h
        · exact absurd h.symm hk
        · exact h
      obtain ⟨e2, he2⟩ := ih this
      exact ⟨e2, by simp [lookupKey, hk, he2]⟩

theorem mem_of_lookupKey {σ ι : Type} (key : String) (e : RedisEntry σ ι)
    (d : List (String × RedisEntry σ ι)) (h : lookupKey key d = some e) :
    key ∈ d.map Prod.fst := by
  induction d with
  | nil => simp [lookupKey] at h
  | cons p rest ih =>
    obtain ⟨k, e2⟩ := p
    by_cases hk : k = key
    · simp [hk]
    · simp only [lookupKey, hk, if_false] at h
      simp only [List.map_cons, List.mem_cons]
      exact Or.inr (ih h)

theorem readSessions_spec (keys : List String) :
    ∀ (w : SessionStore), w.faults = [] →
      (∀ k ∈ keys, ∀ items t, lookupKey k w.data ≠ some ⟨.list items, t⟩) →
      ∃ w1, readSessions keys w = (.ok (keys.filterMap (recordAt w)), w1) ∧
        w1.data = w.data ∧ w1.faults = [] := by
  induction keys with
  | nil => intro w hf _; exact ⟨w, rfl, rfl, hf⟩
  | cons k rest ih =>
    intro w hf hk
    have hfa := faulted_of_nil w hf
    have hadv : w.advance w.data = w := by
      cases w; simp only [Redis.advance] at *; simp [hf]
    obtain ⟨w1, h1, hd, hf1⟩ := ih w hf (fun k2 hk2 => hk k2 (List.mem_cons_of_mem _ hk2))
    unfold readSessions Redis.get
    simp only [hfa, Bool.false_eq_true, if_false, hadv]
    cases hl : lookupKey k w.data with
    | none =>
      simp only [h1, List.filterMap_cons, recordAt, hl]
      exact ⟨w1, rfl, hd, hf1⟩
    | some e =>
      obtain ⟨v, t⟩ := e
      cases v with
      | list items => exact absurd hl (hk k (List.mem_cons_self _ _) items t)
      | str s =>
        simp only [h1, List.filterMap_cons, recordAt, hl]
        exact ⟨w1, rfl, hd, hf1⟩

theorem getActiveSessions_spec (w : SessionStore) (hf : w.faults = []) (hwf : WellFormed w) :
    ∃ w1, getActiveSessions w
        = (((((w.data.map Prod.fst).dedup).filter (fun k => decide (sessionPrefix.data <+: k.data))).filter
            (fun key => !includes key ":history")).filterMap (recordAt w), w1) ∧
      w1.data = w.data ∧ w1.faults = [] := by
  have hfa := faulted_of_nil w hf
  have hadv : w.advance w.data = w := by
    cases w; simp only [Redis.advance] at *; simp [hf]
  unfold getActiveSessions Redis.keys
  simp only [hfa, Bool.false_eq_true, if_false, hadv]
  have hk : ∀ k ∈ (((w.data.map Prod.fst).dedup).filter
      (fun k => decide (sessionPrefix.data <+: k.data))).filter (fun key => !includes key ":history"),
      ∀ items t, lookupKey k w.data ≠ some ⟨.list items, t⟩ := by
    intro k hk items t hl
    have hinc := hwf k _ hl
    simp only at hinc
    simp only [List.mem_filter] at hk
    simp [hinc] at hk
  obtain ⟨w1, h1, hd, hf1⟩ := readSessions_spec _ w hf hk
  rw [h1]
  exact ⟨w1, rfl, hd, hf1⟩

theorem clearSession_of_nil (sessionId : String) (w : SessionStore) (hf : w.faults = []) :
    (clearSession sessionId w).1 = .ok () ∧ (clearSession sessionId w).2.faults = [] := by
  have hfa := faulted_of_nil w hf
  have h1f : (Redis.del (sessionKey sessionId) w).2.faults = [] := by
    rw [del_faults, hf]; rfl
  have h1fa := faulted_of_nil _ h1f
  constructor
  · unfold clearSession
    have a1 : ∃ n, (Redis.del (sessionKey sessionId) w).1 = .ok n := by
      unfold Redis.del
      simp only [hfa, Bool.false_eq_true, if_false]
      split <;> exact ⟨_, rfl⟩
    have a2 : ∃ n, (Redis.del (historyKey sessionId)
        (Redis.del (sessionKey sessionId) w).2).1 = .ok n := by
      generalize Redis.del (sessionKey sessionId) w = x at h1fa ⊢
      unfold Redis.del
      simp only [h1fa, Bool.false_eq_true, if_false]
      split <;> exact ⟨_, rfl⟩
    obtain ⟨n1, e1⟩ := a1
    obtain ⟨n2, e2⟩ := a2
    rcases h1 : Redis.del (sessionKey sessionId) w with ⟨r1, w1⟩
    rw [h1] at e1 e2
    simp only at e1 e2 ⊢
    rcases h2 : Redis.del (historyKey sessionId) w1 with ⟨r2, w2⟩
    rw [h2] at e2
    simp only at e2 ⊢
    subst e1 e2
    rfl
  · rw [clearSession_data, del_faults, h1f]; rfl

theorem clearSession_lookup_ne (sessionId key : String) (w : SessionStore)
    (h1 : key ≠ sessionKey sessionId) (h2 : key ≠ historyKey sessionId) :
    lookupKey key (clearSession sessionId w).2.data = lookupKey key w.data := by
  rw [clearSession_data, del_lookup_ne h2, del_lookup_ne h1]

theorem clearSession_lookup_none (sessionId key : String) (w : SessionStore)
    (h : lookupKey key w.data = none) :
    lookupKey key (clearSession sessionId w).2.data = none := by
  rw [clearSession_data]
  exact del_lookup_none _ _ _ (del_lookup_none _ _ _ h)

theorem clearSession_lookup_self (sessionId key : String) (w : SessionStore)
    (hf : w.faults = []) (h : key = sessionKey sessionId ∨ key = historyKey sessionId) :
    lookupKey key (clearSession sessionId w).2.data = none := by
  obtain ⟨⟨n1, h1⟩, ⟨n2, h2⟩⟩ := clearSession_ok_inv sessionId w (clearSession_of_nil _ w hf).1
  rw [clearSession_data]
  rcases h with h | h
  · subst h
    exact del_lookup_none _ _ _ (del_lookup_self _ w n1 h1)
  · subst h
    exact del_lookup_self _ _ n2 h2

theorem sweep_spec (ttl now : Nat) (sessions : List Session) :
    ∀ (c : Nat) (w : SessionStore), w.faults = [] →
      ∃ w1, sweep ttl now sessions c w
          = (.ok (c + (sessions.filter (expired ttl now)).length), w1) ∧
        w1.faults = [] ∧
        (∀ key, lookupKey key w.data = none → lookupKey key w1.data = none) ∧
        (∀ key, Cleared ttl now sessions key → lookupKey key w1.data = none) ∧
        (∀ key, ¬ Cleared ttl now sessions key → lookupKey key w1.data = lookupKey key w.data) := by
  induction sessions with
  | nil =>
    intro c w hf
    refine ⟨w, rfl, hf, fun _ h => h, ?_, fun _ _ => rfl⟩
    rintro key ⟨s, hs, _⟩
    simp at hs
  | cons s rest ih =>
    intro c w hf
    by_cases he : expired ttl now s = true
    · obtain ⟨hok, hf1⟩ := clearSession_of_nil s.id w hf
      rcases hc : clearSession s.id w with ⟨r, w0⟩
      rw [hc] at hok hf1
      simp only at hok hf1
      subst hok
      obtain ⟨w1, h1, hf2, hnone, hcl, hncl⟩ := ih (c + 1) w0 hf1
      have hw0 : w0 = (clearSession s.id w).2 := by rw [hc]
      refine ⟨w1, ?_, hf2, ?_, ?_, ?_⟩
      · simp only [sweep, he, if_true, hc, h1, List.filter_cons, List.length_cons]
        congr 2
        omega
      · intro key hk
        apply hnone
        rw [hw0]
        exact clearSession_lookup_none _ _ _ hk
      · rintro key ⟨s2, hs2, hexp, hkey⟩
        by_cases hr : Cleared ttl now rest key
        · exact hcl key hr
        · simp only [List.mem_cons] at hs2
          rcases hs2 with rfl | hs2
          · apply hnone
            rw [hw0]
            exact clearSession_lookup_self _ _ _ hf hkey
          · exact absurd ⟨s2, hs2, hexp, hkey⟩ hr
      · intro key hk
        have hr : ¬ Cleared ttl now rest key := by
          rintro ⟨s2, hs2, hexp, hkey⟩
          exact hk ⟨s2, List.mem_cons_of_mem _ hs2, hexp, hkey⟩
        rw [hncl key hr, hw0]
        apply clearSession_lookup_ne
        · intro h; exact hk ⟨s, List.mem_cons_self _ _, he, Or.inl h⟩
        · intro h; exact hk ⟨s, List.mem_cons_self _ _, he, Or.inr h⟩
    · obtain ⟨w1, h1, hf2, hnone, hcl, hncl⟩ := ih c w hf
      refine ⟨w1, ?_, hf2, hnone, ?_, ?_⟩
      · simp only [sweep, he, if_false, h1, List.filter_cons]
        simp
      · rintro key ⟨s2, hs2, hexp, hkey⟩
        simp only [List.mem_cons] at hs2
        rcases hs2 with rfl | hs2
        · exact absurd hexp he
        · exact hcl key ⟨s2, hs2, hexp, hkey⟩
      · intro key hk
        apply hncl
        rintro ⟨s2, hs2, hexp, hkey⟩
        exact hk ⟨s2, List.mem_cons_of_mem _ hs2, hexp, hkey⟩

theorem includes_historyKey (sessionId : String) : includes (historyKey sessionId) ":history" = true := by
  unfold includes historyKey
  simp only [String.data_append, decide_eq_true_eq]
  exact (List.suffix_append _ _).isInfix

theorem sessionPrefix_sessionKey (sessionId : String) :
    sessionPrefix.data <+: (sessionKey sessionId).data := by
  unfold sessionKey
  simp only [String.data_append]
  exact List.prefix_append _ _

theorem length_filter_filterMap {α β : Type} (f : α → Option β) (p : β → Bool) (l : List α) :
    ((l.filterMap f).filter p).length = (l.filter (fun a => (f a).any p)).length := by
  induction l with
  | nil => rfl
  | cons a rest ih =>
    cases hfa : f a with
    | none => simp [List.filterMap_cons, List.filter_cons, hfa, ih]
    | some b =>
      by_cases hp : p b = true
      · simp [List.filterMap_cons, List.filter_cons, hfa, hp, ih]
      · simp [List.filterMap_cons, List.filter_cons, hfa, hp, ih]

theorem recordAt_wellFormed (w : SessionStore) (hwf : WellFormed w) (key : String) (s : Session)
    (h : recordAt w key = some s) : key = sessionKey s.id := by
  unfold recordAt at h
  split at h
  · rename_i s2 t hl
    simp only [Option.some.injEq] at h
    subst h
    exact hwf key _ hl
  · simp at h

theorem recordAt_mem_keys (w : SessionStore) (key : String) (s : Session)
    (h : recordAt w key = some s) : key ∈ (w.data.map Prod.fst).dedup := by
  unfold recordAt at h
  split at h
  · rename_i s2 t hl
    exact List.mem_dedup.mpr (mem_of_lookupKey _ _ _ hl)
  · simp at h

theorem option_any_eq_true {α : Type} (p : α → Bool) (o : Option α) :
    o.any p = true ↔ ∃ a, o = some a ∧ p a = true := by
  cases o <;> simp [Option.any]

theorem mem_sweptKeys (ttl now : Nat) (w : SessionStore) (hwf : WellFormed w) (key : String) :
    key ∈ sweptKeys ttl now w ↔
      includes key ":history" = false ∧ ∃ s, recordAt w key = some s ∧ expired ttl now s = true := by
  unfold sweptKeys
  simp only [List.mem_filter, decide_eq_true_eq, Bool.and_eq_true, Bool.not_eq_true',
    option_any_eq_true]
  constructor
  · rintro ⟨_, hinc, s, hs, he⟩
    exact ⟨hinc, s, hs, he⟩
  · rintro ⟨hinc, s, hs, he⟩
    refine ⟨⟨recordAt_mem_keys w key s hs, ?_⟩, hinc, s, hs, he⟩
    rw [recordAt_wellFormed w hwf key s hs]
    exact sessionPrefix_sessionKey _

/-- C10 (as amended): in a keyspace of the shape the service maintains and with a
store that answers every command, `cleanupExpiredSessions` returns the number of
keys it found expired (the record keys without `:history` whose record is older
than the time to live, each counted once); and for every session whose record
key does not contain `:history`, the record and the history key are removed when
the record is expired, and both are left as they were when it is not. -/
theorem cleanupExpiredSessions_spec (ttl now : Nat) (w : SessionStore) (hf : w.faults = [])
    (hwf : WellFormed w) :
    (cleanupExpiredSessions ttl now w).1 = (sweptKeys ttl now w).length ∧
    (sweptKeys ttl now w).Nodup ∧
    (∀ key, key ∈ sweptKeys ttl now w ↔
      includes key ":history" = false ∧
        ∃ s, recordAt w key = some s ∧ expired ttl now s = true) ∧
    ∀ (sessionId : String) (s : Session),
      includes (sessionKey sessionId) ":history" = false →
      recordAt w (sessionKey sessionId) = some s →
      (expired ttl now s = true →
        lookupKey (sessionKey sessionId) (cleanupExpiredSessions ttl now w).2.data = none ∧
        lookupKey (historyKey sessionId) (cleanupExpiredSessions ttl now w).2.data = none) ∧
      (expired ttl now s = false →
        lookupKey (sessionKey sessionId) (cleanupExpiredSessions ttl now w).2.data
          = lookupKey (sessionKey sessionId) w.data ∧
        lookupKey (historyKey sessionId) (cleanupExpiredSessions ttl now w).2.data
          = lookupKey (historyKey sessionId) w.data) := by
  obtain ⟨w1, hact, hd1, hf1⟩ := getActiveSessions_spec w hf hwf
  obtain ⟨w2, hsw, _, _, hcl, hncl⟩ := sweep_spec ttl now
    (((((w.data.map Prod.fst).dedup).filter
      (fun k => decide (sessionPrefix.data <+: k.data))).filter
        (fun key => !includes key ":history")).filterMap (recordAt w)) 0 w1 hf1
  have hrun : cleanupExpiredSessions ttl now w
      = (0 + ((((((w.data.map Prod.fst).dedup).filter
          (fun k => decide (sessionPrefix.data <+: k.data))).filter
            (fun key => !includes key ":history")).filterMap (recordAt w)).filter
              (expired ttl now)).length, w2) := by
    unfold cleanupExpiredSessions
    rw [hact]
    simp only
    rw [hsw]
  -- membership in the list of sessions read
  have hmem : ∀ s, s ∈ ((((w.data.map Prod.fst).dedup).filter
        (fun k => decide (sessionPrefix.data <+: k.data))).filter
          (fun key => !includes key ":history")).filterMap (recordAt w) ↔
      includes (sessionKey s.id) ":history" = false ∧ recordAt w (sessionKey s.id) = some s := by
    intro s
    simp only [List.mem_filterMap, List.mem_filter, decide_eq_true_eq, Bool.not_eq_true']
    constructor
    · rintro ⟨key, ⟨_, hinc⟩, hrec⟩
      have := recordAt_wellFormed w hwf key s hrec
      subst this
      exact ⟨hinc, hrec⟩
    · rintro ⟨hinc, hrec⟩
      exact ⟨sessionKey s.id, ⟨⟨recordAt_mem_keys w _ s hrec, sessionPrefix_sessionKey _⟩, hinc⟩,
        hrec⟩
  rw [hrun]
  refine ⟨?_, ?_, mem_sweptKeys ttl now w hwf, ?_⟩
  · simp only [Nat.zero_add]
    unfold sweptKeys
    rw [length_filter_filterMap, List.filter_filter]
    congr 1
    apply List.filter_congr
    intro x _
    exact Bool.and_comm _ _
  · unfold sweptKeys
    exact ((List.nodup_dedup _).filter _).filter _
  · intro sessionId s hinc hrec
    have hid : sessionId = s.id := sessionKey_inj (recordAt_wellFormed w hwf _ s hrec)
    simp only
    constructor
    · intro hexp
      have hs : s ∈ ((((w.data.map Prod.fst).dedup).filter
          (fun k => decide (sessionPrefix.data <+: k.data))).filter
            (fun key => !includes key ":history")).filterMap (recordAt w) := by
        rw [hmem, ← hid]; exact ⟨hinc, hrec⟩
      exact ⟨hcl _ ⟨s, hs, hexp, Or.inl (by rw [hid])⟩, hcl _ ⟨s, hs, hexp, Or.inr (by rw [hid])⟩⟩
    · intro hexp
      have e1 : lookupKey (sessionKey sessionId) w2.data
          = lookupKey (sessionKey sessionId) w1.data := by
        apply hncl
        rintro ⟨s2, hs2, hexp2, hkey⟩
        rw [hmem] at hs2
        rcases hkey with hkey | hkey
        · have e := sessionKey_inj hkey
          rw [← e, hrec] at hs2
          have := Option.some.inj hs2.2
          rw [this] at hexp
          rw [hexp] at hexp2
          exact Bool.false_ne_true hexp2
        · rw [hkey, includes_historyKey] at hinc
          exact Bool.noConfusion hinc
      have e2 : lookupKey (historyKey sessionId) w2.data
          = lookupKey (historyKey sessionId) w1.data := by
        apply hncl
        rintro ⟨s2, hs2, hexp2, hkey⟩
        rw [hmem] at hs2
        rcases hkey with hkey | hkey
        · rw [← hkey, includes_historyKey] at hs2
          exact Bool.noConfusion hs2.1
        · have e := historyKey_inj hkey
          rw [← e, hrec] at hs2
          have := Option.some.inj hs2.2
          rw [this] at hexp
          rw [hexp] at hexp2
          exact Bool.false_ne_true hexp2
      rw [e1, e2, hd1]
      exact ⟨rfl, rfl⟩

theorem wellFormed_of_forall (w : SessionStore) (h : ∀ p ∈ w.data, entryShape p = true) :
    WellFormed w := by
  intro key e hl
  have hm : (key, e) ∈ w.data := by
    generalize w.data = d at hl
    induction d with
    | nil => simp [lookupKey] at hl
    | cons p rest ih =>
      obtain ⟨k, e2⟩ := p
      by_cases hk : k = key
      · simp only [lookupKey, hk, if_true, Option.some.injEq] at hl
        simp [hk, hl]
      · simp only [lookupKey, hk, if_false] at hl
        exact List.mem_cons_of_mem _ (ih hl)
  have := h (key, e) hm
  unfold entryShape at this
  obtain ⟨v, t⟩ := e
  cases v with
  | str s => simpa using this
  | list items => simpa using this

theorem sampleSessions_wellFormed : WellFormed sampleSessions := by
  apply wellFormed_of_forall
  decide

/-- Witness for C10: of the sessions `old` and `new`, the sweep at time `4000000`
with a time to live of `3600` seconds removes `old`. -/
theorem cleanupExpiredSessions_spec_witness :
    sampleSessions.faults = [] ∧ WellFormed sampleSessions ∧
    (cleanupExpiredSessions 3600 4000000 sampleSessions).1
      = (sweptKeys 3600 4000000 sampleSessions).length ∧
    (lookupKey (sessionKey "old") (cleanupExpiredSessions 3600 4000000 sampleSessions).2.data
        = none ∧
      lookupKey (historyKey "old") (cleanupExpiredSessions 3600 4000000 sampleSessions).2.data
        = none) ∧
    (lookupKey (sessionKey "new") (cleanupExpiredSessions 3600 4000000 sampleSessions).2.data
        = lookupKey (sessionKey "new") sampleSessions.data ∧
      lookupKey (historyKey "new") (cleanupExpiredSessions 3600 4000000 sampleSessions).2.data
        = lookupKey (historyKey "new") sampleSessions.data) :=
  ⟨rfl, sampleSessions_wellFormed,
    (cleanupExpiredSessions_spec 3600 4000000 sampleSessions rfl sampleSessions_wellFormed).1,
    ((cleanupExpiredSessions_spec 3600 4000000 sampleSessions rfl
      sampleSessions_wellFormed).2.2.2 "old" ⟨"old", 0, 0, 1⟩ (by decide) rfl).1 (by decide),
    ((cleanupExpiredSessions_spec 3600 4000000 sampleSessions rfl
      sampleSessions_wellFormed).2.2.2 "new" ⟨"new", 3999000, 3999000, 1⟩ (by decide) rfl).2
        (by decide)⟩

/-- Counterexample for C10.  The session `history1`, created at time `0`, is far
older than the time to live at time `10000000000`, yet the sweep returns `0` and
its record stays: its key `session:history1` contains `:history` and is skipped.
And with the session `a` created at time `0` and the session `a:history` created
at time `4000000`, the sweep at time `4000000` removes `a` and with it the record
of `a:history`, which is not expired. -/
theorem cleanupExpiredSessions_counterexample :
    (expired 3600 10000000000 ⟨"history1", 0, 0, 0⟩ = true ∧
      (cleanupExpiredSessions 3600 10000000000
        (createSession 3600 0 "history1" ⟨[], []⟩).2).1 = 0 ∧
      lookupKey (sessionKey "history1")
        (cleanupExpiredSessions 3600 10000000000
          (createSession 3600 0 "history1" ⟨[], []⟩).2).2.data
        = some ⟨.str ⟨"history1", 0, 0, 0⟩, some 3600⟩) ∧
    (expired 3600 4000000 ⟨"a:history", 4000000, 4000000, 0⟩ = false ∧
      (getSession "a:history"
        (createSession 3600 4000000 "a:history"
          (createSession 3600 0 "a" ⟨[], []⟩).2).2).1
        = some ⟨"a:history", 4000000, 4000000, 0⟩ ∧
      (cleanupExpiredSessions 3600 4000000
        (createSession 3600 4000000 "a:history"
          (createSession 3600 0 "a" ⟨[], []⟩).2).2).1 = 1 ∧
      (getSession "a:history"
        (cleanupExpiredSessions 3600 4000000
          (createSession 3600 4000000 "a:history"
            (createSession 3600 0 "a" ⟨[], []⟩).2).2).2).1 = none) := by
  refine ⟨⟨by decide, by decide, by decide⟩, by decide, by decide, by decide, by decide⟩

/-! ## The shape of the keyspace is kept by every operation of the service -/

theorem wellFormed_congr (w w1 : SessionStore) (h : w1.data = w.data) (hw : WellFormed w) :
    WellFormed w1 := by
  intro key e hl
  rw [h] at hl
  exact hw key e hl

theorem wellFormed_put (w w1 : SessionStore) (key : String) (e : RedisEntry Session HistoryItem)
    (h : w1.data = putKey key e w.data) (hw : WellFormed w) (he : entryShape (key, e) = true) :
    WellFormed w1 := by
  intro k e2 hl
  rw [h] at hl
  by_cases hk : k = key
  · subst hk
    rw [lookupKey_putKey_self] at hl
    have := Option.some.inj hl
    subst this
    unfold entryShape at he
    obtain ⟨v, t⟩ := e
    cases v with
    | str s => simpa using he
    | list items => simpa using he
  · rw [lookupKey_putKey_ne hk] at hl
    exact hw k e2 hl

theorem wellFormed_erase (w w1 : SessionStore) (key : String)
    (h : w1.data = eraseKey key w.data) (hw : WellFormed w) : WellFormed w1 := by
  intro k e2 hl
  rw [h] at hl
  by_cases hk : k = key
  · subst hk
    rw [lookupKey_eraseKey_self] at hl
    exact absurd hl (by simp)
  · rw [lookupKey_eraseKey_ne hk] at hl
    exact hw k e2 hl

theorem wellFormed_empty (faults : List Bool) : WellFormed (⟨[], faults⟩ : SessionStore) := by
  intro key e hl
  simp [lookupKey] at hl

theorem setEx_wellFormed (sessionId : String) (ttl : Nat) (s : Session) (w : SessionStore)
    (hs : s.id = sessionId) (hw : WellFormed w) :
    WellFormed (Redis.setEx (sessionKey sessionId) ttl s w).2 := by
  unfold Redis.setEx
  split
  · exact wellFormed_congr w _ rfl hw
  · exact wellFormed_put w _ _ _ rfl hw (by simp [entryShape, hs])

theorem createSession_wellFormed (ttl now : Nat) (sessionId : String) (w : SessionStore)
    (hw : WellFormed w) : WellFormed (createSession ttl now sessionId w).2 := by
  have := setEx_wellFormed sessionId ttl
    ({ id := sessionId, createdAt := now, lastActivity := now, messageCount := 0 } : Session)
    w rfl hw
  unfold createSession
  simp only
  split <;> rename_i heq <;> rw [heq] at this <;> exact this

theorem getSession_wellFormed (sessionId : String) (w : SessionStore) (hw : WellFormed w) :
    WellFormed (getSession sessionId w).2 ∧
    ∀ s, (getSession sessionId w).1 = some s → s.id = sessionId := by
  refine ⟨wellFormed_congr w _ (getSession_data sessionId w) hw, ?_⟩
  intro s hs
  unfold getSession Redis.get at hs
  by_cases hf : w.faulted = true
  · simp [hf] at hs
  · have hf2 : w.faulted = false := by simpa using hf
    simp only [hf2, Bool.false_eq_true, if_false] at hs
    cases hl : lookupKey (sessionKey sessionId) w.data with
    | none => simp [hl] at hs
    | some e =>
      obtain ⟨v, t⟩ := e
      cases v with
      | list items => simp [hl] at hs
      | str s2 =>
        simp only [hl, Option.some.injEq] at hs
        subst hs
        exact (sessionKey_inj (hw _ _ hl)).symm

theorem updateSessionActivity_wellFormed (ttl now : Nat) (sessionId : String)
    (w : SessionStore) (hw : WellFormed w) :
    WellFormed (updateSessionActivity ttl now sessionId w).2 := by
  obtain ⟨hg, hid⟩ := getSession_wellFormed sessionId w hw
  unfold updateSessionActivity
  rcases hgs : getSession sessionId w with ⟨r, w1⟩
  rw [hgs] at hg hid
  simp only at hg hid ⊢
  cases r with
  | none => exact createSession_wellFormed ttl now sessionId w1 hg
  | some session =>
    have := setEx_wellFormed sessionId ttl
      ({ session with lastActivity := now, messageCount := session.messageCount + 1 } : Session)
      w1 (hid session rfl) hg
    simp only
    split <;> rename_i heq <;> rw [heq] at this <;> exact this

theorem lPush_wellFormed (sessionId : String) (x : HistoryItem) (w : SessionStore)
    (hw : WellFormed w) : WellFormed (Redis.lPush (historyKey sessionId) x w).2 := by
  have hi := includes_historyKey sessionId
  unfold Redis.lPush
  split
  · exact wellFormed_congr w _ rfl hw
  · split
    · exact wellFormed_put w _ _ _ rfl hw (by simp [entryShape, hi])
    · exact wellFormed_put w _ _ _ rfl hw (by simp [entryShape, hi])
    · exact wellFormed_congr w _ rfl hw

theorem lTrim_wellFormed (sessionId : String) (start stop : Int) (w : SessionStore)
    (hw : WellFormed w) : WellFormed (Redis.lTrim (historyKey sessionId) start stop w).2 := by
  have hi := includes_historyKey sessionId
  unfold Redis.lTrim
  split
  · exact wellFormed_congr w _ rfl hw
  · split
    · exact wellFormed_congr w _ rfl hw
    · split
      · exact wellFormed_erase w _ _ rfl hw
      · exact wellFormed_put w _ _ _ rfl hw (by simp [entryShape, hi])
    · exact wellFormed_congr w _ rfl hw

theorem expire_wellFormed (key : String) (seconds : Nat) (w : SessionStore)
    (hw : WellFormed w) : WellFormed (Redis.expire key seconds w).2 := by
  unfold Redis.expire
  split
  · exact wellFormed_congr w _ rfl hw
  · split
    · exact wellFormed_congr w _ rfl hw
    · rename_i e hl
      apply wellFormed_put w _ _ _ rfl hw
      have := hw key e hl
      unfold entryShape
      obtain ⟨v, t⟩ := e
      cases v with
      | str s => simpa using this
      | list items => simpa using this

theorem del_wellFormed (key : String) (w : SessionStore) (hw : WellFormed w) :
    WellFormed (Redis.del key w).2 := by
  unfold Redis.del
  split
  · exact wellFormed_congr w _ rfl hw
  · split
    · exact wellFormed_congr w _ rfl hw
    · exact wellFormed_erase w _ _ rfl hw

theorem addToHistory_wellFormed (ttl now : Nat) (sessionId : String) (m : MessageData)
    (w : SessionStore) (hw : WellFormed w) :
    WellFormed (addToHistory ttl now sessionId m w).2 := by
  have h1 := lPush_wellFormed sessionId ({ m with id := toString now } : HistoryItem) w hw
  unfold addToHistory
  simp only
  rcases e1 : Redis.lPush (historyKey sessionId) ({ m with id := toString now } : HistoryItem) w
    with ⟨r1, w1⟩
  rw [e1] at h1
  simp only at h1 ⊢
  cases r1 with
  | error e => exact h1
  | ok n =>
    simp only
    have h2 := lTrim_wellFormed sessionId 0 49 w1 h1
    rcases e2 : Redis.lTrim (historyKey sessionId) 0 49 w1 with ⟨r2, w2⟩
    rw [e2] at h2
    simp only at h2 ⊢
    cases r2 with
    | error e => exact h2
    | ok u =>
      simp only
      have h3 := expire_wellFormed (historyKey sessionId) ttl w2 h2
      rcases e3 : Redis.expire (historyKey sessionId) ttl w2 with ⟨r3, w3⟩
      rw [e3] at h3
      simp only at h3 ⊢
      cases r3 with
      | error e => exact h3
      | ok b =>
        simp only
        have h4 := updateSessionActivity_wellFormed ttl now sessionId w3 h3
        rcases e4 : updateSessionActivity ttl now sessionId w3 with ⟨r4, w4⟩
        rw [e4] at h4
        simp only at h4 ⊢
        cases r4 <;> exact h4

theorem clearSession_wellFormed (sessionId : String) (w : SessionStore) (hw : WellFormed w) :
    WellFormed (clearSession sessionId w).2 := by
  rw [clearSession_data]
  exact del_wellFormed _ _ (del_wellFormed _ _ hw)
/-! ## Sums of sines of tenths

The terms the fallback embedding adds are `sin (u / 10) / 10` for code units `u`.
This section shows that a sum of such sines over code units that are not all `0`
is not `0`: the square of the sum is a combination of `1`, `cos (1 / 10)`,
`cos (2 / 10)`, ... with integer coefficients and a positive constant term, and
such a combination does not vanish (Hermite's argument with the polynomial
`x ^ n * P ^ (n + 1)`, where `P` has the roots `± k i / 10`). -/

section Sine

open Polynomial

theorem hermite_deriv (p : ℂ[X]) (s : ℂ) (t : ℝ) :
    HasDerivAt (fun t : ℝ => Complex.exp (s * (1 - (t : ℂ))) * (sumIDeriv p).eval ((t : ℂ) * s))
      (-(s * Complex.exp (s * (1 - (t : ℂ))) * p.eval ((t : ℂ) * s))) t := by
  have h1 : HasDerivAt (fun t : ℝ => (t : ℂ)) 1 t := (hasDerivAt_id t).ofReal_comp
  have h2 : HasDerivAt (fun t : ℝ => s * (1 - (t : ℂ))) (s * (0 - 1)) t :=
    ((hasDerivAt_const t (1 : ℂ)).sub h1).const_mul s
  have h3 : HasDerivAt (fun t : ℝ => Complex.exp (s * (1 - (t : ℂ))))
      (Complex.exp (s * (1 - (t : ℂ))) * (s * (0 - 1))) t := h2.cexp
  have h4 : HasDerivAt (fun t : ℝ => (t : ℂ) * s) (1 * s) t := h1.mul_const s
  have h5 : HasDerivAt (fun t : ℝ => (sumIDeriv p).eval ((t : ℂ) * s))
      ((derivative (sumIDeriv p)).eval ((t : ℂ) * s) * (1 * s)) t :=
    HasDerivAt.comp t ((sumIDeriv p).hasDerivAt ((t : ℂ) * s)) h4
  have h6 := h3.mul h5
  have hp : (sumIDeriv p).eval ((t : ℂ) * s)
      = p.eval ((t : ℂ) * s) + (derivative (sumIDeriv p)).eval ((t : ℂ) * s) := by
    conv_lhs => rw [sumIDeriv_eq_self_add, sumIDeriv_derivative]
    rw [eval_add]
  convert h6 using 1
  rw [hp]
  ring

theorem hermite_bound (p : ℂ[X]) (s : ℂ) (M : ℝ)
    (hM : ∀ t ∈ Set.Ico (0 : ℝ) 1, ‖p.eval ((t : ℂ) * s)‖ ≤ M) :
    ‖(sumIDeriv p).eval s - Complex.exp s * (sumIDeriv p).eval 0‖
      ≤ ‖s‖ * Real.exp ‖s‖ * M := by
  have hM0 : 0 ≤ M := le_trans (norm_nonneg _) (hM 0 ⟨le_refl _, one_pos⟩)
  have hd : ∀ t ∈ Set.Icc (0 : ℝ) 1, HasDerivWithinAt
      (fun t : ℝ => Complex.exp (s * (1 - (t : ℂ))) * (sumIDeriv p).eval ((t : ℂ) * s))
      ((fun t : ℝ => -(s * Complex.exp (s * (1 - (t : ℂ))) * p.eval ((t : ℂ) * s))) t)
      (Set.Icc (0 : ℝ) 1) t :=
    fun t _ => (hermite_deriv p s t).hasDerivWithinAt
  have h := norm_image_sub_le_of_norm_deriv_le_segment_01' hd
    (by
      show ∀ t ∈ Set.Ico (0 : ℝ) 1,
        ‖-(s * Complex.exp (s * (1 - (t : ℂ))) * p.eval ((t : ℂ) * s))‖
          ≤ ‖s‖ * Real.exp ‖s‖ * M
      intro t ht
      rw [norm_neg, norm_mul, norm_mul]
      have he : ‖Complex.exp (s * (1 - (t : ℂ)))‖ ≤ Real.exp ‖s‖ := by
        rw [Complex.norm_eq_abs, Complex.abs_exp]
        refine Real.exp_le_exp.mpr (le_trans (Complex.re_le_abs _) ?_)
        rw [← Complex.norm_eq_abs, norm_mul]
        have : ‖(1 : ℂ) - (t : ℂ)‖ ≤ 1 := by
          rw [← Complex.ofReal_one, ← Complex.ofReal_sub, Complex.norm_real, Real.norm_eq_abs,
            abs_le]
          constructor <;> linarith [ht.1, ht.2]
        calc ‖s‖ * ‖(1 : ℂ) - (t : ℂ)‖ ≤ ‖s‖ * 1 :=
              mul_le_mul_of_nonneg_left this (norm_nonneg _)
          _ = ‖s‖ := mul_one _
      have := hM t ht
      gcongr)
  simpa using h

theorem I_pow_add_neg (j : ℕ) :
    ∃ u : ℤ, (Complex.I ^ j + (-Complex.I) ^ j : ℂ) = (u : ℂ) := by
  rcases Nat.even_or_odd' j with ⟨l, rfl | rfl⟩
  · refine ⟨2 * (-1) ^ l, ?_⟩
    rw [pow_mul, pow_mul, neg_sq, Complex.I_sq]
    push_cast
    ring
  · refine ⟨0, ?_⟩
    rw [pow_succ, pow_succ, pow_mul, pow_mul, neg_sq, Complex.I_sq]
    push_cast
    ring

theorem eval_pair_integral (g : ℤ[X]) (M m : ℕ) (hg : g.natDegree ≤ M) :
    ∃ z : ℤ, (10 : ℂ) ^ M * (aeval ((m : ℂ) / 10 * Complex.I) g
      + aeval (-((m : ℂ) / 10 * Complex.I)) g) = (z : ℂ) := by
  have hmem : ∀ j ∈ Finset.range (M + 1), ∃ z : ℤ,
      (10 : ℂ) ^ M * (((m : ℂ) / 10 * Complex.I) ^ j + (-((m : ℂ) / 10 * Complex.I)) ^ j)
        = (z : ℂ) := by
    intro j hj
    obtain ⟨u, hu⟩ := I_pow_add_neg j
    have hjM : j ≤ M := Nat.lt_succ_iff.mp (Finset.mem_range.mp hj)
    refine ⟨10 ^ (M - j) * (m : ℤ) ^ j * u, ?_⟩
    push_cast
    rw [← hu]
    have h10 : (10 : ℂ) ^ M = 10 ^ (M - j) * 10 ^ j := by
      rw [← pow_add, Nat.sub_add_cancel hjM]
    have hneg : -((m : ℂ) / 10 * Complex.I) = (m : ℂ) / 10 * (-Complex.I) := by ring
    rw [h10, hneg, mul_pow, mul_pow, div_pow]
    have h10j : (10 : ℂ) ^ j ≠ 0 := pow_ne_zero _ (by norm_num)
    field_simp
    ring
  choose! z hz using hmem
  refine ⟨∑ j in Finset.range (M + 1), g.coeff j * z j, ?_⟩
  rw [aeval_eq_sum_range' (Nat.lt_succ_of_le hg), aeval_eq_sum_range' (Nat.lt_succ_of_le hg),
    ← Finset.sum_add_distrib, Finset.mul_sum]
  push_cast
  refine Finset.sum_congr rfl (fun j hj => ?_)
  rw [← hz j hj]
  simp only [zsmul_eq_mul]
  ring

theorem pairPoly_root (K k : ℕ) (hk : k < K) (σ : ℂ) (hσ : σ = 1 ∨ σ = -1) :
    ((∏ k in Finset.range K, (C 100 * X ^ 2 + C (((k : ℤ) + 1) ^ 2)) : ℤ[X]).map
      (algebraMap ℤ ℂ)).IsRoot (σ * (((k + 1 : ℕ) : ℂ) / 10 * Complex.I)) := by
  rw [IsRoot.def, Polynomial.map_prod, eval_prod]
  refine Finset.prod_eq_zero (Finset.mem_range.mpr hk) ?_
  have hσ2 : σ ^ 2 = 1 := by rcases hσ with h | h <;> rw [h] <;> norm_num
  simp only [Polynomial.map_add, Polynomial.map_mul, Polynomial.map_pow, map_C, map_X, eval_add,
    eval_mul, eval_pow, eval_C, eval_X, mul_pow, hσ2, Complex.I_sq, div_pow]
  push_cast
  simp
  ring

theorem pairPoly_eval_zero (K : ℕ) :
    (∏ k in Finset.range K, (C 100 * X ^ 2 + C (((k : ℤ) + 1) ^ 2)) : ℤ[X]).eval 0 ≠ 0 := by
  rw [eval_prod]
  refine Finset.prod_ne_zero_iff.mpr (fun k _ => ?_)
  simp only [eval_add, eval_mul, eval_C, eval_pow, eval_X]
  positivity

theorem pairPoly_natDegree (K : ℕ) :
    (∏ k in Finset.range K, (C 100 * X ^ 2 + C (((k : ℤ) + 1) ^ 2)) : ℤ[X]).natDegree
      ≤ 2 * K := by
  refine le_trans (natDegree_prod_le _ _) ?_
  calc ∑ k in Finset.range K, (C 100 * X ^ 2 + C (((k : ℤ) + 1) ^ 2) : ℤ[X]).natDegree
      ≤ ∑ _k in Finset.range K, 2 := Finset.sum_le_sum (fun k _ => by compute_degree)
    _ = 2 * K := by simp [mul_comm]

theorem sumIDeriv_root (f : ℤ[X]) (n : ℕ) (P : ℤ[X]) (hf : f = X ^ n * P ^ (n + 1)) :
    ∃ gp : ℤ[X], gp.natDegree ≤ f.natDegree ∧
      ∀ r : ℂ, (P.map (algebraMap ℤ ℂ)).IsRoot r →
        aeval r (sumIDeriv f) = ((n + 1).factorial : ℂ) * aeval r gp := by
  obtain ⟨gp, hdeg, h⟩ := aeval_sumIDeriv ℂ f (n + 1)
  refine ⟨gp, le_trans hdeg (Nat.sub_le _ _), fun r hr => ?_⟩
  obtain ⟨c, hc⟩ := dvd_iff_isRoot.mpr hr
  have hmap : f.map (algebraMap ℤ ℂ) = (X - C r) ^ (n + 1) * (X ^ n * c ^ (n + 1)) := by
    rw [hf, Polynomial.map_mul, Polynomial.map_pow, Polynomial.map_pow, map_X, hc, mul_pow]
    ring
  rw [h r hmap, nsmul_eq_mul]

theorem sumIDeriv_zero (f : ℤ[X]) (n : ℕ) (P : ℤ[X]) (hf : f = X ^ n * P ^ (n + 1)) :
    ∃ z : ℤ, aeval (0 : ℂ) (sumIDeriv f)
      = (n.factorial : ℂ) * ((P.eval 0 : ℤ) : ℂ) ^ (n + 1) + ((n + 1).factorial : ℂ) * (z : ℂ) := by
  obtain ⟨gp, -, h⟩ := aeval_sumIDeriv_of_pos ℂ f (Nat.succ_pos n)
    (algebraMap ℤ ℂ).injective_int
  refine ⟨gp.eval 0, ?_⟩
  have hmap : f.map (algebraMap ℤ ℂ)
      = (X - C (0 : ℂ)) ^ (n + 1 - 1) * (P.map (algebraMap ℤ ℂ)) ^ (n + 1) := by
    rw [hf, Polynomial.map_mul, Polynomial.map_pow, Polynomial.map_pow, map_X, C_0, sub_zero,
      Nat.add_sub_cancel]
  rw [h 0 hmap, nsmul_eq_mul, nsmul_eq_mul, Nat.succ_sub_one, eval_pow, eval_map,
    aeval_def, eval₂_at_zero, eval₂_at_zero]
  simp [coeff_zero_eq_eval_zero]

theorem hermite_bound_int (f : ℤ[X]) (s : ℂ) (M : ℝ)
    (hM : ∀ t ∈ Set.Ico (0 : ℝ) 1, ‖aeval ((t : ℂ) * s) f‖ ≤ M) :
    ‖aeval s (sumIDeriv f) - Complex.exp s * aeval (0 : ℂ) (sumIDeriv f)‖
      ≤ ‖s‖ * Real.exp ‖s‖ * M := by
  have h := hermite_bound (f.map (algebraMap ℤ ℂ)) s M (by
    intro t ht
    rw [eval_map, ← aeval_def]
    exact hM t ht)
  rw [sumIDeriv_map, eval_map, eval_map, ← aeval_def, ← aeval_def] at h
  exact h

theorem pairPoly_aeval_bound (P : ℤ[X]) (n : ℕ) (R B : ℝ) (hR : 1 ≤ R)
    (hB : ∀ z : ℂ, ‖z‖ ≤ R → ‖aeval z P‖ ≤ B) (z : ℂ) (hz : ‖z‖ ≤ R) :
    ‖aeval z (X ^ n * P ^ (n + 1) : ℤ[X])‖ ≤ (R * B) ^ (n + 1) := by
  have hB0 : 0 ≤ B := le_trans (norm_nonneg _) (hB z hz)
  have hR0 : 0 ≤ R := le_trans zero_le_one hR
  rw [map_mul, map_pow, map_pow, aeval_X, norm_mul, norm_pow, norm_pow, mul_pow]
  have h1 : ‖z‖ ^ n ≤ R ^ (n + 1) :=
    calc ‖z‖ ^ n ≤ R ^ n := pow_le_pow_left₀ (norm_nonneg _) hz n
      _ ≤ R ^ (n + 1) := pow_le_pow_right₀ hR (Nat.le_succ n)
  have h2 : ‖aeval z P‖ ^ (n + 1) ≤ B ^ (n + 1) := pow_le_pow_left₀ (norm_nonneg _) (hB z hz) _
  exact mul_le_mul h1 h2 (pow_nonneg (norm_nonneg _) _) (pow_nonneg hR0 _)

theorem factorial_le_norm (n M K : ℕ) (hq : (n + 1).Prime) (h10 : 10 < n + 1)
    (b0 P0 z0 : ℤ) (hb0 : b0 ≠ 0) (hb0q : b0.natAbs < n + 1)
    (hP0 : P0 ≠ 0) (hP0q : P0.natAbs < n + 1)
    (F0 : ℂ) (hF0 : F0 = (n.factorial : ℂ) * (P0 : ℂ) ^ (n + 1) + ((n + 1).factorial : ℂ) * z0)
    (b z : ℕ → ℤ) (G : ℕ → ℂ)
    (hG : ∀ k ∈ Finset.range K, (10 : ℂ) ^ M * G k = ((n + 1).factorial : ℂ) * z k) :
    (n.factorial : ℝ)
      ≤ 10 ^ M * ‖2 * (b0 : ℂ) * F0 + ∑ k in Finset.range K, (b k : ℂ) * G k‖ := by
  have hqi : Prime ((n + 1 : ℕ) : ℤ) := Nat.prime_iff_prime_int.mp hq
  have hsmall : ∀ a : ℤ, a ≠ 0 → a.natAbs < n + 1 → ¬ ((n + 1 : ℕ) : ℤ) ∣ a := by
    intro a ha hlt hdvd
    have h1 : (n + 1) ∣ a.natAbs := Int.natCast_dvd.mp hdvd
    have h2 := Nat.le_of_dvd (Int.natAbs_pos.mpr ha) h1
    omega
  set N : ℤ := 10 ^ M * 2 * b0 * P0 ^ (n + 1)
    + ((n + 1 : ℕ) : ℤ) * (10 ^ M * 2 * b0 * z0 + ∑ k in Finset.range K, b k * z k) with hN
  have hNq : ¬ ((n + 1 : ℕ) : ℤ) ∣ N := by
    intro hdvd
    have h1 : ((n + 1 : ℕ) : ℤ) ∣ 10 ^ M * 2 * b0 * P0 ^ (n + 1) :=
      (dvd_add_left (dvd_mul_right _ _)).mp hdvd
    rcases hqi.dvd_or_dvd h1 with h2 | h2
    · rcases hqi.dvd_or_dvd h2 with h3 | h3
      · rcases hqi.dvd_or_dvd h3 with h4 | h4
        · exact hsmall 10 (by norm_num) (by simpa using h10) (hqi.dvd_of_dvd_pow h4)
        · exact hsmall 2 (by norm_num) (by
            have : (2 : ℤ).natAbs = 2 := rfl
            omega) h4
      · exact hsmall b0 hb0 hb0q h3
    · exact hsmall P0 hP0 hP0q (hqi.dvd_of_dvd_pow h2)
  have hN0 : N ≠ 0 := fun h => hNq (h ▸ dvd_zero _)
  have hkey : (10 : ℂ) ^ M * (2 * (b0 : ℂ) * F0 + ∑ k in Finset.range K, (b k : ℂ) * G k)
      = (n.factorial : ℂ) * (N : ℂ) := by
    have hsum : (10 : ℂ) ^ M * ∑ k in Finset.range K, (b k : ℂ) * G k
        = ((n + 1).factorial : ℂ) * ∑ k in Finset.range K, (b k : ℂ) * (z k : ℂ) := by
      rw [Finset.mul_sum, Finset.mul_sum]
      refine Finset.sum_congr rfl (fun k hk => ?_)
      rw [mul_left_comm, hG k hk]
      ring
    rw [mul_add, hsum, hF0, hN, Nat.factorial_succ]
    push_cast
    ring
  have hnorm := congrArg norm hkey
  rw [norm_mul, norm_mul, norm_pow, Complex.norm_natCast] at hnorm
  have h10n : ‖(10 : ℂ)‖ = 10 := by
    rw [show (10 : ℂ) = ((10 : ℕ) : ℂ) by norm_num, Complex.norm_natCast]
    norm_num
  rw [h10n] at hnorm
  rw [hnorm]
  have hN1 : (1 : ℝ) ≤ ‖(N : ℂ)‖ := by
    rw [Complex.norm_intCast]
    have : (1 : ℤ) ≤ |N| := Int.one_le_abs hN0
    exact_mod_cast this
  calc (n.factorial : ℝ) = n.factorial * 1 := (mul_one _).symm
    _ ≤ n.factorial * ‖(N : ℂ)‖ := mul_le_mul_of_nonneg_left hN1 (Nat.cast_nonneg _)

theorem relation_times (b0 F0 : ℂ) (bb e1 e2 F1 F2 : ℕ → ℂ) (K : ℕ)
    (hrel : 2 * b0 + ∑ k in Finset.range K, bb k * (e1 k + e2 k) = 0) :
    2 * b0 * F0 + ∑ k in Finset.range K, bb k * (F1 k + F2 k)
      = ∑ k in Finset.range K, bb k * ((F1 k - e1 k * F0) + (F2 k - e2 k * F0)) := by
  have h0 : (2 * b0 + ∑ k in Finset.range K, bb k * (e1 k + e2 k)) * F0 = 0 := by
    rw [hrel, zero_mul]
  rw [add_mul, Finset.sum_mul] at h0
  have h1 : 2 * b0 * F0 = -∑ k in Finset.range K, bb k * (e1 k + e2 k) * F0 :=
    eq_neg_of_add_eq_zero_left h0
  rw [h1, neg_add_eq_sub, ← Finset.sum_sub_distrib]
  refine Finset.sum_congr rfl (fun k _ => ?_)
  ring

theorem factorial_le_of_exp_relation (K : ℕ) (b : ℕ → ℤ) (hb : b 0 ≠ 0)
    (hrel : 2 * (b 0 : ℂ) + ∑ k in Finset.range K, (b (k + 1) : ℂ) *
        (Complex.exp (((k + 1 : ℕ) : ℂ) / 10 * Complex.I)
          + Complex.exp (-(((k + 1 : ℕ) : ℂ) / 10 * Complex.I))) = 0) :
    ∃ (c A : ℝ) (Q : ℕ), ∀ n : ℕ, (n + 1).Prime → Q < n + 1 →
      (n.factorial : ℝ) ≤ c * A ^ (n + 1) := by
  obtain ⟨B, hB⟩ := (isCompact_closedBall (0 : ℂ) ((K : ℝ) + 1)).exists_bound_of_continuousOn
    ((∏ k in Finset.range K, (C 100 * X ^ 2 + C (((k : ℤ) + 1) ^ 2)) : ℤ[X]).map
      (algebraMap ℤ ℂ)).continuous.continuousOn
  refine ⟨(∑ k in Finset.range K, ‖(b (k + 1) : ℂ)‖) *
      (2 * (((K : ℝ) + 1) * Real.exp ((K : ℝ) + 1))),
    10 ^ (2 * K + 1) * (((K : ℝ) + 1) * B),
    10 + (b 0).natAbs +
      ((∏ k in Finset.range K, (C 100 * X ^ 2 + C (((k : ℤ) + 1) ^ 2)) : ℤ[X]).eval 0).natAbs,
    ?_⟩
  intro n hq hQ
  generalize hP : (∏ k in Finset.range K, (C 100 * X ^ 2 + C (((k : ℤ) + 1) ^ 2)) : ℤ[X]) = P
    at hB hQ
  have hroot : ∀ k < K, ∀ σ : ℂ, σ = 1 ∨ σ = -1 →
      (P.map (algebraMap ℤ ℂ)).IsRoot (σ * (((k + 1 : ℕ) : ℂ) / 10 * Complex.I)) := by
    intro k hk σ hσ
    rw [← hP]
    exact pairPoly_root K k hk σ hσ
  have hP0 : P.eval 0 ≠ 0 := hP ▸ pairPoly_eval_zero K
  have hPdeg : P.natDegree ≤ 2 * K := hP ▸ pairPoly_natDegree K
  have hR1 : (1 : ℝ) ≤ (K : ℝ) + 1 := by
    have : (0 : ℝ) ≤ (K : ℝ) := Nat.cast_nonneg K
    linarith
  have hBz : ∀ z : ℂ, ‖z‖ ≤ (K : ℝ) + 1 → ‖aeval z P‖ ≤ B := by
    intro z hz
    have := hB z (by simpa using hz)
    rwa [eval_map, ← aeval_def] at this
  obtain ⟨gp, hgpdeg, hgp⟩ := sumIDeriv_root (X ^ n * P ^ (n + 1)) n P rfl
  obtain ⟨z0, hz0⟩ := sumIDeriv_zero (X ^ n * P ^ (n + 1)) n P rfl
  have hdeg : gp.natDegree ≤ (n + 1) * (2 * K + 1) := by
    refine le_trans hgpdeg (le_trans natDegree_mul_le ?_)
    have h1 : (X ^ n : ℤ[X]).natDegree ≤ n := natDegree_X_pow_le n
    have h2 : (P ^ (n + 1)).natDegree ≤ (n + 1) * (2 * K) :=
      le_trans natDegree_pow_le (Nat.mul_le_mul_left _ hPdeg)
    nlinarith
  have hint := fun k : ℕ => eval_pair_integral gp ((n + 1) * (2 * K + 1)) (k + 1) hdeg
  choose z hz using hint
  have hnormr : ∀ k < K, ∀ σ : ℂ, σ = 1 ∨ σ = -1 →
      ‖σ * (((k + 1 : ℕ) : ℂ) / 10 * Complex.I)‖ ≤ (K : ℝ) + 1 := by
    intro k hk σ hσ
    have hσ1 : ‖σ‖ = 1 := by rcases hσ with h | h <;> rw [h] <;> simp
    rw [norm_mul, hσ1, one_mul, norm_mul, Complex.norm_I, mul_one, norm_div,
      Complex.norm_natCast]
    have h10 : ‖(10 : ℂ)‖ = 10 := by
      rw [show (10 : ℂ) = ((10 : ℕ) : ℂ) by norm_num, Complex.norm_natCast]
      norm_num
    rw [h10]
    have hk1 : ((k + 1 : ℕ) : ℝ) ≤ (K : ℝ) := by exact_mod_cast hk
    have hk0 : (0 : ℝ) ≤ ((k + 1 : ℕ) : ℝ) := Nat.cast_nonneg _
    linarith
  have hherm : ∀ k < K, ∀ σ : ℂ, σ = 1 ∨ σ = -1 →
      ‖aeval (σ * (((k + 1 : ℕ) : ℂ) / 10 * Complex.I)) (sumIDeriv (X ^ n * P ^ (n + 1)))
        - Complex.exp (σ * (((k + 1 : ℕ) : ℂ) / 10 * Complex.I))
          * aeval (0 : ℂ) (sumIDeriv (X ^ n * P ^ (n + 1)))‖
        ≤ ((K : ℝ) + 1) * Real.exp ((K : ℝ) + 1) * (((K : ℝ) + 1) * B) ^ (n + 1) := by
    intro k hk σ hσ
    have hs := hnormr k hk σ hσ
    refine le_trans (hermite_bound_int _ _ ((((K : ℝ) + 1) * B) ^ (n + 1)) ?_) ?_
    · intro t ht
      refine pairPoly_aeval_bound P n _ B hR1 hBz _ ?_
      rw [norm_mul, Complex.norm_real, Real.norm_eq_abs, abs_of_nonneg ht.1]
      calc t * ‖σ * (((k + 1 : ℕ) : ℂ) / 10 * Complex.I)‖
          ≤ 1 * ((K : ℝ) + 1) := mul_le_mul ht.2.le hs (norm_nonneg _) zero_le_one
        _ = (K : ℝ) + 1 := one_mul _
    · have hB0 : 0 ≤ B := le_trans (norm_nonneg _) (hBz 0 (by simpa using (le_trans zero_le_one hR1)))
      have hpow : 0 ≤ (((K : ℝ) + 1) * B) ^ (n + 1) :=
        pow_nonneg (mul_nonneg (le_trans zero_le_one hR1) hB0) _
      have he : Real.exp ‖σ * (((k + 1 : ℕ) : ℂ) / 10 * Complex.I)‖ ≤ Real.exp ((K : ℝ) + 1) :=
        Real.exp_le_exp.mpr hs
      gcongr
  have hG : ∀ k ∈ Finset.range K, (10 : ℂ) ^ ((n + 1) * (2 * K + 1)) *
      (aeval (((k + 1 : ℕ) : ℂ) / 10 * Complex.I) (sumIDeriv (X ^ n * P ^ (n + 1)))
        + aeval (-(((k + 1 : ℕ) : ℂ) / 10 * Complex.I)) (sumIDeriv (X ^ n * P ^ (n + 1))))
      = ((n + 1).factorial : ℂ) * z k := by
    intro k hk
    have hk2 := Finset.mem_range.mp hk
    have h1 := hgp _ (hroot k hk2 1 (Or.inl rfl))
    have h2 := hgp _ (hroot k hk2 (-1) (Or.inr rfl))
    rw [one_mul] at h1
    rw [neg_one_mul] at h2
    rw [h1, h2, ← hz k]
    ring
  have hfact := factorial_le_norm n ((n + 1) * (2 * K + 1)) K hq (by omega) (b 0) (P.eval 0) z0
    hb (by omega) hP0 (by omega) _ hz0 (fun k => b (k + 1)) z _ hG
  have hrw : 2 * (b 0 : ℂ) * aeval (0 : ℂ) (sumIDeriv (X ^ n * P ^ (n + 1)))
      + ∑ k in Finset.range K, (b (k + 1) : ℂ) *
        (aeval (((k + 1 : ℕ) : ℂ) / 10 * Complex.I) (sumIDeriv (X ^ n * P ^ (n + 1)))
          + aeval (-(((k + 1 : ℕ) : ℂ) / 10 * Complex.I)) (sumIDeriv (X ^ n * P ^ (n + 1))))
      = ∑ k in Finset.range K, (b (k + 1) : ℂ) *
        ((aeval (((k + 1 : ℕ) : ℂ) / 10 * Complex.I) (sumIDeriv (X ^ n * P ^ (n + 1)))
            - Complex.exp (((k + 1 : ℕ) : ℂ) / 10 * Complex.I)
              * aeval (0 : ℂ) (sumIDeriv (X ^ n * P ^ (n + 1))))
          + (aeval (-(((k + 1 : ℕ) : ℂ) / 10 * Complex.I)) (sumIDeriv (X ^ n * P ^ (n + 1)))
            - Complex.exp (-(((k + 1 : ℕ) : ℂ) / 10 * Complex.I))
              * aeval (0 : ℂ) (sumIDeriv (X ^ n * P ^ (n + 1))))) := by
    exact relation_times _ _ _ _ _ _ _ K hrel
  rw [hrw] at hfact
  refine le_trans hfact ?_
  have hbound : ‖∑ k in Finset.range K, (b (k + 1) : ℂ) *
        ((aeval (((k + 1 : ℕ) : ℂ) / 10 * Complex.I) (sumIDeriv (X ^ n * P ^ (n + 1)))
            - Complex.exp (((k + 1 : ℕ) : ℂ) / 10 * Complex.I)
              * aeval (0 : ℂ) (sumIDeriv (X ^ n * P ^ (n + 1))))
          + (aeval (-(((k + 1 : ℕ) : ℂ) / 10 * Complex.I)) (sumIDeriv (X ^ n * P ^ (n + 1)))
            - Complex.exp (-(((k + 1 : ℕ) : ℂ) / 10 * Complex.I))
              * aeval (0 : ℂ) (sumIDeriv (X ^ n * P ^ (n + 1)))))‖
      ≤ ∑ k in Finset.range K, ‖(b (k + 1) : ℂ)‖ *
          (2 * (((K : ℝ) + 1) * Real.exp ((K : ℝ) + 1) * (((K : ℝ) + 1) * B) ^ (n + 1))) := by
    refine le_trans (norm_sum_le _ _) (Finset.sum_le_sum (fun k hk => ?_))
    have hk2 := Finset.mem_range.mp hk
    have h1 := hherm k hk2 1 (Or.inl rfl)
    have h2 := hherm k hk2 (-1) (Or.inr rfl)
    rw [one_mul] at h1
    rw [neg_one_mul] at h2
    rw [norm_mul]
    refine mul_le_mul_of_nonneg_left (le_trans (norm_add_le _ _) ?_) (norm_nonneg _)
    linarith
  refine le_trans (mul_le_mul_of_nonneg_left hbound (by positivity)) ?_
  rw [← Finset.sum_mul]
  apply le_of_eq
  rw [mul_pow (10 ^ (2 * K + 1)), ← pow_mul, Nat.mul_comm (2 * K + 1) (n + 1)]
  generalize (10 : ℝ) ^ ((n + 1) * (2 * K + 1)) = t
  generalize (((K : ℝ) + 1) * B) ^ (n + 1) = u
  ring

theorem exists_prime_factorial_gt (c A : ℝ) (Q : ℕ) :
    ∃ n : ℕ, (n + 1).Prime ∧ Q < n + 1 ∧ c * A ^ (n + 1) < (n.factorial : ℝ) := by
  have hD : (0 : ℝ) < |c| * |A| + 1 := by positivity
  have hlim := FloorSemiring.tendsto_pow_div_factorial_atTop |A|
  have hev := (hlim.eventually (gt_mem_nhds (one_div_pos.mpr hD))).exists_forall_of_atTop
  obtain ⟨n0, hn0⟩ := hev
  obtain ⟨p, hp, hprime⟩ := Nat.exists_infinite_primes (n0 + Q + 1)
  obtain ⟨n, rfl⟩ : ∃ n, p = n + 1 := ⟨p - 1, by omega⟩
  refine ⟨n, hprime, by omega, ?_⟩
  have h1 := hn0 n (by omega)
  have hfac : (0 : ℝ) < (n.factorial : ℝ) := by exact_mod_cast n.factorial_pos
  rw [div_lt_div_iff₀ hfac hD, one_mul] at h1
  calc c * A ^ (n + 1) ≤ |c * A ^ (n + 1)| := le_abs_self _
    _ = |c| * |A| * |A| ^ n := by rw [abs_mul, abs_pow, pow_succ]; ring
    _ ≤ (|c| * |A| + 1) * |A| ^ n := by
        have : 0 ≤ |A| ^ n := by positivity
        nlinarith
    _ = |A| ^ n * (|c| * |A| + 1) := mul_comm _ _
    _ < n.factorial := h1

theorem exp_combination_ne_zero (K : ℕ) (b : ℕ → ℤ) (hb : b 0 ≠ 0) :
    2 * (b 0 : ℂ) + ∑ k in Finset.range K, (b (k + 1) : ℂ) *
        (Complex.exp (((k + 1 : ℕ) : ℂ) / 10 * Complex.I)
          + Complex.exp (-(((k + 1 : ℕ) : ℂ) / 10 * Complex.I))) ≠ 0 := by
  intro hrel
  obtain ⟨c, A, Q, h⟩ := factorial_le_of_exp_relation K b hb hrel
  obtain ⟨n, hp, hQ, hlt⟩ := exists_prime_factorial_gt c A Q
  exact absurd (h n hp hQ) (not_le.mpr hlt)

theorem cos_combination_ne_zero (K : ℕ) (b : ℕ → ℤ) (hb : b 0 ≠ 0) :
    ∑ k in Finset.range (K + 1), (b k : ℝ) * Real.cos ((k : ℝ) / 10) ≠ 0 := by
  intro h
  refine exp_combination_ne_zero K b hb ?_
  have h2 := congrArg (fun x : ℝ => 2 * (x : ℂ)) h
  simp only [Complex.ofReal_zero, mul_zero] at h2
  rw [← h2, Finset.sum_range_succ', Complex.ofReal_add, mul_add, add_comm]
  congr 1
  · push_cast
    rw [Finset.mul_sum]
    refine Finset.sum_congr rfl (fun k _ => ?_)
    rw [Complex.cos, neg_mul]
    ring
  · simp

theorem cosRep_ne_zero (b : ℕ →₀ ℤ) (hb : 0 < b 0) :
    b.sum (fun k a => (a : ℝ) * Real.cos ((k : ℝ) / 10)) ≠ 0 := by
  rw [Finsupp.sum_of_support_subset b (s := Finset.range (b.support.sup id + 1))
    (fun k hk => Finset.mem_range.mpr (Nat.lt_succ_of_le (Finset.le_sup (f := id) hk)))
    _ (fun i _ => by simp)]
  exact cos_combination_ne_zero _ (fun k => b k) (ne_of_gt hb)

theorem cosRep_add (x y : ℝ)
    (hx : ∃ b : ℕ →₀ ℤ, 0 ≤ b 0 ∧ x = b.sum (fun k a => (a : ℝ) * Real.cos ((k : ℝ) / 10)))
    (hy : ∃ b : ℕ →₀ ℤ, 0 ≤ b 0 ∧ y = b.sum (fun k a => (a : ℝ) * Real.cos ((k : ℝ) / 10))) :
    ∃ b : ℕ →₀ ℤ, 0 ≤ b 0 ∧ x + y = b.sum (fun k a => (a : ℝ) * Real.cos ((k : ℝ) / 10)) := by
  obtain ⟨b, hb, rfl⟩ := hx
  obtain ⟨d, hd, rfl⟩ := hy
  refine ⟨b + d, by simpa using add_nonneg hb hd, ?_⟩
  rw [Finsupp.sum_add_index' (fun a => by simp) (fun a b₁ b₂ => by push_cast; ring)]

theorem cosRep_add_pos (x y : ℝ)
    (hx : ∃ b : ℕ →₀ ℤ, 0 < b 0 ∧ x = b.sum (fun k a => (a : ℝ) * Real.cos ((k : ℝ) / 10)))
    (hy : ∃ b : ℕ →₀ ℤ, 0 ≤ b 0 ∧ y = b.sum (fun k a => (a : ℝ) * Real.cos ((k : ℝ) / 10))) :
    ∃ b : ℕ →₀ ℤ, 0 < b 0 ∧ x + y = b.sum (fun k a => (a : ℝ) * Real.cos ((k : ℝ) / 10)) := by
  obtain ⟨b, hb, rfl⟩ := hx
  obtain ⟨d, hd, rfl⟩ := hy
  refine ⟨b + d, by simpa using add_pos_of_pos_of_nonneg hb hd, ?_⟩
  rw [Finsupp.sum_add_index' (fun a => by simp) (fun a b₁ b₂ => by push_cast; ring)]

theorem cosRep_of_pos (x : ℝ)
    (hx : ∃ b : ℕ →₀ ℤ, 0 < b 0 ∧ x = b.sum (fun k a => (a : ℝ) * Real.cos ((k : ℝ) / 10))) :
    ∃ b : ℕ →₀ ℤ, 0 ≤ b 0 ∧ x = b.sum (fun k a => (a : ℝ) * Real.cos ((k : ℝ) / 10)) := by
  obtain ⟨b, hb, h⟩ := hx
  exact ⟨b, le_of_lt hb, h⟩

theorem sin_mul_sin_rep (c d : ℕ) :
    ∃ b : ℕ →₀ ℤ, b 0 = (if c = d then 1 else 0) - (if c + d = 0 then 1 else 0) ∧
      2 * (Real.sin ((c : ℝ) / 10) * Real.sin ((d : ℝ) / 10))
        = b.sum (fun k a => (a : ℝ) * Real.cos ((k : ℝ) / 10)) := by
  refine ⟨Finsupp.single ((c - d) + (d - c)) 1 - Finsupp.single (c + d) 1, ?_, ?_⟩
  · have h1 : (c - d) + (d - c) = 0 ↔ c = d := by omega
    simp only [Finsupp.coe_sub, Pi.sub_apply, Finsupp.single_apply, h1]
  · rw [Finsupp.sum_sub_index (fun a b₁ b₂ => by push_cast; ring),
      Finsupp.sum_single_index (by simp), Finsupp.sum_single_index (by simp)]
    have hcos : Real.cos ((((c - d) + (d - c) : ℕ) : ℝ) / 10)
        = Real.cos ((c : ℝ) / 10 - (d : ℝ) / 10) := by
      rcases le_total c d with h | h
      · rw [Nat.sub_eq_zero_of_le h, zero_add, Nat.cast_sub h, ← Real.cos_neg]
        congr 1
        ring
      · rw [Nat.sub_eq_zero_of_le h, add_zero, Nat.cast_sub h]
        congr 1
        ring
    rw [hcos, Nat.cast_add, add_div, Real.cos_sub, Real.cos_add]
    push_cast
    ring

theorem sin_row_rep (c : ℕ) (L : List ℕ) :
    (∃ b : ℕ →₀ ℤ, 0 ≤ b 0 ∧
      (L.map (fun d : ℕ => 2 * (Real.sin ((c : ℝ) / 10) * Real.sin ((d : ℝ) / 10)))).sum
        = b.sum (fun k a => (a : ℝ) * Real.cos ((k : ℝ) / 10))) ∧
    (c ∈ L → 1 ≤ c → ∃ b : ℕ →₀ ℤ, 0 < b 0 ∧
      (L.map (fun d : ℕ => 2 * (Real.sin ((c : ℝ) / 10) * Real.sin ((d : ℝ) / 10)))).sum
        = b.sum (fun k a => (a : ℝ) * Real.cos ((k : ℝ) / 10))) := by
  induction L with
  | nil => exact ⟨⟨0, le_refl _, by simp⟩, fun h => absurd h (List.not_mem_nil _)⟩
  | cons d L ih =>
    obtain ⟨b, hb0, hb⟩ := sin_mul_sin_rep c d
    have hnn : 0 ≤ b 0 := by
      rw [hb0]
      split_ifs <;> omega
    simp only [List.map_cons, List.sum_cons]
    refine ⟨cosRep_add _ _ ⟨b, hnn, hb⟩ ih.1, fun hmem hc => ?_⟩
    by_cases hcd : c = d
    · have hpos : 0 < b 0 := by
        rw [hb0, if_pos hcd, if_neg (by omega)]
        norm_num
      exact cosRep_add_pos _ _ ⟨b, hpos, hb⟩ ih.1
    · have hin : c ∈ L := by
        rcases List.mem_cons.mp hmem with h | h
        · exact absurd h hcd
        · exact h
      rw [add_comm]
      exact cosRep_add_pos _ _ (ih.2 hin hc) ⟨b, hnn, hb⟩

theorem sin_square_rep (L L2 : List ℕ) :
    (∃ b : ℕ →₀ ℤ, 0 ≤ b 0 ∧
      (L2.map (fun c : ℕ =>
        (L.map (fun d : ℕ => 2 * (Real.sin ((c : ℝ) / 10) * Real.sin ((d : ℝ) / 10)))).sum)).sum
        = b.sum (fun k a => (a : ℝ) * Real.cos ((k : ℝ) / 10))) ∧
    ((∃ c ∈ L2, c ∈ L ∧ 1 ≤ c) → ∃ b : ℕ →₀ ℤ, 0 < b 0 ∧
      (L2.map (fun c : ℕ =>
        (L.map (fun d : ℕ => 2 * (Real.sin ((c : ℝ) / 10) * Real.sin ((d : ℝ) / 10)))).sum)).sum
        = b.sum (fun k a => (a : ℝ) * Real.cos ((k : ℝ) / 10))) := by
  induction L2 with
  | nil =>
    refine ⟨⟨0, le_refl _, by simp⟩, ?_⟩
    rintro ⟨c, hc, -⟩
    exact absurd hc (List.not_mem_nil _)
  | cons c L2 ih =>
    simp only [List.map_cons, List.sum_cons]
    refine ⟨cosRep_add _ _ (sin_row_rep c L).1 ih.1, ?_⟩
    rintro ⟨e, he, heL, he1⟩
    rcases List.mem_cons.mp he with h | h
    · subst h
      exact cosRep_add_pos _ _ ((sin_row_rep e L).2 heL he1) ih.1
    · rw [add_comm]
      exact cosRep_add_pos _ _ (ih.2 ⟨e, h, heL, he1⟩) (sin_row_rep c L).1

theorem sum_sin_ne_zero (L : List ℕ) (hL : ∃ c ∈ L, 1 ≤ c) :
    (L.map (fun c : ℕ => Real.sin ((c : ℝ) / 10))).sum ≠ 0 := by
  intro h
  obtain ⟨c, hc, hc1⟩ := hL
  obtain ⟨b, hb, hsum⟩ := (sin_square_rep L L).2 ⟨c, hc, hc, hc1⟩
  refine cosRep_ne_zero b hb ?_
  rw [← hsum]
  have h2 : ∀ c : ℕ,
      (L.map (fun d : ℕ => 2 * (Real.sin ((c : ℝ) / 10) * Real.sin ((d : ℝ) / 10)))).sum
        = 2 * Real.sin ((c : ℝ) / 10) * (L.map (fun d : ℕ => Real.sin ((d : ℝ) / 10))).sum := by
    intro c
    rw [← List.sum_map_mul_left]
    congr 1
    refine List.map_congr_left (fun d _ => ?_)
    ring
  simp only [h2, h, mul_zero, List.map_const', List.sum_replicate, smul_zero]

end Sine

/-! ## The fallback embedding (C8) -/

section EmbeddingLemmas

variable {R : Type} [LinearOrderedField R]

theorem addAt_length (v : List R) (index : Nat) (x : R) : (addAt v index x).length = v.length := by
  induction v generalizing index with
  | nil => rfl
  | cons a rest ih =>
    cases index with
    | zero => rfl
    | succ n => simp [addAt, ih]

theorem addAt_getD (v : List R) (index : Nat) (x : R) (b : Nat) (h : index < v.length) :
    (addAt v index x).getD b 0 = if b = index then v.getD b 0 + x else v.getD b 0 := by
  induction v generalizing index b with
  | nil => simp at h
  | cons a rest ih =>
    cases index with
    | zero =>
      cases b with
      | zero => simp [addAt]
      | succ b => simp [addAt]
    | succ n =>
      cases b with
      | zero => simp [addAt]
      | succ b =>
        have := ih n b (by simpa using h)
        simpa [addAt] using this

theorem addAt_zero (v : List R) (index : Nat) : addAt v index 0 = v := by
  induction v generalizing index with
  | nil => rfl
  | cons a rest ih =>
    cases index with
    | zero => simp [addAt]
    | succ n => simp [addAt, ih]

theorem accumulateWord_length (rt : Runtime R) (i : Nat) (word : JsString) :
    ∀ (j : Nat) (embedding : List R),
      (accumulateWord rt i word j embedding).length = embedding.length := by
  induction word with
  | nil => intro j embedding; rfl
  | cons c rest ih =>
    intro j embedding
    simp only [accumulateWord]
    rw [ih, addAt_length]

theorem accumulateWords_length (rt : Runtime R) (words : List JsString) :
    ∀ (i : Nat) (embedding : List R),
      (accumulateWords rt words i embedding).length = embedding.length := by
  induction words with
  | nil => intro i embedding; rfl
  | cons word rest ih =>
    intro i embedding
    simp only [accumulateWords]
    rw [ih, accumulateWord_length]

theorem simpleAccumulator_length (rt : Runtime R) (text : JsString) :
    (simpleAccumulator rt text).length = 384 := by
  unfold simpleAccumulator
  simp only
  rw [accumulateWords_length, List.length_replicate]

theorem generateSimpleEmbedding_length (rt : Runtime R) (text : JsString) :
    (generateSimpleEmbedding rt text).length = 384 := by
  unfold generateSimpleEmbedding
  simp only [List.length_map, simpleAccumulator_length]

/-- Adding the term of a code unit keeps every component a sum of terms of code
units, and a component that holds the term of a code unit other than `0` keeps
holding it; the component the term is added to holds it from then on. -/
theorem addAt_bins (rt : Runtime R) (e : List R) (index c : Nat) (m : Prop)
    (hi : index < e.length)
    (hQ : ∀ b, ∃ L : List Nat,
      e.getD b 0 = (L.map (fun u : Nat => rt.sin ((u : R) * 0.1) * 0.1)).sum)
    (hM : m → ∃ b, ∃ L : List Nat, (∃ u ∈ L, 1 ≤ u) ∧
      e.getD b 0 = (L.map (fun u : Nat => rt.sin ((u : R) * 0.1) * 0.1)).sum) :
    (∀ b, ∃ L : List Nat, (addAt e index (rt.sin ((c : R) * 0.1) * 0.1)).getD b 0
      = (L.map (fun u : Nat => rt.sin ((u : R) * 0.1) * 0.1)).sum) ∧
    ((m ∨ 1 ≤ c) → ∃ b, ∃ L : List Nat, (∃ u ∈ L, 1 ≤ u) ∧
      (addAt e index (rt.sin ((c : R) * 0.1) * 0.1)).getD b 0
        = (L.map (fun u : Nat => rt.sin ((u : R) * 0.1) * 0.1)).sum) := by
  have hstep : ∀ b (L : List Nat),
      e.getD b 0 = (L.map (fun u : Nat => rt.sin ((u : R) * 0.1) * 0.1)).sum →
      (addAt e index (rt.sin ((c : R) * 0.1) * 0.1)).getD b 0
        = ((if b = index then c :: L else L).map
            (fun u : Nat => rt.sin ((u : R) * 0.1) * 0.1)).sum := by
    intro b L hL
    rw [addAt_getD e index _ b hi]
    by_cases hb : b = index
    · simp only [hb, if_true, List.map_cons, List.sum_cons]
      rw [← hb, hL, add_comm]
    · simp only [hb, if_false]
      exact hL
  refine ⟨fun b => ?_, fun hm => ?_⟩
  · obtain ⟨L, hL⟩ := hQ b
    exact ⟨_, hstep b L hL⟩
  · by_cases hm2 : m
    · obtain ⟨b, L, ⟨u, hu, hu1⟩, hL⟩ := hM hm2
      refine ⟨b, _, ⟨u, ?_, hu1⟩, hstep b L hL⟩
      split
      · exact List.mem_cons_of_mem _ hu
      · exact hu
    · have hc : 1 ≤ c := hm.resolve_left hm2
      obtain ⟨L, hL⟩ := hQ index
      refine ⟨index, _, ⟨c, ?_, hc⟩, hstep index L hL⟩
      simp

theorem accumulateWord_bins (rt : Runtime R) (i : Nat) (word : JsString) :
    ∀ (j : Nat) (e : List R) (m : Prop), 0 < e.length →
      (∀ b, ∃ L : List Nat,
        e.getD b 0 = (L.map (fun u : Nat => rt.sin ((u : R) * 0.1) * 0.1)).sum) →
      (m → ∃ b, ∃ L : List Nat, (∃ u ∈ L, 1 ≤ u) ∧
        e.getD b 0 = (L.map (fun u : Nat => rt.sin ((u : R) * 0.1) * 0.1)).sum) →
      (∀ b, ∃ L : List Nat, (accumulateWord rt i word j e).getD b 0
        = (L.map (fun u : Nat => rt.sin ((u : R) * 0.1) * 0.1)).sum) ∧
      ((m ∨ ∃ u ∈ word, 1 ≤ u) → ∃ b, ∃ L : List Nat, (∃ u ∈ L, 1 ≤ u) ∧
        (accumulateWord rt i word j e).getD b 0
          = (L.map (fun u : Nat => rt.sin ((u : R) * 0.1) * 0.1)).sum) := by
  induction word with
  | nil =>
    intro j e m _ hQ hM
    refine ⟨hQ, fun h => hM (h.resolve_right ?_)⟩
    rintro ⟨u, hu, -⟩
    exact absurd hu (List.not_mem_nil _)
  | cons c rest ih =>
    intro j e m hlen hQ hM
    simp only [accumulateWord]
    have hstep := addAt_bins rt e ((c + i + j) % e.length) c m (Nat.mod_lt _ hlen) hQ hM
    have hrec := ih (j + 1) _ (m ∨ 1 ≤ c) (by rw [addAt_length]; exact hlen) hstep.1 hstep.2
    refine ⟨hrec.1, fun h => hrec.2 ?_⟩
    rcases h with h | ⟨u, hu, hu1⟩
    · exact Or.inl (Or.inl h)
    · rcases List.mem_cons.mp hu with rfl | hu2
      · exact Or.inl (Or.inr hu1)
      · exact Or.inr ⟨u, hu2, hu1⟩

theorem accumulateWords_bins (rt : Runtime R) (words : List JsString) :
    ∀ (i : Nat) (e : List R) (m : Prop), 0 < e.length →
      (∀ b, ∃ L : List Nat,
        e.getD b 0 = (L.map (fun u : Nat => rt.sin ((u : R) * 0.1) * 0.1)).sum) →
      (m → ∃ b, ∃ L : List Nat, (∃ u ∈ L, 1 ≤ u) ∧
        e.getD b 0 = (L.map (fun u : Nat => rt.sin ((u : R) * 0.1) * 0.1)).sum) →
      (∀ b, ∃ L : List Nat, (accumulateWords rt words i e).getD b 0
        = (L.map (fun u : Nat => rt.sin ((u : R) * 0.1) * 0.1)).sum) ∧
      ((m ∨ ∃ word ∈ words, ∃ u ∈ word, 1 ≤ u) → ∃ b, ∃ L : List Nat, (∃ u ∈ L, 1 ≤ u) ∧
        (accumulateWords rt words i e).getD b 0
          = (L.map (fun u : Nat => rt.sin ((u : R) * 0.1) * 0.1)).sum) := by
  induction words with
  | nil =>
    intro i e m _ hQ hM
    refine ⟨hQ, fun h => hM (h.resolve_right ?_)⟩
    rintro ⟨w, hw, -⟩
    exact absurd hw (List.not_mem_nil _)
  | cons word rest ih =>
    intro i e m hlen hQ hM
    simp only [accumulateWords]
    have hstep := accumulateWord_bins rt i word 0 e m hlen hQ hM
    have hrec := ih (i + 1) _ (m ∨ ∃ u ∈ word, 1 ≤ u)
      (by rw [accumulateWord_length]; exact hlen) hstep.1 hstep.2
    refine ⟨hrec.1, fun h => hrec.2 ?_⟩
    rcases h with h | ⟨w, hw, hu⟩
    · exact Or.inl (Or.inl h)
    · rcases List.mem_cons.mp hw with rfl | hw2
      · exact Or.inl (Or.inr hu)
      · exact Or.inr ⟨w, hw2, hu⟩

theorem accumulateWord_of_zero (rt : Runtime R) (hsin : rt.sin 0 = 0) (i : Nat)
    (word : JsString) (h : ∀ u ∈ word, u = 0) :
    ∀ (j : Nat) (e : List R), accumulateWord rt i word j e = e := by
  induction word with
  | nil => intro j e; rfl
  | cons c rest ih =>
    intro j e
    have hc : c = 0 := h c (List.mem_cons_self _ _)
    subst hc
    simp only [accumulateWord, Nat.cast_zero, zero_mul, hsin, addAt_zero]
    exact ih (fun u hu => h u (List.mem_cons_of_mem _ hu)) _ _

theorem accumulateWords_of_zero (rt : Runtime R) (hsin : rt.sin 0 = 0) (words : List JsString)
    (h : ∀ word ∈ words, ∀ u ∈ word, u = 0) :
    ∀ (i : Nat) (e : List R), accumulateWords rt words i e = e := by
  induction words with
  | nil => intro i e; rfl
  | cons word rest ih =>
    intro i e
    simp only [accumulateWords]
    rw [accumulateWord_of_zero rt hsin i word (h word (List.mem_cons_self _ _))]
    exact ih (fun w hw => h w (List.mem_cons_of_mem _ hw)) _ _

end EmbeddingLemmas

theorem splitAux_mem (cs : JsString) :
    ∀ (cur : JsString) (inRun : Bool), ∀ word ∈ splitAux cs cur inRun, ∀ u ∈ word,
      u ∈ cur ∨ (u ∈ cs ∧ isWhitespace u = false) := by
  induction cs with
  | nil =>
    intro cur inRun word hw u hu
    simp only [splitAux, List.mem_singleton] at hw
    subst hw
    exact Or.inl (List.mem_reverse.mp hu)
  | cons c rest ih =>
    intro cur inRun word hw u hu
    by_cases hc : isWhitespace c = true
    · simp only [splitAux, hc, if_true] at hw
      cases inRun with
      | true =>
        simp only [if_true] at hw
        rcases ih cur true word hw u hu with h | h
        · exact Or.inl h
        · exact Or.inr ⟨List.mem_cons_of_mem _ h.1, h.2⟩
      | false =>
        simp only [Bool.false_eq_true, if_false, List.mem_cons] at hw
        rcases hw with rfl | hw
        · exact Or.inl (List.mem_reverse.mp hu)
        · rcases ih [] true word hw u hu with h | h
          · exact absurd h (List.not_mem_nil _)
          · exact Or.inr ⟨List.mem_cons_of_mem _ h.1, h.2⟩
    · simp only [splitAux, hc, if_false] at hw
      rcases ih (c :: cur) false word hw u hu with h | h
      · rcases List.mem_cons.mp h with rfl | h2
        · exact Or.inr ⟨List.mem_cons_self _ _, by simpa using hc⟩
        · exact Or.inl h2
      · exact Or.inr ⟨List.mem_cons_of_mem _ h.1, h.2⟩

theorem splitAux_covers (cs : JsString) :
    ∀ (cur : JsString) (inRun : Bool) (u : Nat),
      (u ∈ cur ∨ (u ∈ cs ∧ isWhitespace u = false)) →
      ∃ word ∈ splitAux cs cur inRun, u ∈ word := by
  induction cs with
  | nil =>
    intro cur inRun u h
    rcases h with h | h
    · exact ⟨cur.reverse, by simp [splitAux], List.mem_reverse.mpr h⟩
    · exact absurd h.1 (List.not_mem_nil _)
  | cons c rest ih =>
    intro cur inRun u h
    by_cases hc : isWhitespace c = true
    · have hrest : u ∈ cur ∨ (u ∈ rest ∧ isWhitespace u = false) := by
        rcases h with h | ⟨h1, h2⟩
        · exact Or.inl h
        · rcases List.mem_cons.mp h1 with rfl | h3
          · rw [hc] at h2
            exact absurd h2 (by decide)
          · exact Or.inr ⟨h3, h2⟩
      cases inRun with
      | true =>
        simp only [splitAux, hc, if_true]
        exact ih cur true u hrest
      | false =>
        simp only [splitAux, hc, if_true, Bool.false_eq_true, if_false]
        rcases hrest with h1 | h1
        · exact ⟨cur.reverse, List.mem_cons_self _ _, List.mem_reverse.mpr h1⟩
        · obtain ⟨w, hw, huw⟩ := ih [] true u (Or.inr h1)
          exact ⟨w, List.mem_cons_of_mem _ hw, huw⟩
    · simp only [splitAux, hc, if_false]
      apply ih (c :: cur) false u
      rcases h with h | ⟨h1, h2⟩
      · exact Or.inl (List.mem_cons_of_mem _ h)
      · rcases List.mem_cons.mp h1 with rfl | h3
        · exact Or.inl (List.mem_cons_self _ _)
        · exact Or.inr ⟨h3, h2⟩

section EmbeddingNorm

variable {R : Type} [LinearOrderedField R]

theorem foldl_squares (v : List R) (a : R) :
    v.foldl (fun sum val => sum + val * val) a = a + (v.map (fun x => x * x)).sum := by
  induction v generalizing a with
  | nil => simp
  | cons x rest ih => simp [List.foldl_cons, ih, add_assoc]

theorem sum_squares_nonneg (v : List R) : 0 ≤ (v.map (fun x => x * x)).sum := by
  induction v with
  | nil => simp
  | cons x rest ih =>
    simp only [List.map_cons, List.sum_cons]
    exact add_nonneg (mul_self_nonneg x) ih

theorem sum_squares_eq_zero (v : List R) (h : (v.map (fun x => x * x)).sum = 0) :
    ∀ x ∈ v, x = 0 := by
  induction v with
  | nil => intro x hx; simp at hx
  | cons a rest ih =>
    simp only [List.map_cons, List.sum_cons] at h
    have h1 := mul_self_nonneg a
    have h2 := sum_squares_nonneg rest
    have ha : a * a = 0 := by linarith
    have hr : (rest.map (fun x => x * x)).sum = 0 := by linarith
    intro x hx
    simp only [List.mem_cons] at hx
    rcases hx with rfl | hx
    · exact mul_self_eq_zero.mp ha
    · exact ih hr x hx

theorem sum_squares_div (v : List R) (m : R) :
    ((v.map (fun val => val / m)).map (fun x => x * x)).sum
      = (v.map (fun x => x * x)).sum / (m * m) := by
  induction v with
  | nil => simp
  | cons a rest ih =>
    simp only [List.map_cons, List.sum_cons, ih]
    rw [add_div, div_mul_div_comm]

theorem eq_replicate_zero (v : List R) (n : Nat) (hl : v.length = n) (h : ∀ x ∈ v, x = 0) :
    v = List.replicate n 0 := by
  rw [List.eq_replicate_iff]
  exact ⟨hl, h⟩

theorem sum_squares_replicate_zero (n : Nat) :
    ((List.replicate n (0 : R)).map (fun x => x * x)).sum = 0 := by
  induction n with
  | zero => rfl
  | succ k ih => simp only [List.replicate_succ, List.map_cons, List.sum_cons, ih, mul_zero, add_zero]

theorem getD_replicate_zero (n b : Nat) : (List.replicate n (0 : R)).getD b 0 = 0 := by
  induction n generalizing b with
  | zero => rfl
  | succ k ih =>
    cases b with
    | zero => rfl
    | succ b => simp [List.replicate_succ]

end EmbeddingNorm

theorem sum_sin_terms_ne_zero (L : List Nat) (hL : ∃ u ∈ L, 1 ≤ u) :
    (L.map (fun u : Nat => Real.sin ((u : ℝ) * 0.1) * 0.1)).sum ≠ 0 := by
  have h1 : (L.map (fun u : Nat => Real.sin ((u : ℝ) * 0.1) * 0.1)).sum
      = (L.map (fun u : Nat => Real.sin ((u : ℝ) / 10))).sum * 0.1 := by
    rw [← List.sum_map_mul_right]
    congr 1
    refine List.map_congr_left (fun u _ => ?_)
    norm_num
    congr 1
    ring
  rw [h1]
  exact mul_ne_zero (sum_sin_ne_zero L hL) (by norm_num)

/-- The accumulated vector is the zero vector exactly when every code unit of the
lowercased text is whitespace or `0`. -/
theorem simpleAccumulator_eq_zero_iff (lower : JsString → JsString) (text : JsString) :
    simpleAccumulator (⟨Real.sin, Real.sqrt, lower⟩ : Runtime ℝ) text = List.replicate 384 0 ↔
      ∀ u ∈ lower text, isWhitespace u = true ∨ u = 0 := by
  constructor
  · intro hz u hu
    by_contra hcon
    have hws : isWhitespace u = false := by
      cases h : isWhitespace u with
      | true => exact absurd (Or.inl h) hcon
      | false => rfl
    have hu1 : 1 ≤ u := by
      rcases Nat.eq_zero_or_pos u with h | h
      · exact absurd (Or.inr h) hcon
      · exact h
    obtain ⟨word, hword, huw⟩ := splitAux_covers (lower text) [] false u (Or.inr ⟨hu, hws⟩)
    have hbins := (accumulateWords_bins (⟨Real.sin, Real.sqrt, lower⟩ : Runtime ℝ)
      (splitWhitespace (lower text)) 0 (List.replicate 384 0) False
      (by rw [List.length_replicate]; decide)
      (fun b => ⟨[], by rw [getD_replicate_zero]; rfl⟩)
      (fun h => absurd h not_false)).2 (Or.inr ⟨word, hword, u, huw, hu1⟩)
    obtain ⟨b, L, hL, hsum⟩ := hbins
    have hacc : accumulateWords (⟨Real.sin, Real.sqrt, lower⟩ : Runtime ℝ)
        (splitWhitespace (lower text)) 0 (List.replicate 384 0) = List.replicate 384 0 := hz
    rw [hacc, getD_replicate_zero] at hsum
    exact sum_sin_terms_ne_zero L hL hsum.symm
  · intro h
    unfold simpleAccumulator
    simp only
    apply accumulateWords_of_zero _ Real.sin_zero
    intro word hword u hu
    rcases splitAux_mem (lower text) [] false word hword u hu with h1 | ⟨h1, h2⟩
    · exact absurd h1 (List.not_mem_nil _)
    · rcases h u h1 with h3 | h3
      · rw [h2] at h3
        exact absurd h3 (by decide)
      · exact h3

theorem generateSimpleEmbedding_of_zero (lower : JsString → JsString) (text : JsString)
    (h : simpleAccumulator (⟨Real.sin, Real.sqrt, lower⟩ : Runtime ℝ) text
      = List.replicate 384 0) :
    generateSimpleEmbedding (⟨Real.sin, Real.sqrt, lower⟩ : Runtime ℝ) text
      = List.replicate 384 0 := by
  unfold generateSimpleEmbedding
  simp only [h]
  rw [foldl_squares, sum_squares_replicate_zero, add_zero, Real.sqrt_zero]
  simp only [gt_iff_lt, lt_irrefl, if_false, List.map_replicate]

theorem generateSimpleEmbedding_of_ne_zero (lower : JsString → JsString) (text : JsString)
    (h : simpleAccumulator (⟨Real.sin, Real.sqrt, lower⟩ : Runtime ℝ) text
      ≠ List.replicate 384 0) :
    Real.sqrt (((generateSimpleEmbedding (⟨Real.sin, Real.sqrt, lower⟩ : Runtime ℝ) text).map
      (fun x => x * x)).sum) = 1 := by
  have hlen := simpleAccumulator_length (⟨Real.sin, Real.sqrt, lower⟩ : Runtime ℝ) text
  have hS := sum_squares_nonneg (simpleAccumulator (⟨Real.sin, Real.sqrt, lower⟩ : Runtime ℝ) text)
  have hne : (List.map (fun x => x * x)
      (simpleAccumulator (⟨Real.sin, Real.sqrt, lower⟩ : Runtime ℝ) text)).sum ≠ 0 :=
    fun h0 => h (eq_replicate_zero _ _ hlen (sum_squares_eq_zero _ h0))
  have hpos : 0 < Real.sqrt ((simpleAccumulator (⟨Real.sin, Real.sqrt, lower⟩ : Runtime ℝ)
      text).foldl (fun sum val => sum + val * val) 0) := by
    rw [foldl_squares, zero_add]
    exact Real.sqrt_pos.mpr (lt_of_le_of_ne hS (Ne.symm hne))
  have hgse : generateSimpleEmbedding (⟨Real.sin, Real.sqrt, lower⟩ : Runtime ℝ) text
      = (simpleAccumulator (⟨Real.sin, Real.sqrt, lower⟩ : Runtime ℝ) text).map
          (fun val => val / Real.sqrt ((simpleAccumulator
            (⟨Real.sin, Real.sqrt, lower⟩ : Runtime ℝ) text).foldl
              (fun sum val => sum + val * val) 0)) := by
    unfold generateSimpleEmbedding
    simp only [gt_iff_lt, hpos, if_true]
  rw [hgse, sum_squares_div, foldl_squares, zero_add, Real.mul_self_sqrt hS, div_self hne,
    Real.sqrt_one]

theorem generateSimpleEmbedding_eq_zero_iff (lower : JsString → JsString) (text : JsString) :
    generateSimpleEmbedding (⟨Real.sin, Real.sqrt, lower⟩ : Runtime ℝ) text
        = List.replicate 384 0 ↔
      ∀ u ∈ lower text, isWhitespace u = true ∨ u = 0 := by
  rw [← simpleAccumulator_eq_zero_iff]
  constructor
  · intro hz
    by_contra hne
    have h1 := generateSimpleEmbedding_of_ne_zero lower text hne
    rw [hz, sum_squares_replicate_zero, Real.sqrt_zero] at h1
    exact zero_ne_one h1
  · exact generateSimpleEmbedding_of_zero lower text

/-- C8 (as amended): over the reals, `generateSimpleEmbedding(text)` is a function
of the text with 384 components.  It is the zero vector exactly when every code
unit of the lowercased text is whitespace or U+0000, and it has Euclidean norm
exactly 1 otherwise; so for a lowercasing that keeps the texts of whitespace and
U+0000 apart from the others, as `toLowerCase` does, it is the zero vector exactly
when every code unit of the text is whitespace or U+0000. -/
theorem generateSimpleEmbedding_spec (lower : JsString → JsString) (text : JsString) :
    (generateSimpleEmbedding (⟨Real.sin, Real.sqrt, lower⟩ : Runtime ℝ) text).length = 384 ∧
    (generateSimpleEmbedding (⟨Real.sin, Real.sqrt, lower⟩ : Runtime ℝ) text
        = List.replicate 384 0 ↔
      ∀ u ∈ lower text, isWhitespace u = true ∨ u = 0) ∧
    ((∃ u ∈ lower text, isWhitespace u = false ∧ u ≠ 0) →
      Real.sqrt (((generateSimpleEmbedding (⟨Real.sin, Real.sqrt, lower⟩ : Runtime ℝ) text).map
        (fun x => x * x)).sum) = 1) ∧
    (generateSimpleEmbedding (⟨Real.sin, Real.sqrt, lower⟩ : Runtime ℝ) text
        = List.replicate 384 0 ∨
      Real.sqrt (((generateSimpleEmbedding (⟨Real.sin, Real.sqrt, lower⟩ : Runtime ℝ) text).map
        (fun x => x * x)).sum) = 1) ∧
    ((∀ t : JsString, (∀ u ∈ lower t, isWhitespace u = true ∨ u = 0) ↔
        (∀ u ∈ t, isWhitespace u = true ∨ u = 0)) →
      (generateSimpleEmbedding (⟨Real.sin, Real.sqrt, lower⟩ : Runtime ℝ) text
          = List.replicate 384 0 ↔
        ∀ u ∈ text, isWhitespace u = true ∨ u = 0)) := by
  have hiff := generateSimpleEmbedding_eq_zero_iff lower text
  have hnorm : (∃ u ∈ lower text, isWhitespace u = false ∧ u ≠ 0) →
      Real.sqrt (((generateSimpleEmbedding (⟨Real.sin, Real.sqrt, lower⟩ : Runtime ℝ) text).map
        (fun x => x * x)).sum) = 1 := by
    rintro ⟨u, hu, hws, hu0⟩
    apply generateSimpleEmbedding_of_ne_zero
    intro hz
    rcases (simpleAccumulator_eq_zero_iff lower text).mp hz u hu with h | h
    · rw [hws] at h
      exact absurd h (by decide)
    · exact hu0 h
  refine ⟨generateSimpleEmbedding_length _ _, hiff, hnorm, ?_, fun hlower => ?_⟩
  · by_cases h : ∀ u ∈ lower text, isWhitespace u = true ∨ u = 0
    · exact Or.inl (hiff.mpr h)
    · right
      push_neg at h
      obtain ⟨u, hu, h1, h2⟩ := h
      exact hnorm ⟨u, hu, by simpa using h1, h2⟩
  · rw [hiff]
    exact hlower text

/-- Witness for C8, with the identity as lowercasing: the text `hello world` gets
a vector of norm 1, and the text of one space gets the zero vector. -/
theorem generateSimpleEmbedding_spec_witness :
    Real.sqrt (((generateSimpleEmbedding (⟨Real.sin, Real.sqrt, fun s => s⟩ : Runtime ℝ)
      (toUtf16 "hello world")).map (fun x => x * x)).sum) = 1 ∧
    generateSimpleEmbedding (⟨Real.sin, Real.sqrt, fun s => s⟩ : Runtime ℝ) (toUtf16 " ")
      = List.replicate 384 0 :=
  ⟨(generateSimpleEmbedding_spec (fun s => s) (toUtf16 "hello world")).2.2.1
      ⟨104, by decide, by decide, by decide⟩,
   ((generateSimpleEmbedding_spec (fun s => s) (toUtf16 " ")).2.2.2.2
      (fun _ => Iff.rfl)).mpr (by decide)⟩

/-- Counterexample for C8: the text of the single character U+0000, which
`toLowerCase` leaves as it is, is neither empty nor whitespace, and its embedding
is the zero vector, because `sin (0 * 0.1) * 0.1 = 0`. -/
theorem generateSimpleEmbedding_nul_counterexample :
    toUtf16 "\x00" = [0] ∧
    ([0] : JsString) ≠ [] ∧
    ¬ (∀ u ∈ ([0] : JsString), isWhitespace u = true) ∧
    generateSimpleEmbedding (⟨Real.sin, Real.sqrt, fun s => s⟩ : Runtime ℝ) [0]
      = List.replicate 384 0 := by
  refine ⟨by decide, by decide, by decide, ?_⟩
  exact (generateSimpleEmbedding_eq_zero_iff (fun s => s) [0]).mpr (by decide)


/-! ## Session activity (C12) -/

theorem setEx_of_not_faulted {σ ι : Type} (key : String) (s : Nat) (v : σ) (w : Redis σ ι)
    (hf : w.faulted = false) :
    Redis.setEx key s v w = (.ok (), w.advance (putKey key ⟨.str v, some s⟩ w.data)) := by
  unfold Redis.setEx
  simp [hf]

theorem getSession_of_not_faulted (sessionId : String) (w : SessionStore)
    (hf : w.faulted = false) :
    getSession sessionId w = (recordAt w (sessionKey sessionId), w.advance w.data) := by
  unfold getSession Redis.get recordAt
  simp only [hf, Bool.false_eq_true, if_false]
  cases hl : lookupKey (sessionKey sessionId) w.data with
  | none => rfl
  | some e =>
    obtain ⟨v, t⟩ := e
    cases v <;> rfl

theorem updateSessionActivity_fresh (ttl now : Nat) (sessionId : String) (w : SessionStore)
    (hget : w.faulted = false) (hset : (w.advance w.data).faulted = false)
    (h : recordAt w (sessionKey sessionId) = none) :
    updateSessionActivity ttl now sessionId w
      = (.ok ⟨sessionId, now, now, 0⟩,
          (w.advance w.data).advance
            (putKey (sessionKey sessionId) ⟨.str ⟨sessionId, now, now, 0⟩, some ttl⟩ w.data)) := by
  unfold updateSessionActivity createSession
  rw [getSession_of_not_faulted sessionId w hget, h]
  simp only
  rw [setEx_of_not_faulted _ _ _ _ hset]
  rfl

theorem updateSessionActivity_existing (ttl now : Nat) (sessionId : String) (w : SessionStore)
    (hget : w.faulted = false) (hset : (w.advance w.data).faulted = false) (s : Session)
    (h : recordAt w (sessionKey sessionId) = some s) :
    updateSessionActivity ttl now sessionId w
      = (.ok { s with lastActivity := now, messageCount := s.messageCount + 1 },
          (w.advance w.data).advance
            (putKey (sessionKey sessionId)
              ⟨.str { s with lastActivity := now, messageCount := s.messageCount + 1 }, some ttl⟩
              w.data)) := by
  unfold updateSessionActivity
  rw [getSession_of_not_faulted sessionId w hget, h]
  simp only
  rw [setEx_of_not_faulted _ _ _ _ hset]
  rfl

/-- C12: when the store answers the read and the write, `updateSessionActivity(id)`
returns the session it stores under the record key of `id` with the configured
time to live: a fresh session with `messageCount = 0` when the key holds no
record, and otherwise the stored session with `messageCount` one higher,
`lastActivity` the current time, and `id` and `createdAt` as they were. -/
theorem updateSessionActivity_spec (ttl now : Nat) (sessionId : String) (w : SessionStore)
    (hget : w.faulted = false) (hset : (w.advance w.data).faulted = false) :
    (recordAt w (sessionKey sessionId) = none →
      (updateSessionActivity ttl now sessionId w).1 = .ok ⟨sessionId, now, now, 0⟩ ∧
      lookupKey (sessionKey sessionId) (updateSessionActivity ttl now sessionId w).2.data
        = some ⟨.str ⟨sessionId, now, now, 0⟩, some ttl⟩) ∧
    (∀ s : Session, recordAt w (sessionKey sessionId) = some s →
      (updateSessionActivity ttl now sessionId w).1
        = .ok ⟨s.id, s.createdAt, now, s.messageCount + 1⟩ ∧
      lookupKey (sessionKey sessionId) (updateSessionActivity ttl now sessionId w).2.data
        = some ⟨.str ⟨s.id, s.createdAt, now, s.messageCount + 1⟩, some ttl⟩) := by
  constructor
  · intro h
    rw [updateSessionActivity_fresh ttl now sessionId w hget hset h]
    exact ⟨rfl, lookupKey_putKey_self _ _ _⟩
  · intro s h
    rw [updateSessionActivity_existing ttl now sessionId w hget hset s h]
    exact ⟨rfl, lookupKey_putKey_self _ _ _⟩

/-- Witness for C12: the first update creates the session `S1`, the second one
counts a message. -/
theorem updateSessionActivity_spec_witness :
    (updateSessionActivity 3600 5 "S1" ⟨[], []⟩).1 = .ok ⟨"S1", 5, 5, 0⟩ ∧
    (updateSessionActivity 3600 9 "S1" (updateSessionActivity 3600 5 "S1" ⟨[], []⟩).2).1
      = .ok ⟨"S1", 5, 9, 1⟩ :=
  ⟨((updateSessionActivity_spec 3600 5 "S1" ⟨[], []⟩ rfl rfl).1 rfl).1,
   ((updateSessionActivity_spec 3600 9 "S1" (updateSessionActivity 3600 5 "S1" ⟨[], []⟩).2
      rfl rfl).2 ⟨"S1", 5, 5, 0⟩ rfl).1⟩

/-! ## Message count and history of a new session (C11) -/

theorem advance_nil {σ ι : Type} (w : Redis σ ι) (d : List (String × RedisEntry σ ι))
    (h : w.faults = []) : (w.advance d).faults = [] := by
  simp [Redis.advance, h]

theorem lPush_faults {σ ι : Type} (key : String) (x : ι) (w : Redis σ ι) :
    (Redis.lPush key x w).2.faults = w.faults.tail := by
  unfold Redis.lPush
  split
  · rfl
  · split <;> rfl

theorem lTrim_faults {σ ι : Type} (key : String) (a b : Int) (w : Redis σ ι) :
    (Redis.lTrim key a b w).2.faults = w.faults.tail := by
  unfold Redis.lTrim
  split
  · rfl
  · split
    · rfl
    · split <;> rfl
    · rfl

theorem expire_faults {σ ι : Type} (key : String) (s : Nat) (w : Redis σ ι) :
    (Redis.expire key s w).2.faults = w.faults.tail := by
  unfold Redis.expire
  split
  · rfl
  · split <;> rfl

theorem lPush_lookup_ne {σ ι : Type} {key other : String} (h : other ≠ key) (x : ι)
    (w : Redis σ ι) :
    lookupKey other (Redis.lPush key x w).2.data = lookupKey other w.data := by
  unfold Redis.lPush
  split
  · rfl
  · split
    · simp [Redis.advance, lookupKey_putKey_ne h]
    · simp [Redis.advance, lookupKey_putKey_ne h]
    · rfl

theorem lTrim_lookup_ne {σ ι : Type} {key other : String} (h : other ≠ key) (a b : Int)
    (w : Redis σ ι) :
    lookupKey other (Redis.lTrim key a b w).2.data = lookupKey other w.data := by
  unfold Redis.lTrim
  split
  · rfl
  · split
    · rfl
    · split
      · simp [Redis.advance, lookupKey_eraseKey_ne h]
      · simp [Redis.advance, lookupKey_putKey_ne h]
    · rfl

theorem expire_lookup_ne {σ ι : Type} {key other : String} (h : other ≠ key) (s : Nat)
    (w : Redis σ ι) :
    lookupKey other (Redis.expire key s w).2.data = lookupKey other w.data := by
  unfold Redis.expire
  split
  · rfl
  · split
    · rfl
    · simp [Redis.advance, lookupKey_putKey_ne h]

theorem recordAt_congr (w w1 : SessionStore) (key : String)
    (h : lookupKey key w1.data = lookupKey key w.data) : recordAt w1 key = recordAt w key := by
  unfold recordAt
  rw [h]

/-- One `addToHistory` call on a store that answers every command: the history
grows at the front and the record, if there is one, counts the message. -/
theorem addToHistory_step_record (ttl now : Nat) (sessionId : String) (m : MessageData)
    (w : SessionStore) (L : List HistoryItem) (s : Session)
    (h : HistoryIs w sessionId L) (hs : recordAt w (sessionKey sessionId) = some s) :
    ∃ w1, addToHistory ttl now sessionId m w = (.ok (), w1) ∧
      HistoryIs w1 sessionId ((({ m with id := toString now } : HistoryItem) :: L).take 50) ∧
      recordAt w1 (sessionKey sessionId)
        = some ⟨s.id, s.createdAt, now, s.messageCount + 1⟩ := by
  obtain ⟨w1, h1, hI⟩ := addToHistory_step ttl now sessionId m w L h
  refine ⟨w1, h1, hI, ?_⟩
  have hok : (addToHistory ttl now sessionId m w).1 = .ok () := by rw [h1]
  obtain ⟨n, wa, wb, b, wc, s2, e1, e2, e3, e4⟩ := addToHistory_ok_inv ttl now sessionId m w hok
  rw [h1] at e4
  simp only at e4
  have hne : sessionKey sessionId ≠ historyKey sessionId :=
    sessionKey_ne_historyKey sessionId sessionId rfl
  have hwa : wa = (Redis.lPush (historyKey sessionId)
      ({ m with id := toString now } : HistoryItem) w).2 := by rw [e1]
  have hwb : wb = (Redis.lTrim (historyKey sessionId) 0 49 wa).2 := by rw [e2]
  have hwc : wc = (Redis.expire (historyKey sessionId) ttl wb).2 := by rw [e3]
  have hfa : wa.faults = [] := by rw [hwa, lPush_faults, h.1]; rfl
  have hfb : wb.faults = [] := by rw [hwb, lTrim_faults, hfa]; rfl
  have hfc : wc.faults = [] := by rw [hwc, expire_faults, hfb]; rfl
  have hrec : recordAt wc (sessionKey sessionId) = some s := by
    rw [← hs]
    apply recordAt_congr
    rw [hwc, expire_lookup_ne hne, hwb, lTrim_lookup_ne hne, hwa, lPush_lookup_ne hne]
  have hu := updateSessionActivity_existing ttl now sessionId wc (faulted_of_nil wc hfc)
    (faulted_of_nil _ (advance_nil wc wc.data hfc)) s hrec
  rw [hu] at e4
  simp only [Prod.mk.injEq] at e4
  rw [← e4.2]
  unfold recordAt
  simp only [Redis.advance, lookupKey_putKey_self]

theorem createSession_of_nil (ttl now : Nat) (sessionId : String) (w : SessionStore)
    (hf : w.faults = []) :
    (createSession ttl now sessionId w).1 = .ok ⟨sessionId, now, now, 0⟩ ∧
    (createSession ttl now sessionId w).2.faults = [] ∧
    recordAt (createSession ttl now sessionId w).2 (sessionKey sessionId)
      = some ⟨sessionId, now, now, 0⟩ ∧
    ∀ other, other ≠ sessionKey sessionId →
      lookupKey other (createSession ttl now sessionId w).2.data = lookupKey other w.data := by
  unfold createSession
  simp only
  rw [setEx_of_not_faulted _ _ _ _ (faulted_of_nil w hf)]
  refine ⟨rfl, advance_nil w _ hf, ?_, ?_⟩
  · unfold recordAt
    simp only [Redis.advance, lookupKey_putKey_self]
  · intro other ho
    simp only [Redis.advance, lookupKey_putKey_ne ho]

theorem getSession_of_nil (sessionId : String) (w : SessionStore) (hf : w.faults = []) :
    (getSession sessionId w).1 = recordAt w (sessionKey sessionId) := by
  rw [getSession_of_not_faulted sessionId w (faulted_of_nil w hf)]

theorem addAllToHistory_record (ttl : Nat) (sessionId : String)
    (calls : List (Nat × MessageData)) :
    ∀ (w : SessionStore) (L : List HistoryItem) (s : Session),
      HistoryIs w sessionId (L.take 50) → recordAt w (sessionKey sessionId) = some s →
      ∃ w1 s1, addAllToHistory ttl sessionId calls w = (.ok (), w1) ∧
        HistoryIs w1 sessionId (((calls.map historyItemOf).reverse ++ L).take 50) ∧
        recordAt w1 (sessionKey sessionId) = some s1 ∧
        s1.messageCount = s.messageCount + calls.length ∧ s1.id = s.id ∧
        s1.createdAt = s.createdAt := by
  induction calls with
  | nil =>
    intro w L s h hs
    exact ⟨w, s, rfl, by simpa using h, hs, rfl, rfl, rfl⟩
  | cons c rest ih =>
    intro w L s h hs
    obtain ⟨now, m⟩ := c
    obtain ⟨w1, h1, hI, hr⟩ := addToHistory_step_record ttl now sessionId m w _ s h hs
    have hI2 : HistoryIs w1 sessionId ((historyItemOf (now, m) :: L).take 50) := by
      have e : (historyItemOf (now, m) :: L).take 50
          = (historyItemOf (now, m) :: L.take 50).take 50 := by
        have := take_append_take 50 [historyItemOf (now, m)] L
        simpa using this.symm
      rw [e]; exact hI
    obtain ⟨w2, s2, h2, hI3, hr2, hc, hid, hcr⟩ := ih w1 (historyItemOf (now, m) :: L) _ hI2 hr
    refine ⟨w2, s2, ?_, ?_, hr2, ?_, hid, hcr⟩
    · simp only [addAllToHistory, h1]; exact h2
    · simpa [List.map_cons, List.reverse_cons, List.append_assoc] using hI3
    · rw [hc]; simp only [List.length_cons]; omega

section ChatLemmas

variable {R : Type} [LinearOrderedField R]

theorem postChatRoute_step (rt : Runtime R) (co : Collaborators R)
    (cacheTTL ttl now : Nat) (iso : Nat → String) (message sessionId : String) (world : World)
    (L : List HistoryItem) (s : Session) (hm : message ≠ "") (hid : sessionId ≠ "")
    (h : HistoryIs world.sessions sessionId L)
    (hs : recordAt world.sessions (sessionKey sessionId) = some s) :
    (postChatRoute rt co cacheTTL ttl now iso ⟨some message, some sessionId⟩
        world).response.status = 200 ∧
    HistoryIs (postChatRoute rt co cacheTTL ttl now iso ⟨some message, some sessionId⟩
        world).world.sessions sessionId
      (((⟨⟨message, (processQuery rt co cacheTTL (toUtf16 message) sessionId world.cache).response,
          iso now⟩, toString now⟩ : HistoryItem) :: L).take 50) ∧
    recordAt (postChatRoute rt co cacheTTL ttl now iso ⟨some message, some sessionId⟩
        world).world.sessions (sessionKey sessionId)
      = some ⟨s.id, s.createdAt, now, s.messageCount + 1⟩ := by
  obtain ⟨w1, h1, hI, hr⟩ := addToHistory_step_record ttl now sessionId
    ⟨message, (processQuery rt co cacheTTL (toUtf16 message) sessionId world.cache).response, iso now⟩
    world.sessions L s h hs
  unfold postChatRoute
  simp only [falsy, hm, hid, decide_False, Bool.or_self, Bool.false_eq_true, if_false,
    Option.getD_some, h1]
  exact ⟨trivial, hI, hr⟩

theorem postChatAll_spec (rt : Runtime R) (co : Collaborators R)
    (cacheTTL ttl : Nat) (iso : Nat → String) (sessionId : String) (hid : sessionId ≠ "")
    (msgs : List (Nat × String)) :
    ∀ (world : World) (L : List HistoryItem) (s : Session),
      (∀ c ∈ msgs, c.2 ≠ "") →
      HistoryIs world.sessions sessionId L →
      recordAt world.sessions (sessionKey sessionId) = some s →
      (postChatAll rt co cacheTTL ttl iso sessionId msgs world).1
          = List.replicate msgs.length 200 ∧
      ∃ s1, recordAt (postChatAll rt co cacheTTL ttl iso sessionId msgs world).2.sessions
          (sessionKey sessionId) = some s1 ∧
        (postChatAll rt co cacheTTL ttl iso sessionId msgs world).2.sessions.faults = [] ∧
        s1.messageCount = s.messageCount + msgs.length := by
  induction msgs with
  | nil =>
    intro world L s _ h hs
    exact ⟨rfl, s, hs, h.1, rfl⟩
  | cons c rest ih =>
    intro world L s hne h hs
    obtain ⟨now, message⟩ := c
    have hm : message ≠ "" := hne (now, message) (List.mem_cons_self _ _)
    obtain ⟨h200, hI, hr⟩ := postChatRoute_step rt co cacheTTL ttl now iso message sessionId
      world L s hm hid h hs
    obtain ⟨hst, s1, hr1, hf1, hc⟩ := ih _ _ _
      (fun c hc => hne c (List.mem_cons_of_mem _ hc)) hI hr
    simp only [postChatAll]
    refine ⟨?_, s1, hr1, hf1, ?_⟩
    · rw [hst, h200]; rfl
    · rw [hc]; simp only [List.length_cons]; omega

/-- C11: on a store that answers every command and holds no history for the
session, after `createSession(id)` and `n` sequential `addToHistory` calls
`getSession(id)` has `messageCount = n`; the same holds after `n` chat requests
with non-empty messages for a non-empty id, all of which are answered with `200`;
and after the single chat request `Hello`, `getSessionHistory(id)` returns one
entry, whose `user` is `Hello`. -/
theorem messageCount_after_chats (rt : Runtime R) (co : Collaborators R)
    (cacheTTL ttl now0 now : Nat) (iso : Nat → String) (sessionId : String)
    (calls : List (Nat × MessageData)) (msgs : List (Nat × String))
    (w : SessionStore) (cache : RagCache)
    (hf : w.faults = []) (h0 : lookupKey (historyKey sessionId) w.data = none) :
    ((addAllToHistory ttl sessionId calls (createSession ttl now0 sessionId w).2).1 = .ok () ∧
      (getSession sessionId
        (addAllToHistory ttl sessionId calls (createSession ttl now0 sessionId w).2).2).1.map
          Session.messageCount = some calls.length) ∧
    (sessionId ≠ "" → (∀ c ∈ msgs, c.2 ≠ "") →
      (postChatAll rt co cacheTTL ttl iso sessionId msgs
          ⟨cache, (createSession ttl now0 sessionId w).2⟩).1 = List.replicate msgs.length 200 ∧
      (getSession sessionId
        (postChatAll rt co cacheTTL ttl iso sessionId msgs
          ⟨cache, (createSession ttl now0 sessionId w).2⟩).2.sessions).1.map
          Session.messageCount = some msgs.length) ∧
    (sessionId ≠ "" →
      (getSessionHistory sessionId
        (postChatRoute rt co cacheTTL ttl now iso ⟨some "Hello", some sessionId⟩
          ⟨cache, (createSession ttl now0 sessionId w).2⟩).world.sessions).1
        = [⟨⟨"Hello", (processQuery rt co cacheTTL (toUtf16 "Hello") sessionId cache).response, iso now⟩,
            toString now⟩] ∧
      (getSession sessionId
        (postChatRoute rt co cacheTTL ttl now iso ⟨some "Hello", some sessionId⟩
          ⟨cache, (createSession ttl now0 sessionId w).2⟩).world.sessions).1.map
          Session.messageCount = some 1) := by
  obtain ⟨_, hcf, hcr, hco⟩ := createSession_of_nil ttl now0 sessionId w hf
  have hne : historyKey sessionId ≠ sessionKey sessionId :=
    fun h => sessionKey_ne_historyKey sessionId sessionId rfl h.symm
  have hI : HistoryIs (createSession ttl now0 sessionId w).2 sessionId [] :=
    ⟨hcf, Or.inl ⟨rfl, by rw [hco _ hne]; exact h0⟩⟩
  refine ⟨?_, ?_, ?_⟩
  · obtain ⟨w1, s1, h1, hI1, hr1, hc, _, _⟩ := addAllToHistory_record ttl sessionId calls
      (createSession ttl now0 sessionId w).2 [] _ hI hcr
    rw [h1]
    refine ⟨rfl, ?_⟩
    simp only
    rw [getSession_of_nil sessionId w1 hI1.1, hr1, Option.map_some', hc]
    simp
  · intro hid hmsgs
    obtain ⟨hst, s1, hr1, hf1, hc⟩ := postChatAll_spec rt co cacheTTL ttl iso sessionId hid msgs
      ⟨cache, (createSession ttl now0 sessionId w).2⟩ [] _ hmsgs hI hcr
    refine ⟨hst, ?_⟩
    rw [getSession_of_nil sessionId _ hf1, hr1, Option.map_some', hc]
    simp
  · intro hid
    obtain ⟨_, hI1, hr1⟩ := postChatRoute_step rt co cacheTTL ttl now iso "Hello" sessionId
      ⟨cache, (createSession ttl now0 sessionId w).2⟩ [] _ (by decide) hid hI hcr
    refine ⟨?_, ?_⟩
    · rw [getSessionHistory_of_historyIs sessionId _ _ hI1]
      rfl
    · rw [getSession_of_nil sessionId _ hI1.1, hr1]
      rfl

end ChatLemmas

/-- Witness for C11: the session `S1` is created and receives the chat message
`Hello`. -/
theorem messageCount_after_chats_witness :
    (⟨[], []⟩ : SessionStore).faults = [] ∧
    lookupKey (historyKey "S1") (⟨[], []⟩ : SessionStore).data = none ∧
    (getSessionHistory "S1"
      (postChatRoute sampleRuntime sampleCollaborators 1800 3600 7 (fun t => toString t)
        ⟨some "Hello", some "S1"⟩
        ⟨⟨[], []⟩, (createSession 3600 5 "S1" ⟨[], []⟩).2⟩).world.sessions).1.map
      (fun item => item.user) = ["Hello"] ∧
    (getSession "S1"
      (postChatRoute sampleRuntime sampleCollaborators 1800 3600 7 (fun t => toString t)
        ⟨some "Hello", some "S1"⟩
        ⟨⟨[], []⟩, (createSession 3600 5 "S1" ⟨[], []⟩).2⟩).world.sessions).1.map
      Session.messageCount = some 1 :=
  ⟨rfl, rfl,
    congrArg (List.map (fun item => item.user))
      ((messageCount_after_chats sampleRuntime sampleCollaborators 1800 3600 5 7
        (fun t => toString t) "S1" [] [] ⟨[], []⟩ ⟨[], []⟩ rfl rfl).2.2 (by decide)).1,
    ((messageCount_after_chats sampleRuntime sampleCollaborators 1800 3600 5 7
        (fun t => toString t) "S1" [] [] ⟨[], []⟩ ⟨[], []⟩ rfl rfl).2.2 (by decide)).2⟩

/-! ## The context of the prompt (C13) -/

theorem articleBlocks_length (row : List (Option Metadata)) (docs : List String) :
    ∀ index, (articleBlocks row docs index).length = docs.length := by
  induction docs with
  | nil => intro index; rfl
  | cons d rest ih => intro index; simp [articleBlocks, ih]

theorem articleBlocks_get? (row : List (Option Metadata)) (docs : List String) :
    ∀ (index i : Nat), (articleBlocks row docs index).get? i
      = (docs.get? i).map
          (fun doc => articleBlock (index + i) doc ((row.get? (index + i)).join)) := by
  induction docs with
  | nil => intro index i; simp [articleBlocks]
  | cons d rest ih =>
    intro index i
    cases i with
    | zero => simp [articleBlocks]
    | succ j =>
      simp only [articleBlocks, List.get?_cons_succ, ih]
      have : index + 1 + j = index + (j + 1) := by omega
      rw [this]

theorem buildContext_cons (doc : String) (docs : List String)
    (row : List (Option Metadata)) (tail : List (List (Option Metadata))) :
    buildContext (doc :: docs) (some (row :: tail))
      = .ok (String.intercalate "\n\n" (articleBlocks row ((doc :: docs).take 3) 0)) := by
  unfold buildContext
  simp only [List.take_succ_cons]

set_option linter.deprecated false in
theorem articleBlocks_take_get? (row : List (Option Metadata)) (docs : List String) (i : Nat)
    (h3 : i < 3) (hl : i < docs.length) :
    (articleBlocks row (docs.take 3) 0).get? i
      = some (articleBlock i (docs.getD i "") ((row.get? i).join)) := by
  rw [articleBlocks_get?, List.get?_take h3, List.get?_eq_get hl, Option.map_some',
    Nat.zero_add, List.getD_eq_get _ _ hl]

/-- C13 (as amended): for a retrieval result with `n ≥ 1` documents and a first
row of metadata, the context is the blocks joined by a blank line; there are
`min n 3` blocks; block `i` (counted from `0`) is numbered `i + 1` and shows, in
this order, the title, the `i`-th document, the source and the publication date
of the `i`-th metadata record, where `News Article`, `Unknown` and `Unknown`
stand in for a title, url or date that is missing or empty. -/
theorem buildContext_spec (doc : String) (docs : List String)
    (row : List (Option Metadata)) (tail : List (List (Option Metadata))) :
    ∃ blocks : List String,
      buildContext (doc :: docs) (some (row :: tail))
        = .ok (String.intercalate "\n\n" blocks) ∧
      blocks.length = min (docs.length + 1) 3 ∧
      ∀ i, i < blocks.length →
        blocks.get? i = some
          ("Article " ++ toString (i + 1) ++ ": "
            ++ orDefault ((row.get? i).join.bind Metadata.title) "News Article"
            ++ "\nContent: " ++ (doc :: docs).getD i ""
            ++ "\nSource: " ++ orDefault ((row.get? i).join.bind Metadata.url) "Unknown"
            ++ "\nPublished: "
            ++ orDefault ((row.get? i).join.bind Metadata.published_date) "Unknown") := by
  refine ⟨articleBlocks row ((doc :: docs).take 3) 0, buildContext_cons doc docs row tail, ?_, ?_⟩
  · rw [articleBlocks_length, List.length_take, List.length_cons, Nat.min_comm]
  · intro i hi
    rw [articleBlocks_length, List.length_take, List.length_cons] at hi
    have h3 : i < 3 := lt_of_lt_of_le hi (Nat.min_le_left _ _)
    have hl : i < (doc :: docs).length := lt_of_lt_of_le hi (Nat.min_le_right _ _)
    rw [articleBlocks_take_get? row (doc :: docs) i h3 hl]
    rfl

/-- Witness for C13: four documents, of which the first has a title and an empty
url. -/
theorem buildContext_spec_witness :
    buildContext ["d1", "d2", "d3", "d4"] (some [[some ⟨some "T", some "", none⟩]])
      = .ok ("Article 1: T\nContent: d1\nSource: Unknown\nPublished: Unknown\n\n"
          ++ "Article 2: News Article\nContent: d2\nSource: Unknown\nPublished: Unknown\n\n"
          ++ "Article 3: News Article\nContent: d3\nSource: Unknown\nPublished: Unknown") ∧
    ∃ blocks : List String,
      buildContext ["d1", "d2", "d3", "d4"] (some [[some ⟨some "T", some "", none⟩]])
        = .ok (String.intercalate "\n\n" blocks) ∧ blocks.length = min (3 + 1) 3 :=
  ⟨rfl,
    (buildContext_spec "d1" ["d2", "d3", "d4"] [some ⟨some "T", some "", none⟩] []).imp
      (fun _ h => ⟨h.1, h.2.1⟩)⟩

/-- Counterexample for C13.  A metadata record whose url is present and empty
(what the ingestion script writes for an item without link) is rendered with
`Unknown`, not with its url as the wording for a missing field would have it;
and a result with a document but without metadata has no context at all: the
read of `metadatas[0]` throws. -/
theorem buildContext_counterexample :
    (⟨some "T", some "", some "p"⟩ : Metadata).url ≠ none ∧
    buildContext ["d"] (some [[some ⟨some "T", some "", some "p"⟩]])
      = .ok "Article 1: T\nContent: d\nSource: Unknown\nPublished: p" ∧
    buildContext ["d"] (some [[some ⟨some "T", some "", some "p"⟩]])
      ≠ .ok (specArticleBlock 0 "d" (some ⟨some "T", some "", some "p"⟩)) ∧
    buildContext ["d"] none = .error .typeError := by
  refine ⟨by decide, rfl, ?_, rfl⟩
  intro h
  exact absurd (Except.ok.inj h) (by decide)

/-! ## The HTTP routes (C14, C15) -/

theorem getHistoryRoute_eq (sessionId : String) (w : SessionStore) :
    (getHistoryRoute sessionId w).1 = ⟨200, .history (getSessionHistory sessionId w).1⟩ := by
  unfold getHistoryRoute
  rfl

theorem getHistoryRoute_status (sessionId : String) (w : SessionStore) :
    (getHistoryRoute sessionId w).1.status = 200 := by
  unfold getHistoryRoute
  rfl

theorem getHistoryRoute_faulted (sessionId : String) (w : SessionStore)
    (hf : w.faulted = true) :
    (getHistoryRoute sessionId w).1 = ⟨200, .history []⟩ := by
  unfold getHistoryRoute getSessionHistory Redis.lRange
  simp [hf]

/-- C14, evaluated where it fails.  The session `S1` has one history entry and
the store rejects the read: `GET /api/session/S1/history` answers `200` with an
empty history, although with a store that answers the history has one entry;
`DELETE /api/session/S1` with the same store answers `500`. -/
theorem getHistoryRoute_store_failure :
    unreachableSessions.faulted = true ∧
    (getHistoryRoute "S1" unreachableSessions).1 = ⟨200, .history []⟩ ∧
    (getHistoryRoute "S1" { unreachableSessions with faults := [] }).1
      = ⟨200, .history [⟨⟨"Hello", "Hi", "t0"⟩, "0"⟩]⟩ ∧
    (deleteSessionRoute "S1" unreachableSessions).1
      = ⟨500, .error "Failed to clear session"⟩ := by
  refine ⟨rfl, getHistoryRoute_faulted "S1" unreachableSessions rfl, ?_, rfl⟩
  have hI : HistoryIs { unreachableSessions with faults := [] } "S1"
      [⟨⟨"Hello", "Hi", "t0"⟩, "0"⟩] :=
    ⟨rfl, Or.inr ⟨by simp, some 3600, by decide⟩⟩
  rw [getHistoryRoute_eq, getSessionHistory_of_historyIs "S1" _ _ hI]
  rfl

section ChatGuard

variable {R : Type} [LinearOrderedField R]

/-- C15 (as amended): `POST /api/chat` answers `400` exactly when `message` or
`sessionId` is falsy, that is, missing or the empty text; and then no service
method is called, the pipeline makes no call, and the cache and the session
keyspace are as before. -/
theorem postChatRoute_400_iff (rt : Runtime R) (co : Collaborators R)
    (cacheTTL ttl now : Nat) (iso : Nat → String) (body : ChatBody) (world : World) :
    ((postChatRoute rt co cacheTTL ttl now iso body world).response.status = 400 ↔
      (body.message = none ∨ body.message = some "" ∨
        body.sessionId = none ∨ body.sessionId = some "")) ∧
    ((postChatRoute rt co cacheTTL ttl now iso body world).response.status = 400 →
      (postChatRoute rt co cacheTTL ttl now iso body world).calls = [] ∧
      (postChatRoute rt co cacheTTL ttl now iso body world).events = [] ∧
      (postChatRoute rt co cacheTTL ttl now iso body world).world = world) := by
  have hfalsy : ∀ v : Option String, falsy v = true ↔ (v = none ∨ v = some "") := by
    intro v
    cases v with
    | none => simp [falsy]
    | some s => simp [falsy]
  by_cases hg : (falsy body.message || falsy body.sessionId) = true
  · have hres : postChatRoute rt co cacheTTL ttl now iso body world
        = ⟨⟨400, .error "Message and sessionId are required"⟩, [], [], world⟩ := by
      unfold postChatRoute
      simp only [hg, if_true]
    rw [hres]
    refine ⟨⟨fun _ => ?_, fun _ => rfl⟩, fun _ => ⟨rfl, rfl, rfl⟩⟩
    rw [Bool.or_eq_true, hfalsy, hfalsy] at hg
    rcases hg with (h | h) | (h | h)
    · exact Or.inl h
    · exact Or.inr (Or.inl h)
    · exact Or.inr (Or.inr (Or.inl h))
    · exact Or.inr (Or.inr (Or.inr h))
  · have hne : (postChatRoute rt co cacheTTL ttl now iso body world).response.status ≠ 400 := by
      unfold postChatRoute
      simp only [hg, Bool.false_eq_true, if_false]
      split <;> simp
    refine ⟨⟨fun h => absurd h hne, fun h => ?_⟩, fun h => absurd h hne⟩
    exfalso
    apply hg
    rw [Bool.or_eq_true, hfalsy, hfalsy]
    rcases h with h | h | h | h
    · exact Or.inl (Or.inl h)
    · exact Or.inl (Or.inr h)
    · exact Or.inr (Or.inl h)
    · exact Or.inr (Or.inr h)

end ChatGuard

/-- Witness for C15: a body without `message`. -/
theorem postChatRoute_400_iff_witness :
    (postChatRoute sampleRuntime sampleCollaborators 1800 3600 7 (fun t => toString t)
        ⟨none, some "S1"⟩ ⟨⟨[], []⟩, ⟨[], []⟩⟩).response.status = 400 ∧
    (postChatRoute sampleRuntime sampleCollaborators 1800 3600 7 (fun t => toString t)
        ⟨none, some "S1"⟩ ⟨⟨[], []⟩, ⟨[], []⟩⟩).calls = [] :=
  ⟨rfl,
    ((postChatRoute_400_iff sampleRuntime sampleCollaborators 1800 3600 7 (fun t => toString t)
      ⟨none, some "S1"⟩ ⟨⟨[], []⟩, ⟨[], []⟩⟩).2 rfl).1⟩

/-- Counterexample for C15: the body carries both fields, `message` being the
empty text, and the answer is `400`. -/
theorem postChatRoute_empty_message_counterexample :
    (⟨some "", some "S1"⟩ : ChatBody).message ≠ none ∧
    (⟨some "", some "S1"⟩ : ChatBody).sessionId ≠ none ∧
    (postChatRoute sampleRuntime sampleCollaborators 1800 3600 7 (fun t => toString t)
        ⟨some "", some "S1"⟩ ⟨⟨[], []⟩, ⟨[], []⟩⟩).response.status = 400 := by
  refine ⟨by decide, by decide, rfl⟩

end RagChatbot
